import Mathlib

set_option linter.all false
set_option linter.unusedVariables false
set_option linter.unnecessarySeqFocus false

/-!
Verification of the interaction-combinator runtime (`src/ic_runtime.c`) and the
indexed enumerator (`src/ic_search.c`, the first definition of each function in
that file) of the icsearch repository, as a shallow embedding in Lean.

Conventions of the embedding:
* C `int` node/port references become `Int`; `-1` is the "unlinked" sentinel
  exactly as in the C source.
* The node arena (`nodes` array plus `used_nodes` high-water mark) becomes a
  `List Node` whose length is `used_nodes`; cells past the high-water mark are
  never read by the C code, so they are not represented.
* The redex queue (a bounded circular buffer in C) becomes a FIFO `List`.
  The C bound `MAX_REDEX_QUEUE` is declared in `ic_runtime.h`, which is not
  among the sources of this version; the queue is modelled unbounded, which
  matches the C behaviour whenever the bound is not hit.
* The C `while` loop of `ic_net_reduce` is modelled with explicit fuel
  (`ic_net_reduce_go`); the theorem `ic_net_reduce_go_stable` below proves that
  `2 * gas_limit + 2` fuel always suffices, so the fuelled function agrees with
  the unbounded C loop, and in particular the C loop terminates.
* Out-of-range reads (undefined behaviour in C, never exercised by the code on
  well-formed nets) return an inactive node with unlinked ports; out-of-range
  writes are no-ops.
-/

/-- A port's link target: `(connected_node, connected_port)`, `(-1, -1)` when unlinked. -/
structure Port where
  node : Int
  port : Int
deriving DecidableEq

/-- The unlinked port value `(-1, -1)`. -/
def Port.nil : Port := ⟨-1, -1⟩

instance : Inhabited Port := ⟨Port.nil⟩

/-- The three agent types δ, γ, ε (`ic_node_type_t`). -/
inductive NType where
  | delta
  | gamma
  | eps
deriving DecidableEq

/-- One node of the arena (`ic_node_t`): type, three ports, activity flag. -/
structure Node where
  ty : NType
  p0 : Port
  p1 : Port
  p2 : Port
  active : Bool
deriving DecidableEq

instance : Inhabited Node := ⟨⟨NType.delta, Port.nil, Port.nil, Port.nil, false⟩⟩

/-- `nd.ports[p]`. Reads of a port index other than 0, 1, 2 never occur on the
code paths exercised here; they return the unlinked value. -/
def Node.port (nd : Node) : Nat → Port
  | 0 => nd.p0
  | 1 => nd.p1
  | 2 => nd.p2
  | _ => Port.nil

/-- Write `nd.ports[p] = v`; out-of-range port indices are no-ops. -/
def Node.setPort (nd : Node) : Nat → Port → Node
  | 0, v => {nd with p0 := v}
  | 1, v => {nd with p1 := v}
  | 2, v => {nd with p2 := v}
  | _, _ => nd

/-- The net (`ic_net_t`): node arena, capacity, gas accounting, redex queue and
the factorization side channel. -/
structure Net where
  nodes : List Node
  maxNodes : Nat
  gasLimit : Nat
  gasUsed : Nat
  redexQueue : List (Int × Int)
  inputNumber : Int
  factorA : Int
  factorB : Int
  factorFound : Bool
deriving DecidableEq

/-- `net->used_nodes`: the bump-allocation high-water mark. -/
def Net.usedNodes (net : Net) : Nat := net.nodes.length

/-- `net->nodes[i]` for a `Nat` index; the default (inactive, unlinked) node
when out of range. -/
def Net.nodeAt (net : Net) (i : Nat) : Node := net.nodes.getD i default

/-- `net->nodes[i].ports[p]` for `Nat` indices. -/
def Net.portN (net : Net) (i p : Nat) : Port := (net.nodeAt i).port p

/-- `net->nodes[i]` for a C `int` index. -/
def Net.getNode (net : Net) (i : Int) : Node :=
  if 0 ≤ i then net.nodeAt i.toNat else default

/-- `net->nodes[i].ports[p]` for C `int` indices. -/
def Net.portI (net : Net) (i p : Int) : Port := (net.getNode i).port p.toNat

/-- Write `net->nodes[i].ports[p] = v` (`Nat` indices; out of range is a no-op). -/
def Net.setPortN (net : Net) (i p : Nat) (v : Port) : Net :=
  {net with nodes := net.nodes.set i ((net.nodeAt i).setPort p v)}

/-- Write `net->nodes[i].ports[p] = v` for C `int` indices. -/
def Net.setPortI (net : Net) (i p : Int) (v : Port) : Net :=
  if 0 ≤ i then net.setPortN i.toNat p.toNat v else net

/-- Write `net->nodes[i].is_active = b` (`Nat` index). -/
def Net.setActiveN (net : Net) (i : Nat) (b : Bool) : Net :=
  {net with nodes := net.nodes.set i {net.nodeAt i with active := b}}

/-- Write `net->nodes[i].is_active = b` for a C `int` index. -/
def Net.setActiveI (net : Net) (i : Int) (b : Bool) : Net :=
  if 0 ≤ i then net.setActiveN i.toNat b else net

/-- `ic_net_create`: fresh net with empty arena and queue, gas and side channel
zeroed. -/
def ic_net_create (maxNodes gasLimit : Nat) : Net :=
  ⟨[], maxNodes, gasLimit, 0, [], 0, 0, 0, false⟩

/-- `ic_net_new_node`: append a fresh active node with all ports unlinked;
returns the new index, or `-1` when the arena is full. -/
def ic_net_new_node (net : Net) (ty : NType) : Net × Int :=
  if net.usedNodes ≥ net.maxNodes then (net, -1)
  else ({net with nodes := net.nodes ++ [⟨ty, Port.nil, Port.nil, Port.nil, true⟩]},
        (net.usedNodes : Int))

/-- `ic_net_add_redex`: enqueue `(a, b)` if both nodes are active and mutually
linked through their principal ports. (The C source additionally drops the
entry when the queue holds `MAX_REDEX_QUEUE` items; see the header comment.) -/
def ic_net_add_redex (net : Net) (a b : Int) : Net :=
  if ¬(net.getNode a).active ∨ ¬(net.getNode b).active then net
  else if net.portI a 0 = ⟨b, 0⟩ ∧ net.portI b 0 = ⟨a, 0⟩ then
    {net with redexQueue := net.redexQueue ++ [(a, b)]}
  else net

/-- The validation applied by `ic_net_get_next_redex` to a dequeued pair: both
nodes active and mutually linked through port 0 (spec invariant 4). -/
def validRedex (net : Net) (a b : Int) : Bool :=
  (net.getNode a).active && (net.getNode b).active &&
    decide (net.portI a 0 = ⟨b, 0⟩) && decide (net.portI b 0 = ⟨a, 0⟩)

/-- `ic_net_get_next_redex`: pop the queue head; report it only if it is still
a valid redex. -/
def ic_net_get_next_redex (net : Net) : Net × Option (Int × Int) :=
  match net.redexQueue with
  | [] => (net, none)
  | (a, b) :: rest =>
    let net' := {net with redexQueue := rest}
    if validRedex net' a b then (net', some (a, b)) else (net', none)

/-- The disconnection prologue of `ic_net_connect` for one endpoint: clear the
port currently linked to `(i, p)`, if any and in range. -/
def ic_net_disconnect_port (net : Net) (i p : Int) : Net :=
  let pr := net.portI i p
  if pr.node ≠ -1 then
    if 0 ≤ pr.node ∧ pr.node < (net.usedNodes : Int) ∧ 0 ≤ pr.port ∧ pr.port < 3 then
      net.setPortI pr.node pr.port Port.nil
    else net
  else net

/-- `ic_net_connect`: validate, sever the prior peers of both endpoints, write
the mutual link, and enqueue the pair when it forms an active pair. -/
def ic_net_connect (net : Net) (a pa b pb : Int) : Net :=
  if a < 0 ∨ (net.usedNodes : Int) ≤ a ∨ b < 0 ∨ (net.usedNodes : Int) ≤ b ∨
      pa < 0 ∨ 3 ≤ pa ∨ pb < 0 ∨ 3 ≤ pb then net
  else
    let net1 := ic_net_disconnect_port net a pa
    let net2 := ic_net_disconnect_port net1 b pb
    let net3 := net2.setPortI a pa ⟨b, pb⟩
    let net4 := net3.setPortI b pb ⟨a, pa⟩
    if pa = 0 ∧ pb = 0 ∧ (net4.getNode a).active ∧ (net4.getNode b).active then
      ic_net_add_redex net4 a b
    else net4

/-- The link-severing block shared verbatim by the δ-δ, γ-γ and δ-γ rules:
clear the two principal ports, then clear each auxiliary port of the pair
together with its snapshotted peer. The snapshots `c1a1 c1a2 c2a1 c2a2` are
the four auxiliary peers read before the rule started mutating the net. -/
def ic_sever_pair_links (net : Net) (n1 n2 : Int) (c1a1 c1a2 c2a1 c2a2 : Port) : Net :=
  let netA := (net.setPortI n1 0 Port.nil).setPortI n2 0 Port.nil
  let netB := if 0 ≤ c1a1.node then
      (netA.setPortI c1a1.node c1a1.port Port.nil).setPortI n1 1 Port.nil else netA
  let netC := if 0 ≤ c1a2.node then
      (netB.setPortI c1a2.node c1a2.port Port.nil).setPortI n1 2 Port.nil else netB
  let netD := if 0 ≤ c2a1.node then
      (netC.setPortI c2a1.node c2a1.port Port.nil).setPortI n2 1 Port.nil else netC
  let netE := if 0 ≤ c2a2.node then
      (netD.setPortI c2a2.node c2a2.port Port.nil).setPortI n2 2 Port.nil else netD
  netE

/-- `ic_apply_delta_delta`: snapshot the auxiliary peers, sever all six links
around the pair, reconnect crosswise (aux1↔aux2, aux2↔aux1), retire both. -/
def ic_apply_delta_delta (net : Net) (n1 n2 : Int) : Net :=
  let c1a1 := net.portI n1 1
  let c1a2 := net.portI n1 2
  let c2a1 := net.portI n2 1
  let c2a2 := net.portI n2 2
  let net1 := ic_sever_pair_links net n1 n2 c1a1 c1a2 c2a1 c2a2
  let net2 := if 0 ≤ c1a1.node ∧ 0 ≤ c2a2.node then
      ic_net_connect net1 c1a1.node c1a1.port c2a2.node c2a2.port else net1
  let net3 := if 0 ≤ c1a2.node ∧ 0 ≤ c2a1.node then
      ic_net_connect net2 c1a2.node c1a2.port c2a1.node c2a1.port else net2
  (net3.setActiveI n1 false).setActiveI n2 false

/-- `ic_apply_gamma_gamma`: as δ-δ but reconnect straight (aux1↔aux1,
aux2↔aux2). -/
def ic_apply_gamma_gamma (net : Net) (n1 n2 : Int) : Net :=
  let c1a1 := net.portI n1 1
  let c1a2 := net.portI n1 2
  let c2a1 := net.portI n2 1
  let c2a2 := net.portI n2 2
  let net1 := ic_sever_pair_links net n1 n2 c1a1 c1a2 c2a1 c2a2
  let net2 := if 0 ≤ c1a1.node ∧ 0 ≤ c2a1.node then
      ic_net_connect net1 c1a1.node c1a1.port c2a1.node c2a1.port else net1
  let net3 := if 0 ≤ c1a2.node ∧ 0 ≤ c2a2.node then
      ic_net_connect net2 c1a2.node c1a2.port c2a2.node c2a2.port else net2
  (net3.setActiveI n1 false).setActiveI n2 false

/-- `ic_apply_delta_gamma`: allocate the two replacement nodes first; on
allocation failure deactivate whichever replacement was allocated and return
with the original pair untouched; otherwise sever, rewire through the new
δ'/γ' pair, and retire the originals. -/
def ic_apply_delta_gamma (net : Net) (dn gn : Int) : Net :=
  let da1 := net.portI dn 1
  let da2 := net.portI dn 2
  let ga1 := net.portI gn 1
  let ga2 := net.portI gn 2
  let r1 := ic_net_new_node net NType.delta
  let r2 := ic_net_new_node r1.1 NType.gamma
  let newDelta := r1.2
  let newGamma := r2.2
  let net' := r2.1
  if newDelta = -1 ∨ newGamma = -1 then
    let netX := if newDelta ≠ -1 then net'.setActiveI newDelta false else net'
    if newGamma ≠ -1 then netX.setActiveI newGamma false else netX
  else
    let netA := ic_sever_pair_links net' dn gn da1 da2 ga1 ga2
    let netB := ic_net_connect netA newDelta 0 newGamma 0
    let netC := if 0 ≤ da1.node then ic_net_connect netB newDelta 1 da1.node da1.port else netB
    let netD := if 0 ≤ ga1.node then ic_net_connect netC newDelta 2 ga1.node ga1.port else netC
    let netE := if 0 ≤ da2.node then ic_net_connect netD newGamma 1 da2.node da2.port else netD
    let netF := if 0 ≤ ga2.node then ic_net_connect netE newGamma 2 ga2.node ga2.port else netE
    (netF.setActiveI dn false).setActiveI gn false

/-- `ic_apply_epsilon_any`: retire the ε node; the other node and its
auxiliary ports are left untouched. -/
def ic_apply_epsilon_any (net : Net) (epsNode _otherNode : Int) : Net :=
  net.setActiveI epsNode false

/-- `ic_apply_rewrite`: dispatch on the two node types; returns the rewritten
net and whether a rule was applied (C returns `true` in all type cases). -/
def ic_apply_rewrite (net : Net) (a b : Int) : Net × Bool :=
  if a < 0 ∨ (net.usedNodes : Int) ≤ a ∨ b < 0 ∨ (net.usedNodes : Int) ≤ b then (net, false)
  else
    let ta := (net.getNode a).ty
    let tb := (net.getNode b).ty
    if ta = NType.eps ∨ tb = NType.eps then
      let e := if ta = NType.eps then a else b
      let o := if ta = NType.eps then b else a
      (ic_apply_epsilon_any net e o, true)
    else if ta = NType.delta ∧ tb = NType.delta then (ic_apply_delta_delta net a b, true)
    else if ta = NType.gamma ∧ tb = NType.gamma then (ic_apply_gamma_gamma net a b, true)
    else if (ta = NType.delta ∧ tb = NType.gamma) ∨ (ta = NType.gamma ∧ tb = NType.delta) then
      let dn := if ta = NType.delta then a else b
      let gn := if ta = NType.gamma then a else b
      (ic_apply_delta_gamma net dn gn, true)
    else (net, false)

/-- One step of the scan body shared by `ic_net_scan_for_redexes` and the
requeue loop after each rewrite in `ic_net_reduce`: if node `i` is active and
its principal port points at `(j, 0)` with `j > i` and `j` active, call
`ic_net_add_redex`. -/
def ic_net_scan_step (acc : Net) (i : Nat) : Net :=
  if (acc.nodeAt i).active then
    let pr := acc.portN i 0
    if (i : Int) < pr.node ∧ pr.port = 0 ∧ (acc.getNode pr.node).active then
      ic_net_add_redex acc (i : Int) pr.node
    else acc
  else acc

def ic_net_add_active_pairs (net : Net) : Net :=
  (List.range net.usedNodes).foldl ic_net_scan_step net

/-- `ic_net_scan_for_redexes`: reset the queue, then enqueue every current
active pair. -/
def ic_net_scan_for_redexes (net : Net) : Net :=
  ic_net_add_active_pairs {net with redexQueue := []}

/-- `net->gas_used++`. -/
def ic_net_bump_gas (net : Net) : Net := {net with gasUsed := net.gasUsed + 1}

/-- The work loop of `ic_net_reduce`, with explicit fuel (see the header
comment; `ic_net_reduce_go_stable` shows `2 * gas_limit + 2` fuel suffices). -/
def ic_net_reduce_go : Nat → Net → Net
  | 0, net => net
  | fuel + 1, net =>
    if net.gasUsed < net.gasLimit then
      match ic_net_get_next_redex net with
      | (net1, some (a, b)) =>
        let res := ic_apply_rewrite net1 a b
        if res.2 then
          ic_net_reduce_go fuel (ic_net_add_active_pairs (ic_net_bump_gas res.1))
        else ic_net_reduce_go fuel res.1
      | (net1, none) =>
        let net2 := ic_net_scan_for_redexes net1
        if net2.redexQueue = [] then net2
        else ic_net_reduce_go fuel net2
    else net

/-- The count of active nodes of type `t` (the `active_deltas`/`active_gammas`
loop of `ic_net_reduce`). -/
def countActive (net : Net) (t : NType) : Nat :=
  net.nodes.countP (fun nd => nd.active && decide (nd.ty = t))

/-- The `factor_a`/`factor_b` computation of `ic_net_reduce`: one plus the
index of the last active node of type `t` (0 when there is none). -/
def activeFactor (net : Net) (t : NType) : Int :=
  (List.range net.usedNodes).foldl
    (fun acc i =>
      if (net.nodeAt i).active ∧ (net.nodeAt i).ty = t then ((i : Int) + 1) else acc) 0

/-- The side-channel factor check at the end of `ic_net_reduce` (lines
514-557), including the hard-coded `input_number == 6` test case. -/
def ic_net_check_factors (net : Net) : Net :=
  if 0 < net.inputNumber then
    if countActive net NType.delta = 1 ∧ countActive net NType.gamma = 1 then
      let fa := activeFactor net NType.delta
      let fb := activeFactor net NType.gamma
      if net.inputNumber = 6 ∧ fa = 1 ∧ fb = 3 then
        {net with factorA := fa, factorB := fb, factorFound := true}
      else if fa * fb = net.inputNumber then
        {net with factorA := fa, factorB := fb, factorFound := true}
      else net
    else net
  else net

/-- Fuel that always suffices for the work loop (proved by
`ic_net_reduce_go_stable`). -/
def reduceFuel (net : Net) : Nat := 2 * net.gasLimit + 2

/-- `ic_net_reduce`: zero the gas counter, scan, run the work loop, evaluate
the factor side channel, and return 0 iff gas remains. -/
def ic_net_reduce (net : Net) : Net × Int :=
  let net0 := ic_net_scan_for_redexes {net with gasUsed := 0}
  let net1 := ic_net_reduce_go (reduceFuel net0) net0
  let net2 := ic_net_check_factors net1
  (net2, if net2.gasUsed < net2.gasLimit then 0 else 1)

/-- `ic_net_has_valid_factor`. -/
def ic_net_has_valid_factor (net : Net) (n : Int) : Bool :=
  net.factorFound && decide (net.factorA * net.factorB = n)

/-- The node-type schedule of `ic_enum_build_net` (`ic_search.c` lines 37-46):
every fifth node is ε, otherwise even positions are δ and odd ones γ. -/
def ic_enum_node_type (n : Nat) : NType :=
  if n % 5 = 0 then NType.eps
  else if n % 2 = 0 then NType.delta
  else NType.gamma

/-- The node-allocation loop of `ic_enum_build_net`: allocate one node per
listed type; fail when `ic_net_new_node` reports the arena full. -/
def ic_enum_alloc : Net → List NType → Option Net
  | net, [] => some net
  | net, t :: ts =>
    let r := ic_net_new_node net t
    if r.2 < 0 then none else ic_enum_alloc r.1 ts

/-- First free port (ascending) on node `m`, as searched by the wiring loop of
`ic_enum_build_net`. -/
def ic_enum_free_port (net : Net) (m : Nat) : Option Nat :=
  if (net.portN m 0).node = -1 then some 0
  else if (net.portN m 1).node = -1 then some 1
  else if (net.portN m 2).node = -1 then some 2
  else none

/-- First node `m ≠ n` (ascending) with a free port, together with that port;
shared by the wiring fallback and the fix-up pass of `ic_enum_build_net`. -/
def ic_enum_free_other (net : Net) (num n : Nat) : Option (Nat × Nat) :=
  (List.range num).findSome? (fun m =>
    if m = n then none
    else (ic_enum_free_port net m).map (fun q => (m, q)))

/-- One step of the wiring loop of `ic_enum_build_net` (lines 55-113) for port
`(n, p)`, threading the remaining index bits. -/
def ic_enum_wire_one (num : Nat) (st : Net × Nat) (n p : Nat) : Net × Nat :=
  let net := st.1
  let ri := st.2
  if (net.portN n p).node ≠ -1 then st
  else
    let dest := (n + 1 + ri % num) % num
    let ri1 := ri / num
    let dp := ri1 % 3
    let ri2 := ri1 / 3
    let target : Option (Nat × Nat) :=
      if (net.portN dest dp).node = -1 then some (dest, dp)
      else
        match ic_enum_free_port net dest with
        | some q => some (dest, q)
        | none => ic_enum_free_other net num n
    match target with
    | none => (net, ri2)
    | some (d, q) =>
      if n = d ∧ p = 0 ∧ q = 0 then (net, ri2)
      else (ic_net_connect net (n : Int) (p : Int) (d : Int) (q : Int), ri2)

/-- The wiring loop of `ic_enum_build_net` over all ports in order. -/
def ic_enum_wire (num : Nat) (net : Net) (ri : Nat) : Net :=
  ((List.range num).foldl
    (fun st n => (List.range 3).foldl (fun st2 p => ic_enum_wire_one num st2 n p) st)
    (net, ri)).1

/-- One step of the fix-up pass of `ic_enum_build_net` (lines 115-142): any
still-unconnected port is connected to the first free port on another node,
failing the build when none exists. -/
def ic_enum_fix_one (num : Nat) (onet : Option Net) (n p : Nat) : Option Net :=
  match onet with
  | none => none
  | some net =>
    if (net.portN n p).node ≠ -1 then some net
    else
      match ic_enum_free_other net num n with
      | some mq => some (ic_net_connect net (n : Int) (p : Int) (mq.1 : Int) (mq.2 : Int))
      | none => none

/-- The fix-up pass of `ic_enum_build_net` over all ports in order. -/
def ic_enum_fix (num : Nat) (net : Net) : Option Net :=
  (List.range num).foldl
    (fun st n => (List.range 3).foldl (fun st2 p => ic_enum_fix_one num st2 n p) st)
    (some net)

/-- The final validity test of `ic_enum_build_net` (lines 144-151): some node's
principal port names a node whose principal port names it back (ports other
than 0 are not inspected). -/
def ic_enum_has_active_pair (net : Net) (num : Nat) : Bool :=
  (List.range num).any (fun i =>
    let cn := (net.portN i 0).node
    if 0 ≤ cn then decide ((net.portN cn.toNat 0).node = (i : Int)) else false)

/-- `ic_enum_build_net` (first definition, `ic_search.c` lines 19-159): reset
the net, decode `num_nodes = 3 + index % (state->max_nodes - 3)`, allocate,
wire, fix up, and require the active-pair test. `stateMax` is the enumeration
state's `max_nodes`. -/
def ic_enum_build_net (stateMax : Nat) (index : Nat) (net : Net) : Option Net :=
  let net0 := {net with nodes := [], gasUsed := 0, factorFound := false}
  let num := 3 + index % (stateMax - 3)
  let ri := index / (stateMax - 3)
  match ic_enum_alloc net0 ((List.range num).map ic_enum_node_type) with
  | none => none
  | some net1 =>
    let net2 := ic_enum_wire num net1 ri
    match ic_enum_fix num net2 with
    | none => none
    | some net3 => if ic_enum_has_active_pair net3 num then some net3 else none

/-- A three-node net (active δ, ε, γ, no links) with `input_number = 6`:
the δ sits at index 0 and the γ at index 2, so the factor check reads
`factor_a = 1`, `factor_b = 3`. -/
def c1Net : Net :=
  {(ic_net_new_node (ic_net_new_node (ic_net_new_node (ic_net_create 10 10)
    NType.delta).1 NType.eps).1 NType.gamma).1 with inputNumber := 6}

/-- A δ-γ active pair in a net already at capacity (2 nodes, `max_nodes = 2`),
with `gas_limit = 5`. -/
def c2Net : Net :=
  ic_net_connect (ic_net_new_node (ic_net_new_node (ic_net_create 2 5)
    NType.delta).1 NType.gamma).1 0 0 1 0

/-- Three nodes δ, γ, γ with the first two principally linked. -/
def c5base : Net :=
  ic_net_connect (ic_net_new_node (ic_net_new_node (ic_net_new_node
    (ic_net_create 10 10) NType.delta).1 NType.gamma).1 NType.gamma).1 0 0 1 0

/-- A net violating bidirectionality: node 2 claims a link to `(0, 0)` while
port `(0, 0)` is unlinked. -/
def c5bad : Net :=
  ⟨[⟨NType.delta, Port.nil, Port.nil, Port.nil, true⟩,
    ⟨NType.delta, Port.nil, Port.nil, Port.nil, true⟩,
    ⟨NType.delta, ⟨0, 0⟩, Port.nil, Port.nil, true⟩], 10, 10, 0, [], 0, 0, 0, false⟩

/-- A δ-γ pair whose auxiliary ports are cross-linked to each other, in a net
of capacity 4 with `gas_limit = 7`: reduction keeps duplicating forever and
must be stopped by gas. -/
def c7Net : Net :=
  ic_net_connect (ic_net_connect (ic_net_connect (ic_net_new_node
    (ic_net_new_node (ic_net_create 4 7) NType.delta).1 NType.gamma).1
    0 0 1 0) 0 1 1 1) 0 2 1 2

/-- An ε-δ active pair plus a γ node linked to the δ node through auxiliary
ports. -/
def c8Net : Net :=
  ic_net_connect (ic_net_connect (ic_net_new_node (ic_net_new_node
    (ic_net_new_node (ic_net_create 3 10) NType.eps).1 NType.delta).1
    NType.gamma).1 0 0 1 0) 1 1 2 1

/-- A single δ-δ active pair with `gas_limit = 1`: reduction finishes the whole
net in exactly one rewrite, consuming all the gas. -/
def c10Net : Net :=
  ic_net_connect (ic_net_new_node (ic_net_new_node (ic_net_create 4 1)
    NType.delta).1 NType.delta).1 0 0 1 0

/-- Executable check of `Net.PortWf` at one port. -/
def Net.portWfB (net : Net) (i p : Nat) : Bool :=
  let v := net.portN i p
  decide (v = Port.nil) ||
    (decide (0 ≤ v.node) && decide (v.node < (net.usedNodes : Int)) &&
      decide (0 ≤ v.port) && decide (v.port < 3) &&
      decide (net.portN v.node.toNat v.port.toNat = ⟨(i : Int), (p : Int)⟩))

/-- Executable check of `Net.Wf`: every port of every node in the arena. -/
def netWfB (net : Net) : Bool :=
  (List.range net.usedNodes).all fun i => (List.range 3).all fun p => net.portWfB i p

/-- Equality of all scalar fields other than the arena and the queue; most
primitive operations preserve them. -/
def CtrlEq (m n : Net) : Prop :=
  m.maxNodes = n.maxNodes ∧ m.gasLimit = n.gasLimit ∧ m.gasUsed = n.gasUsed ∧
    m.inputNumber = n.inputNumber ∧ m.factorA = n.factorA ∧ m.factorB = n.factorB ∧
    m.factorFound = n.factorFound

/-- Equality of arena length, node types and activity flags; preserved by all
pure port-rewiring operations. -/
def SkelEq (m n : Net) : Prop :=
  m.usedNodes = n.usedNodes ∧
    (∀ j, (m.nodeAt j).ty = (n.nodeAt j).ty) ∧
    (∀ j, (m.nodeAt j).active = (n.nodeAt j).active)

/-- Whether the queue head would survive dequeue-time revalidation; drives the
termination measure of the work loop. -/
def headValidB (net : Net) : Bool :=
  match net.redexQueue with
  | [] => false
  | (a, b) :: _ => validRedex net a b

/-- Termination measure for the work loop: gas headroom, plus one when the
queue head would not produce a rewrite immediately. -/
def reduceMeasure (net : Net) : Nat :=
  2 * (net.gasLimit - net.gasUsed) + (if headValidB net then 0 else 1)

/-- Equality of all scalar fields except the gas counter: preserved by the
whole work loop (which touches only ports, activity, the queue, and gas). -/
def SideEq (m n : Net) : Prop :=
  m.maxNodes = n.maxNodes ∧ m.gasLimit = n.gasLimit ∧ m.inputNumber = n.inputNumber ∧
    m.factorA = n.factorA ∧ m.factorB = n.factorB ∧ m.factorFound = n.factorFound

/-- Invariant 1-3 of the spec at one port: the port is unlinked, or it points
(in range) at a port that points back at it. -/
def Net.PortWf (net : Net) (i p : Nat) : Prop :=
  net.portN i p = Port.nil ∨
    ∃ j q : Nat, j < net.usedNodes ∧ q < 3 ∧ net.portN i p = ⟨(j : Int), (q : Int)⟩ ∧
      net.portN j q = ⟨(i : Int), (p : Int)⟩

/-- Bidirectionality: every port of every node in the arena satisfies
`Net.PortWf` (spec invariants 1-3; retired nodes included). -/
def Net.Wf (net : Net) : Prop := ∀ i p, i < net.usedNodes → p < 3 → net.PortWf i p

/-- A genuine active pair: two active nodes whose principal ports are mutually
linked (the full port-level condition that `ic_net_scan_for_redexes` and
`validRedex` require, unlike the node-level test of
`ic_enum_has_active_pair`). -/
def hasPrincipalPair (net : Net) : Bool :=
  (List.range net.usedNodes).any fun i =>
    (List.range net.usedNodes).any fun j =>
      (net.nodeAt i).active && (net.nodeAt j).active &&
        decide (net.portN i 0 = ⟨(j : Int), 0⟩) && decide (net.portN j 0 = ⟨(i : Int), 0⟩)

/-- The nets producible through the public construction API: a fresh net
(`ic_net_create`) followed by any sequence of `ic_net_new_node`,
`ic_net_connect` and `ic_net_reduce` calls. -/
inductive Reachable : Net → Prop where
  | create : ∀ maxNodes gasLimit, Reachable (ic_net_create maxNodes gasLimit)
  | new_node : ∀ net ty, Reachable net → Reachable (ic_net_new_node net ty).1
  | connect : ∀ net a pa b pb, Reachable net → Reachable (ic_net_connect net a pa b pb)
  | reduce : ∀ net, Reachable net → Reachable (ic_net_reduce net).1

theorem Node.port_default (p : Nat) : (default : Node).port p = Port.nil := by
  rcases p with _ | _ | _ | p <;> rfl

theorem Node.port_setPort (nd : Node) (p q : Nat) (v : Port) :
    (nd.setPort p v).port q = if q = p ∧ p < 3 then v else nd.port q := by
  rcases p with _ | _ | _ | p <;> rcases q with _ | _ | _ | q <;>
    simp [Node.setPort, Node.port] <;>
    first
      | omega
      | (rw [if_neg]; omega)

theorem Node.ty_setPort (nd : Node) (p : Nat) (v : Port) : (nd.setPort p v).ty = nd.ty := by
  rcases p with _ | _ | _ | p <;> rfl

theorem Node.active_setPort (nd : Node) (p : Nat) (v : Port) :
    (nd.setPort p v).active = nd.active := by
  rcases p with _ | _ | _ | p <;> rfl

theorem Net.usedNodes_setPortN (net : Net) (i p : Nat) (v : Port) :
    (net.setPortN i p v).usedNodes = net.usedNodes := by
  simp [Net.setPortN, Net.usedNodes]

theorem Net.nodeAt_setPortN (net : Net) (i p : Nat) (v : Port) (j : Nat) :
    (net.setPortN i p v).nodeAt j =
      if j = i ∧ i < net.usedNodes then (net.nodeAt i).setPort p v else net.nodeAt j := by
  unfold Net.setPortN Net.nodeAt Net.usedNodes
  simp only [List.getD_eq_getElem?_getD, List.getElem?_set]
  rcases eq_or_ne i j with h | h
  · subst h
    by_cases hi : i < net.nodes.length
    · simp [hi]
    · simp [hi, List.getElem?_eq_none (by omega : net.nodes.length ≤ i)]
  · simp [h, Ne.symm h]

theorem Net.portN_setPortN (net : Net) (i p : Nat) (v : Port) (j q : Nat) :
    (net.setPortN i p v).portN j q =
      if j = i ∧ i < net.usedNodes ∧ q = p ∧ p < 3 then v else net.portN j q := by
  unfold Net.portN
  rw [Net.nodeAt_setPortN]
  by_cases h : j = i ∧ i < net.usedNodes
  · rw [if_pos h, Node.port_setPort]
    rcases h with ⟨h1, h2⟩
    by_cases h3 : q = p ∧ p < 3
    · rw [if_pos h3, if_pos ⟨h1, h2, h3⟩]
    · rw [if_neg h3, if_neg (by tauto), h1]
  · rw [if_neg h, if_neg (by tauto)]

theorem Net.usedNodes_setActiveN (net : Net) (i : Nat) (b : Bool) :
    (net.setActiveN i b).usedNodes = net.usedNodes := by
  simp [Net.setActiveN, Net.usedNodes]

theorem Net.nodeAt_setActiveN (net : Net) (i : Nat) (b : Bool) (j : Nat) :
    (net.setActiveN i b).nodeAt j =
      if j = i ∧ i < net.usedNodes then {net.nodeAt i with active := b} else net.nodeAt j := by
  unfold Net.setActiveN Net.nodeAt Net.usedNodes
  simp only [List.getD_eq_getElem?_getD, List.getElem?_set]
  rcases eq_or_ne i j with h | h
  · subst h
    by_cases hi : i < net.nodes.length
    · simp [hi]
    · simp [hi, List.getElem?_eq_none (by omega : net.nodes.length ≤ i)]
  · simp [h, Ne.symm h]

theorem Net.portN_setActiveN (net : Net) (i : Nat) (b : Bool) (j q : Nat) :
    (net.setActiveN i b).portN j q = net.portN j q := by
  unfold Net.portN
  rw [Net.nodeAt_setActiveN]
  split
  · next h => rw [h.1]; rcases q with _ | _ | _ | q <;> rfl
  · rfl

theorem Net.portI_natCast (net : Net) (i p : Nat) : net.portI (i : Int) (p : Int) = net.portN i p := by
  simp [Net.portI, Net.getNode, Net.portN]

theorem Net.setPortI_natCast (net : Net) (i p : Nat) (v : Port) :
    net.setPortI (i : Int) (p : Int) v = net.setPortN i p v := by
  simp [Net.setPortI]

theorem Net.setActiveI_natCast (net : Net) (i : Nat) (b : Bool) :
    net.setActiveI (i : Int) b = net.setActiveN i b := by
  simp [Net.setActiveI]

theorem Net.getNode_natCast (net : Net) (i : Nat) : net.getNode (i : Int) = net.nodeAt i := by
  simp [Net.getNode]

theorem ctrlEq_refl (net : Net) : CtrlEq net net :=
  ⟨rfl, rfl, rfl, rfl, rfl, rfl, rfl⟩

theorem ctrlEq_trans {a b c : Net} (h1 : CtrlEq a b) (h2 : CtrlEq b c) : CtrlEq a c := by
  obtain ⟨x1, x2, x3, x4, x5, x6, x7⟩ := h1
  obtain ⟨y1, y2, y3, y4, y5, y6, y7⟩ := h2
  exact ⟨x1.trans y1, x2.trans y2, x3.trans y3, x4.trans y4, x5.trans y5, x6.trans y6, x7.trans y7⟩

theorem foldlPreserve {α : Type _} {β : Type _} (P : α → Prop) (f : α → β → α) (l : List β)
    (h : ∀ acc x, P acc → P (f acc x)) (init : α) (h0 : P init) : P (l.foldl f init) := by
  induction l generalizing init with
  | nil => exact h0
  | cons x xs ih => exact ih (f init x) (h init x h0)

theorem Net.usedNodes_congr {m n : Net} (h : m.nodes = n.nodes) : m.usedNodes = n.usedNodes := by
  unfold Net.usedNodes; rw [h]

theorem Net.nodeAt_congr {m n : Net} (h : m.nodes = n.nodes) (i : Nat) : m.nodeAt i = n.nodeAt i := by
  unfold Net.nodeAt; rw [h]

theorem Net.getNode_congr {m n : Net} (h : m.nodes = n.nodes) (i : Int) :
    m.getNode i = n.getNode i := by
  unfold Net.getNode; rw [Net.nodeAt_congr h]

theorem Net.portI_congr {m n : Net} (h : m.nodes = n.nodes) (i p : Int) :
    m.portI i p = n.portI i p := by
  unfold Net.portI; rw [Net.getNode_congr h]

theorem Net.portN_congr {m n : Net} (h : m.nodes = n.nodes) (i p : Nat) :
    m.portN i p = n.portN i p := by
  unfold Net.portN; rw [Net.nodeAt_congr h]

theorem validRedex_congr {m n : Net} (h : m.nodes = n.nodes) (a b : Int) :
    validRedex m a b = validRedex n a b := by
  unfold validRedex Net.portI
  rw [Net.getNode_congr h, Net.getNode_congr h]

theorem ctrlEq_setPortN (net : Net) (i p : Nat) (v : Port) : CtrlEq (net.setPortN i p v) net :=
  ⟨rfl, rfl, rfl, rfl, rfl, rfl, rfl⟩

theorem ctrlEq_setPortI (net : Net) (i p : Int) (v : Port) : CtrlEq (net.setPortI i p v) net := by
  unfold Net.setPortI
  split
  · exact ctrlEq_setPortN net i.toNat p.toNat v
  · exact ctrlEq_refl net

theorem ctrlEq_setActiveN (net : Net) (i : Nat) (b : Bool) : CtrlEq (net.setActiveN i b) net :=
  ⟨rfl, rfl, rfl, rfl, rfl, rfl, rfl⟩

theorem ctrlEq_setActiveI (net : Net) (i : Int) (b : Bool) : CtrlEq (net.setActiveI i b) net := by
  unfold Net.setActiveI
  split
  · exact ctrlEq_setActiveN net i.toNat b
  · exact ctrlEq_refl net

theorem nodes_add_redex (net : Net) (a b : Int) : (ic_net_add_redex net a b).nodes = net.nodes := by
  unfold ic_net_add_redex
  split
  · rfl
  · split <;> rfl

theorem ctrlEq_add_redex (net : Net) (a b : Int) : CtrlEq (ic_net_add_redex net a b) net := by
  unfold ic_net_add_redex
  split
  · exact ctrlEq_refl net
  · split
    · exact ⟨rfl, rfl, rfl, rfl, rfl, rfl, rfl⟩
    · exact ctrlEq_refl net

theorem redexQueue_add_redex (net : Net) (a b : Int) :
    (ic_net_add_redex net a b).redexQueue = net.redexQueue ++
      (if (net.getNode a).active ∧ (net.getNode b).active ∧
          net.portI a 0 = ⟨b, 0⟩ ∧ net.portI b 0 = ⟨a, 0⟩ then [(a, b)] else []) := by
  unfold ic_net_add_redex
  by_cases h1 : (net.getNode a).active
  · by_cases h2 : (net.getNode b).active
    · rw [if_neg (by simp [h1, h2])]
      by_cases h3 : net.portI a 0 = ⟨b, 0⟩ ∧ net.portI b 0 = ⟨a, 0⟩
      · rw [if_pos h3, if_pos ⟨h1, h2, h3.1, h3.2⟩]
      · rw [if_neg h3, if_neg (by tauto), List.append_nil]
    · rw [if_pos (by simp [h2]), if_neg (by tauto), List.append_nil]
  · rw [if_pos (by simp [h1]), if_neg (by tauto), List.append_nil]

theorem ctrlEq_disconnect_port (net : Net) (i p : Int) :
    CtrlEq (ic_net_disconnect_port net i p) net := by
  unfold ic_net_disconnect_port
  dsimp only
  split
  · split
    · exact ctrlEq_setPortI ..
    · exact ctrlEq_refl net
  · exact ctrlEq_refl net

theorem ctrlEq_connect (net : Net) (a pa b pb : Int) :
    CtrlEq (ic_net_connect net a pa b pb) net := by
  unfold ic_net_connect
  dsimp only
  split
  · exact ctrlEq_refl net
  · have h1 := ctrlEq_disconnect_port net a pa
    have h2 := ctrlEq_disconnect_port (ic_net_disconnect_port net a pa) b pb
    have h3 := ctrlEq_setPortI ((ic_net_disconnect_port (ic_net_disconnect_port net a pa) b pb)) a pa (⟨b, pb⟩ : Port)
    have h4 := ctrlEq_setPortI (((ic_net_disconnect_port (ic_net_disconnect_port net a pa) b pb)).setPortI a pa (⟨b, pb⟩ : Port)) b pb (⟨a, pa⟩ : Port)
    have hc := ctrlEq_trans h4 (ctrlEq_trans h3 (ctrlEq_trans h2 h1))
    split
    · exact ctrlEq_trans (ctrlEq_add_redex ..) hc
    · exact hc

theorem ctrlEq_step {m net : Net} {i p : Int} {v : Port} (h : CtrlEq m net) :
    CtrlEq (m.setPortI i p v) net :=
  ctrlEq_trans (ctrlEq_setPortI m i p v) h

theorem ctrlEq_sever (net : Net) (n1 n2 : Int) (c1 c2 c3 c4 : Port) :
    CtrlEq (ic_sever_pair_links net n1 n2 c1 c2 c3 c4) net := by
  unfold ic_sever_pair_links
  dsimp only
  split <;> split <;> split <;> split <;>
    (repeat apply ctrlEq_step) <;> exact ctrlEq_refl net

theorem ctrlEq_active_step {m net : Net} {i : Int} {b : Bool} (h : CtrlEq m net) :
    CtrlEq (m.setActiveI i b) net :=
  ctrlEq_trans (ctrlEq_setActiveI m i b) h

theorem ctrlEq_connect_step {m net : Net} {a pa b pb : Int} (h : CtrlEq m net) :
    CtrlEq (ic_net_connect m a pa b pb) net :=
  ctrlEq_trans (ctrlEq_connect m a pa b pb) h

theorem ctrlEq_new_node_step {m net : Net} {ty : NType} (h : CtrlEq m net) :
    CtrlEq (ic_net_new_node m ty).1 net := by
  unfold ic_net_new_node
  split
  · exact h
  · exact ctrlEq_trans ⟨rfl, rfl, rfl, rfl, rfl, rfl, rfl⟩ h

theorem ctrlEq_sever_step {m net : Net} {n1 n2 : Int} {c1 c2 c3 c4 : Port}
    (h : CtrlEq m net) : CtrlEq (ic_sever_pair_links m n1 n2 c1 c2 c3 c4) net :=
  ctrlEq_trans (ctrlEq_sever m n1 n2 c1 c2 c3 c4) h

theorem ctrlEq_delta_delta (net : Net) (n1 n2 : Int) :
    CtrlEq (ic_apply_delta_delta net n1 n2) net := by
  unfold ic_apply_delta_delta
  dsimp only
  apply ctrlEq_active_step
  apply ctrlEq_active_step
  split
  · apply ctrlEq_connect_step
    split
    · apply ctrlEq_connect_step
      exact ctrlEq_sever ..
    · exact ctrlEq_sever ..
  · split
    · apply ctrlEq_connect_step
      exact ctrlEq_sever ..
    · exact ctrlEq_sever ..

theorem ctrlEq_gamma_gamma (net : Net) (n1 n2 : Int) :
    CtrlEq (ic_apply_gamma_gamma net n1 n2) net := by
  unfold ic_apply_gamma_gamma
  dsimp only
  apply ctrlEq_active_step
  apply ctrlEq_active_step
  split
  · apply ctrlEq_connect_step
    split
    · apply ctrlEq_connect_step
      exact ctrlEq_sever ..
    · exact ctrlEq_sever ..
  · split
    · apply ctrlEq_connect_step
      exact ctrlEq_sever ..
    · exact ctrlEq_sever ..

theorem ctrlEq_delta_gamma (net : Net) (dn gn : Int) :
    CtrlEq (ic_apply_delta_gamma net dn gn) net := by
  unfold ic_apply_delta_gamma
  dsimp only
  have hbase : CtrlEq (ic_net_new_node (ic_net_new_node net NType.delta).1 NType.gamma).1 net :=
    ctrlEq_new_node_step (ctrlEq_new_node_step (ctrlEq_refl net))
  split
  · split
    · split
      · exact ctrlEq_active_step (ctrlEq_active_step hbase)
      · exact ctrlEq_active_step hbase
    · split
      · exact ctrlEq_active_step hbase
      · exact hbase
  · apply ctrlEq_active_step
    apply ctrlEq_active_step
    split
    · apply ctrlEq_connect_step
      split
      · apply ctrlEq_connect_step
        split
        · apply ctrlEq_connect_step
          split
          · apply ctrlEq_connect_step
            apply ctrlEq_connect_step
            exact ctrlEq_sever_step hbase
          · apply ctrlEq_connect_step
            exact ctrlEq_sever_step hbase
        · split
          · apply ctrlEq_connect_step
            apply ctrlEq_connect_step
            exact ctrlEq_sever_step hbase
          · apply ctrlEq_connect_step
            exact ctrlEq_sever_step hbase
      · split
        · apply ctrlEq_connect_step
          split
          · apply ctrlEq_connect_step
            apply ctrlEq_connect_step
            exact ctrlEq_sever_step hbase
          · apply ctrlEq_connect_step
            exact ctrlEq_sever_step hbase
        · split
          · apply ctrlEq_connect_step
            apply ctrlEq_connect_step
            exact ctrlEq_sever_step hbase
          · apply ctrlEq_connect_step
            exact ctrlEq_sever_step hbase
    · split
      · apply ctrlEq_connect_step
        split
        · apply ctrlEq_connect_step
          split
          · apply ctrlEq_connect_step
            apply ctrlEq_connect_step
            exact ctrlEq_sever_step hbase
          · apply ctrlEq_connect_step
            exact ctrlEq_sever_step hbase
        · split
          · apply ctrlEq_connect_step
            apply ctrlEq_connect_step
            exact ctrlEq_sever_step hbase
          · apply ctrlEq_connect_step
            exact ctrlEq_sever_step hbase
      · split
        · apply ctrlEq_connect_step
          split
          · apply ctrlEq_connect_step
            apply ctrlEq_connect_step
            exact ctrlEq_sever_step hbase
          · apply ctrlEq_connect_step
            exact ctrlEq_sever_step hbase
        · split
          · apply ctrlEq_connect_step
            apply ctrlEq_connect_step
            exact ctrlEq_sever_step hbase
          · apply ctrlEq_connect_step
            exact ctrlEq_sever_step hbase

theorem ctrlEq_epsilon_any (net : Net) (e o : Int) :
    CtrlEq (ic_apply_epsilon_any net e o) net :=
  ctrlEq_setActiveI net e false

theorem ctrlEq_apply_rewrite (net : Net) (a b : Int) :
    CtrlEq (ic_apply_rewrite net a b).1 net := by
  unfold ic_apply_rewrite
  dsimp only
  split
  · exact ctrlEq_refl net
  · split
    · exact ctrlEq_epsilon_any net _ (if (net.getNode a).ty = NType.eps then b else a)
    · split
      · exact ctrlEq_delta_delta ..
      · split
        · exact ctrlEq_gamma_gamma ..
        · split
          · exact ctrlEq_delta_gamma ..
          · exact ctrlEq_refl net

theorem ctrlEq_add_active_pairs (net : Net) : CtrlEq (ic_net_add_active_pairs net) net := by
  unfold ic_net_add_active_pairs
  apply foldlPreserve (fun acc => CtrlEq acc net)
  · intro acc x h
    unfold ic_net_scan_step
    split
    · dsimp only
      split
      · exact ctrlEq_trans (ctrlEq_add_redex ..) h
      · exact h
    · exact h
  · exact ctrlEq_refl net

theorem nodes_add_active_pairs (net : Net) : (ic_net_add_active_pairs net).nodes = net.nodes := by
  unfold ic_net_add_active_pairs
  refine foldlPreserve (fun acc : Net => acc.nodes = net.nodes) _ _ ?_ _ rfl
  intro acc x h
  unfold ic_net_scan_step
  split
  · dsimp only
    split
    · rw [nodes_add_redex]
      exact h
    · exact h
  · exact h

theorem nodes_scan (net : Net) : (ic_net_scan_for_redexes net).nodes = net.nodes := by
  unfold ic_net_scan_for_redexes
  rw [nodes_add_active_pairs]

theorem nodes_get_next (net : Net) : (ic_net_get_next_redex net).1.nodes = net.nodes := by
  unfold ic_net_get_next_redex
  split
  · rfl
  · dsimp only
    split <;> rfl

theorem skelEq_refl (net : Net) : SkelEq net net :=
  ⟨rfl, fun _ => rfl, fun _ => rfl⟩

theorem skelEq_trans {a b c : Net} (h1 : SkelEq a b) (h2 : SkelEq b c) : SkelEq a c :=
  ⟨h1.1.trans h2.1, fun j => (h1.2.1 j).trans (h2.2.1 j),
    fun j => (h1.2.2 j).trans (h2.2.2 j)⟩

theorem skelEq_of_nodes {m n : Net} (h : m.nodes = n.nodes) : SkelEq m n :=
  ⟨Net.usedNodes_congr h, fun j => by rw [Net.nodeAt_congr h],
    fun j => by rw [Net.nodeAt_congr h]⟩

theorem skelEq_setPortN (net : Net) (i p : Nat) (v : Port) : SkelEq (net.setPortN i p v) net := by
  refine ⟨Net.usedNodes_setPortN .., fun j => ?_, fun j => ?_⟩ <;>
    rw [Net.nodeAt_setPortN] <;> split <;>
      first
        | (next h => rw [h.1, Node.ty_setPort])
        | (next h => rw [h.1, Node.active_setPort])
        | rfl

theorem skelEq_setPortI (net : Net) (i p : Int) (v : Port) : SkelEq (net.setPortI i p v) net := by
  unfold Net.setPortI
  split
  · exact skelEq_setPortN ..
  · exact skelEq_refl net

theorem skelEq_port_step {m net : Net} {i p : Int} {v : Port} (h : SkelEq m net) :
    SkelEq (m.setPortI i p v) net :=
  skelEq_trans (skelEq_setPortI m i p v) h

theorem skelEq_disconnect (net : Net) (i p : Int) :
    SkelEq (ic_net_disconnect_port net i p) net := by
  unfold ic_net_disconnect_port
  dsimp only
  split
  · split
    · exact skelEq_setPortI ..
    · exact skelEq_refl net
  · exact skelEq_refl net

theorem skelEq_connect (net : Net) (a pa b pb : Int) :
    SkelEq (ic_net_connect net a pa b pb) net := by
  unfold ic_net_connect
  dsimp only
  split
  · exact skelEq_refl net
  · have hc : SkelEq (((ic_net_disconnect_port (ic_net_disconnect_port net a pa) b pb).setPortI
        a pa ⟨b, pb⟩).setPortI b pb ⟨a, pa⟩) net :=
      skelEq_port_step (skelEq_port_step
        (skelEq_trans (skelEq_disconnect ..) (skelEq_disconnect ..)))
    split
    · exact skelEq_trans (skelEq_of_nodes (nodes_add_redex ..)) hc
    · exact hc

theorem skelEq_connect_step {m net : Net} {a pa b pb : Int} (h : SkelEq m net) :
    SkelEq (ic_net_connect m a pa b pb) net :=
  skelEq_trans (skelEq_connect m a pa b pb) h

theorem skelEq_sever (net : Net) (n1 n2 : Int) (c1 c2 c3 c4 : Port) :
    SkelEq (ic_sever_pair_links net n1 n2 c1 c2 c3 c4) net := by
  unfold ic_sever_pair_links
  dsimp only
  split <;> split <;> split <;> split <;>
    (repeat apply skelEq_port_step) <;> exact skelEq_refl net

theorem nodeAt_out {net : Net} {i : Nat} (h : net.usedNodes ≤ i) : net.nodeAt i = default := by
  unfold Net.nodeAt
  rw [List.getD_eq_getElem?_getD, List.getElem?_eq_none h, Option.getD_none]

theorem active_in_range {net : Net} {i : Int} (h : (net.getNode i).active = true) :
    0 ≤ i ∧ i.toNat < net.usedNodes := by
  unfold Net.getNode at h
  split at h
  · refine ⟨by assumption, ?_⟩
    by_contra hlt
    rw [nodeAt_out (by omega)] at h
    exact Bool.false_ne_true h
  · exact absurd h Bool.false_ne_true

theorem validRedex_parts {net : Net} {a b : Int} (h : validRedex net a b = true) :
    (net.getNode a).active = true ∧ (net.getNode b).active = true ∧
      net.portI a 0 = ⟨b, 0⟩ ∧ net.portI b 0 = ⟨a, 0⟩ := by
  simp only [validRedex, Bool.and_eq_true, decide_eq_true_eq] at h
  exact ⟨h.1.1.1, h.1.1.2, h.1.2, h.2⟩

theorem validRedex_build {net : Net} {a b : Int}
    (h1 : (net.getNode a).active = true) (h2 : (net.getNode b).active = true)
    (h3 : net.portI a 0 = ⟨b, 0⟩) (h4 : net.portI b 0 = ⟨a, 0⟩) :
    validRedex net a b = true := by
  simp only [validRedex, Bool.and_eq_true, decide_eq_true_eq]
  exact ⟨⟨⟨h1, h2⟩, h3⟩, h4⟩

theorem apply_rewrite_snd (net : Net) (a b : Int) (h : validRedex net a b = true) :
    (ic_apply_rewrite net a b).2 = true := by
  obtain ⟨ha, hb, _, _⟩ := validRedex_parts h
  have hra := active_in_range ha
  have hrb := active_in_range hb
  unfold ic_apply_rewrite
  dsimp only
  rw [if_neg (by omega)]
  cases hta : (net.getNode a).ty <;> cases htb : (net.getNode b).ty <;> simp [hta, htb]

theorem get_next_some {net net1 : Net} {a b : Int}
    (h : ic_net_get_next_redex net = (net1, some (a, b))) :
    ∃ rest, net.redexQueue = (a, b) :: rest ∧ net1 = {net with redexQueue := rest} ∧
      validRedex net1 a b = true := by
  unfold ic_net_get_next_redex at h
  split at h
  · exact absurd (congrArg Prod.snd h) (by simp)
  · next a' b' rest heq =>
    dsimp only at h
    split at h
    · next hv =>
      injection h with hfst hsnd
      injection hsnd with hab
      injection hab with ha hb
      subst ha
      subst hb
      exact ⟨rest, heq, hfst.symm, hfst ▸ hv⟩
    · exact absurd (congrArg Prod.snd h) (by simp)

theorem get_next_none {net net1 : Net}
    (h : ic_net_get_next_redex net = (net1, none)) :
    net1.nodes = net.nodes ∧ headValidB net = false ∧ CtrlEq net1 net := by
  unfold ic_net_get_next_redex at h
  split at h
  · next heq =>
    have h1 : net1 = net := (congrArg Prod.fst h).symm
    refine ⟨by rw [h1], ?_, by rw [h1]; exact ctrlEq_refl net⟩
    unfold headValidB
    rw [heq]
  · next a' b' rest heq =>
    dsimp only at h
    split at h
    · exact absurd (congrArg Prod.snd h) (by simp)
    · next hv =>
      obtain rfl : net1 = {net with redexQueue := rest} := (congrArg Prod.fst h).symm
      refine ⟨rfl, ?_, ⟨rfl, rfl, rfl, rfl, rfl, rfl, rfl⟩⟩
      have hcg : validRedex net a' b' = validRedex {net with redexQueue := rest} a' b' :=
        validRedex_congr rfl a' b'
      unfold headValidB
      rw [heq]
      dsimp only
      rw [hcg]
      simpa using hv

theorem get_next_ctrl (net : Net) : CtrlEq (ic_net_get_next_redex net).1 net := by
  unfold ic_net_get_next_redex
  split
  · exact ctrlEq_refl net
  · dsimp only
    split <;> exact ⟨rfl, rfl, rfl, rfl, rfl, rfl, rfl⟩

theorem ctrlEq_scan (net : Net) : CtrlEq (ic_net_scan_for_redexes net) net := by
  unfold ic_net_scan_for_redexes
  exact ctrlEq_trans (ctrlEq_add_active_pairs _) ⟨rfl, rfl, rfl, rfl, rfl, rfl, rfl⟩

theorem scan_step_resp {x y : Net} (i : Nat)
    (h : x.nodes = y.nodes ∧ x.redexQueue = y.redexQueue) :
    (ic_net_scan_step x i).nodes = (ic_net_scan_step y i).nodes ∧
      (ic_net_scan_step x i).redexQueue = (ic_net_scan_step y i).redexQueue := by
  obtain ⟨hn, hq⟩ := h
  unfold ic_net_scan_step
  simp only [Net.nodeAt_congr hn, Net.portN_congr hn, Net.getNode_congr hn]
  split
  · split
    · constructor
      · rw [nodes_add_redex, nodes_add_redex, hn]
      · rw [redexQueue_add_redex, redexQueue_add_redex, hq, Net.getNode_congr hn,
          Net.getNode_congr hn, Net.portI_congr hn, Net.portI_congr hn]
    · exact ⟨hn, hq⟩
  · exact ⟨hn, hq⟩

theorem foldlPair {α : Type _} {β : Type _} (R : α → α → Prop) (f : α → β → α) (l : List β)
    (h : ∀ x y b, R x y → R (f x b) (f y b)) :
    ∀ x y, R x y → R (l.foldl f x) (l.foldl f y) := by
  induction l with
  | nil => intro x y hr; exact hr
  | cons b bs ih => intro x y hr; exact ih (f x b) (f y b) (h x y b hr)

theorem scan_queue_congr {m n : Net} (h : m.nodes = n.nodes) :
    (ic_net_scan_for_redexes m).redexQueue = (ic_net_scan_for_redexes n).redexQueue := by
  have key := foldlPair (fun x y : Net => x.nodes = y.nodes ∧ x.redexQueue = y.redexQueue)
    ic_net_scan_step (List.range m.usedNodes) (fun x y b hr => scan_step_resp b hr)
    {m with redexQueue := []} {n with redexQueue := []} ⟨h, rfl⟩
  have hrange : List.range m.usedNodes = List.range n.usedNodes := by
    rw [Net.usedNodes_congr h]
  unfold ic_net_scan_for_redexes ic_net_add_active_pairs
  rw [show ({m with redexQueue := ([] : List (Int × Int))} : Net).usedNodes = m.usedNodes from rfl,
    show ({n with redexQueue := ([] : List (Int × Int))} : Net).usedNodes = n.usedNodes from rfl,
    ← hrange]
  exact key.2

theorem add_active_pairs_valid (net : Net)
    (h : ∀ e ∈ net.redexQueue, validRedex net e.1 e.2 = true) :
    ∀ e ∈ (ic_net_add_active_pairs net).redexQueue,
      validRedex (ic_net_add_active_pairs net) e.1 e.2 = true := by
  unfold ic_net_add_active_pairs
  have key := foldlPreserve
    (fun acc : Net => acc.nodes = net.nodes ∧
      ∀ e ∈ acc.redexQueue, validRedex acc e.1 e.2 = true)
    ic_net_scan_step (List.range net.usedNodes) ?_ net ⟨rfl, h⟩
  · exact key.2
  · intro acc i hacc
    obtain ⟨hn, hq⟩ := hacc
    unfold ic_net_scan_step
    split
    · dsimp only
      split
      · refine ⟨by rw [nodes_add_redex]; exact hn, ?_⟩
        intro e he
        rw [redexQueue_add_redex] at he
        have hcongr : (ic_net_add_redex acc (↑i) (acc.portN i 0).node).nodes = acc.nodes :=
          nodes_add_redex ..
        rcases List.mem_append.1 he with h1 | h2
        · rw [validRedex_congr hcongr]
          exact hq e h1
        · rw [validRedex_congr hcongr]
          split at h2
          · next hc =>
            rcases List.mem_singleton.1 h2 with rfl
            exact validRedex_build hc.1 hc.2.1 hc.2.2.1 hc.2.2.2
          · exact absurd h2 (List.not_mem_nil _)
      · exact ⟨hn, hq⟩
    · exact ⟨hn, hq⟩

theorem scan_entries_valid (net : Net) :
    ∀ e ∈ (ic_net_scan_for_redexes net).redexQueue,
      validRedex (ic_net_scan_for_redexes net) e.1 e.2 = true := by
  unfold ic_net_scan_for_redexes
  exact add_active_pairs_valid _ (fun e he => absurd he (List.not_mem_nil _))

theorem scan_head_valid (net : Net) (h : (ic_net_scan_for_redexes net).redexQueue ≠ []) :
    headValidB (ic_net_scan_for_redexes net) = true := by
  unfold headValidB
  cases hq : (ic_net_scan_for_redexes net).redexQueue with
  | nil => exact absurd hq h
  | cons e rest =>
    have := scan_entries_valid net e (by rw [hq]; exact List.mem_cons_self ..)
    cases e with
    | mk a b => exact this

theorem headFlag_le (net : Net) : (if headValidB net then 0 else 1) ≤ 1 := by
  split <;> omega

theorem measure_rewrite_step {net net1 : Net} {a b : Int}
    (hg : net.gasUsed < net.gasLimit)
    (hpop : ic_net_get_next_redex net = (net1, some (a, b))) :
    reduceMeasure (ic_net_add_active_pairs (ic_net_bump_gas (ic_apply_rewrite net1 a b).1)) <
      reduceMeasure net := by
  have h1 : CtrlEq net1 net := by
    obtain ⟨rest, hq, hn1, hv⟩ := get_next_some hpop
    rw [hn1]
    exact ⟨rfl, rfl, rfl, rfl, rfl, rfl, rfl⟩
  have h2 := ctrlEq_apply_rewrite net1 a b
  have h3 := ctrlEq_add_active_pairs (ic_net_bump_gas (ic_apply_rewrite net1 a b).1)
  obtain ⟨-, hl1, hg1, -, -, -, -⟩ := h1
  obtain ⟨-, hl2, hg2, -, -, -, -⟩ := h2
  obtain ⟨-, hl3, hg3, -, -, -, -⟩ := h3
  have hTgas : (ic_net_add_active_pairs
      (ic_net_bump_gas (ic_apply_rewrite net1 a b).1)).gasUsed = net.gasUsed + 1 := by
    rw [hg3]
    show (ic_apply_rewrite net1 a b).1.gasUsed + 1 = net.gasUsed + 1
    rw [hg2, hg1]
  have hTlim : (ic_net_add_active_pairs
      (ic_net_bump_gas (ic_apply_rewrite net1 a b).1)).gasLimit = net.gasLimit := by
    rw [hl3]
    show (ic_apply_rewrite net1 a b).1.gasLimit = net.gasLimit
    rw [hl2, hl1]
  have hfT := headFlag_le (ic_net_add_active_pairs (ic_net_bump_gas (ic_apply_rewrite net1 a b).1))
  unfold reduceMeasure
  rw [hTgas, hTlim]
  omega

theorem measure_scan_step {net net1 : Net}
    (hpop : ic_net_get_next_redex net = (net1, none))
    (hne : ¬(ic_net_scan_for_redexes net1).redexQueue = []) :
    reduceMeasure (ic_net_scan_for_redexes net1) < reduceMeasure net := by
  obtain ⟨hnodes, hflag, hctrl⟩ := get_next_none hpop
  have hs := ctrlEq_scan net1
  obtain ⟨-, hl1, hg1, -, -, -, -⟩ := hctrl
  obtain ⟨-, hl2, hg2, -, -, -, -⟩ := hs
  have hv := scan_head_valid net1 hne
  have hSg : (ic_net_scan_for_redexes net1).gasUsed = net.gasUsed := by rw [hg2, hg1]
  have hSl : (ic_net_scan_for_redexes net1).gasLimit = net.gasLimit := by rw [hl2, hl1]
  unfold reduceMeasure
  rw [hSg, hSl, hv, hflag,
    show (if (true : Bool) = true then (0 : Nat) else 1) = 0 from rfl,
    show (if (false : Bool) = true then (0 : Nat) else 1) = 1 from rfl]
  omega

theorem reduce_go_stable_aux : ∀ (μ : Nat) (net : Net), reduceMeasure net ≤ μ →
    ∀ f1 f2 : Nat, reduceMeasure net < f1 → reduceMeasure net < f2 →
    ic_net_reduce_go f1 net = ic_net_reduce_go f2 net := by
  intro μ
  induction μ with
  | zero =>
    intro net hm f1 f2 h1 h2
    obtain ⟨k1, rfl⟩ : ∃ k, f1 = k + 1 := ⟨f1 - 1, by omega⟩
    obtain ⟨k2, rfl⟩ : ∃ k, f2 = k + 1 := ⟨f2 - 1, by omega⟩
    have hg : ¬net.gasUsed < net.gasLimit := by
      unfold reduceMeasure at hm
      omega
    show ic_net_reduce_go (k1 + 1) net = ic_net_reduce_go (k2 + 1) net
    unfold ic_net_reduce_go
    rw [if_neg hg, if_neg hg]
  | succ μ ih =>
    intro net hm f1 f2 h1 h2
    obtain ⟨k1, rfl⟩ : ∃ k, f1 = k + 1 := ⟨f1 - 1, by omega⟩
    obtain ⟨k2, rfl⟩ : ∃ k, f2 = k + 1 := ⟨f2 - 1, by omega⟩
    show ic_net_reduce_go (k1 + 1) net = ic_net_reduce_go (k2 + 1) net
    unfold ic_net_reduce_go
    by_cases hg : net.gasUsed < net.gasLimit
    · rw [if_pos hg, if_pos hg]
      cases hpop : ic_net_get_next_redex net with
      | mk net1 o =>
        cases o with
        | some ab =>
          cases ab with
          | mk a b =>
            dsimp only
            obtain ⟨rest, hqe, hn1, hv⟩ := get_next_some hpop
            have hok := apply_rewrite_snd net1 a b hv
            rw [if_pos hok, if_pos hok]
            have hdec := measure_rewrite_step hg hpop
            exact ih _ (by omega) k1 k2 (by omega) (by omega)
        | none =>
          dsimp only
          by_cases hq : (ic_net_scan_for_redexes net1).redexQueue = []
          · rw [if_pos hq, if_pos hq]
          · rw [if_neg hq, if_neg hq]
            have hdec := measure_scan_step hpop hq
            exact ih _ (by omega) k1 k2 (by omega) (by omega)
    · rw [if_neg hg, if_neg hg]

/-- The fuelled work loop is stable: any two fuel amounts strictly above the
termination measure give the same result, so the C `while` loop terminates and
`ic_net_reduce_go` with `reduceFuel` fuel computes its result. -/
theorem ic_net_reduce_go_stable (net : Net) (f1 f2 : Nat)
    (h1 : reduceMeasure net < f1) (h2 : reduceMeasure net < f2) :
    ic_net_reduce_go f1 net = ic_net_reduce_go f2 net :=
  reduce_go_stable_aux (reduceMeasure net) net le_rfl f1 f2 h1 h2

theorem reduce_go_invariant (P : Net → Prop)
    (hA : ∀ net net1 a b, net.gasUsed < net.gasLimit →
      ic_net_get_next_redex net = (net1, some (a, b)) → P net →
      P (ic_net_add_active_pairs (ic_net_bump_gas (ic_apply_rewrite net1 a b).1)))
    (hB : ∀ net net1, net.gasUsed < net.gasLimit →
      ic_net_get_next_redex net = (net1, none) → P net →
      P (ic_net_scan_for_redexes net1)) :
    ∀ fuel net, P net → P (ic_net_reduce_go fuel net) := by
  intro fuel
  induction fuel with
  | zero => intro net h; exact h
  | succ f ih =>
    intro net h
    unfold ic_net_reduce_go
    by_cases hg : net.gasUsed < net.gasLimit
    · rw [if_pos hg]
      cases hpop : ic_net_get_next_redex net with
      | mk net1 o =>
        cases o with
        | some ab =>
          cases ab with
          | mk a b =>
            dsimp only
            obtain ⟨rest, hqe, hn1, hv⟩ := get_next_some hpop
            have hok := apply_rewrite_snd net1 a b hv
            rw [if_pos hok]
            exact ih _ (hA net net1 a b hg hpop h)
        | none =>
          dsimp only
          by_cases hq : (ic_net_scan_for_redexes net1).redexQueue = []
          · rw [if_pos hq]
            exact hB net net1 hg hpop h
          · rw [if_neg hq]
            exact ih _ (hB net net1 hg hpop h)
    · rw [if_neg hg]
      exact h

theorem reduce_go_exit_aux : ∀ (μ : Nat) (net : Net), reduceMeasure net ≤ μ →
    ∀ fuel : Nat, reduceMeasure net < fuel →
    (ic_net_reduce_go fuel net).gasLimit ≤ (ic_net_reduce_go fuel net).gasUsed ∨
      ((ic_net_reduce_go fuel net).redexQueue = [] ∧
        (ic_net_scan_for_redexes (ic_net_reduce_go fuel net)).redexQueue = []) := by
  intro μ
  induction μ with
  | zero =>
    intro net hm fuel hf
    obtain ⟨k, rfl⟩ : ∃ k, fuel = k + 1 := ⟨fuel - 1, by omega⟩
    have hg : ¬net.gasUsed < net.gasLimit := by
      unfold reduceMeasure at hm
      omega
    show _ ∨ _
    unfold ic_net_reduce_go
    rw [if_neg hg]
    exact Or.inl (by omega)
  | succ μ ih =>
    intro net hm fuel hf
    obtain ⟨k, rfl⟩ : ∃ k, fuel = k + 1 := ⟨fuel - 1, by omega⟩
    show _ ∨ _
    unfold ic_net_reduce_go
    by_cases hg : net.gasUsed < net.gasLimit
    · rw [if_pos hg]
      cases hpop : ic_net_get_next_redex net with
      | mk net1 o =>
        cases o with
        | some ab =>
          cases ab with
          | mk a b =>
            dsimp only
            obtain ⟨rest, hqe, hn1, hv⟩ := get_next_some hpop
            have hok := apply_rewrite_snd net1 a b hv
            rw [if_pos hok]
            have hdec := measure_rewrite_step hg hpop
            exact ih _ (by omega) k (by omega)
        | none =>
          dsimp only
          by_cases hq : (ic_net_scan_for_redexes net1).redexQueue = []
          · rw [if_pos hq]
            refine Or.inr ⟨hq, ?_⟩
            rw [scan_queue_congr (nodes_scan net1)]
            exact hq
          · rw [if_neg hq]
            have hdec := measure_scan_step hpop hq
            exact ih _ (by omega) k (by omega)
    · rw [if_neg hg]
      exact Or.inl (by omega)

theorem reduce_go_gas (fuel : Nat) (net : Net) :
    net.gasUsed ≤ (ic_net_reduce_go fuel net).gasUsed ∧
      (ic_net_reduce_go fuel net).gasLimit = net.gasLimit ∧
      (ic_net_reduce_go fuel net).gasUsed ≤ max net.gasUsed net.gasLimit := by
  refine reduce_go_invariant
    (fun m => net.gasUsed ≤ m.gasUsed ∧ m.gasLimit = net.gasLimit ∧
      m.gasUsed ≤ max net.gasUsed net.gasLimit) ?_ ?_ fuel net
    ⟨le_rfl, rfl, le_max_left ..⟩
  · intro m net1 a b hg hpop hP
    have h1 : CtrlEq net1 m := by
      obtain ⟨rest, hq, hn1, hv⟩ := get_next_some hpop
      rw [hn1]
      exact ⟨rfl, rfl, rfl, rfl, rfl, rfl, rfl⟩
    have h2 := ctrlEq_apply_rewrite net1 a b
    have h3 := ctrlEq_add_active_pairs (ic_net_bump_gas (ic_apply_rewrite net1 a b).1)
    obtain ⟨-, hl1, hg1, -, -, -, -⟩ := h1
    obtain ⟨-, hl2, hg2, -, -, -, -⟩ := h2
    obtain ⟨-, hl3, hg3, -, -, -, -⟩ := h3
    have hTgas : (ic_net_add_active_pairs
        (ic_net_bump_gas (ic_apply_rewrite net1 a b).1)).gasUsed = m.gasUsed + 1 := by
      rw [hg3]
      show (ic_apply_rewrite net1 a b).1.gasUsed + 1 = m.gasUsed + 1
      rw [hg2, hg1]
    have hTlim : (ic_net_add_active_pairs
        (ic_net_bump_gas (ic_apply_rewrite net1 a b).1)).gasLimit = m.gasLimit := by
      rw [hl3]
      show (ic_apply_rewrite net1 a b).1.gasLimit = m.gasLimit
      rw [hl2, hl1]
    obtain ⟨hp1, hp2, hp3⟩ := hP
    refine ⟨by omega, by rw [hTlim, hp2], ?_⟩
    rw [hTgas]
    have := hp2 ▸ hg
    omega
  · intro m net1 hg hpop hP
    obtain ⟨-, -, hctrl⟩ := get_next_none hpop
    have hs := ctrlEq_scan net1
    obtain ⟨-, hl1, hg1, -, -, -, -⟩ := hctrl
    obtain ⟨-, hl2, hg2, -, -, -, -⟩ := hs
    have hSg : (ic_net_scan_for_redexes net1).gasUsed = m.gasUsed := by rw [hg2, hg1]
    have hSl : (ic_net_scan_for_redexes net1).gasLimit = m.gasLimit := by rw [hl2, hl1]
    obtain ⟨hp1, hp2, hp3⟩ := hP
    exact ⟨by omega, by rw [hSl, hp2], by omega⟩

theorem sideEq_refl (net : Net) : SideEq net net := ⟨rfl, rfl, rfl, rfl, rfl, rfl⟩

theorem sideEq_trans {a b c : Net} (h1 : SideEq a b) (h2 : SideEq b c) : SideEq a c := by
  obtain ⟨x1, x2, x3, x4, x5, x6⟩ := h1
  obtain ⟨y1, y2, y3, y4, y5, y6⟩ := h2
  exact ⟨x1.trans y1, x2.trans y2, x3.trans y3, x4.trans y4, x5.trans y5, x6.trans y6⟩

theorem sideEq_of_ctrl {m n : Net} (h : CtrlEq m n) : SideEq m n := by
  obtain ⟨x1, x2, -, x4, x5, x6, x7⟩ := h
  exact ⟨x1, x2, x4, x5, x6, x7⟩

theorem sideEq_bump (net : Net) : SideEq (ic_net_bump_gas net) net :=
  ⟨rfl, rfl, rfl, rfl, rfl, rfl⟩

theorem reduce_go_side (fuel : Nat) (net : Net) :
    SideEq (ic_net_reduce_go fuel net) net := by
  refine reduce_go_invariant (fun m => SideEq m net) ?_ ?_ fuel net (sideEq_refl net)
  · intro m net1 a b hg hpop hP
    have h1 : CtrlEq net1 m := by
      obtain ⟨rest, hq, hn1, hv⟩ := get_next_some hpop
      rw [hn1]
      exact ⟨rfl, rfl, rfl, rfl, rfl, rfl, rfl⟩
    refine sideEq_trans ?_ hP
    exact sideEq_trans (sideEq_of_ctrl (ctrlEq_add_active_pairs _))
      (sideEq_trans (sideEq_bump _)
        (sideEq_trans (sideEq_of_ctrl (ctrlEq_apply_rewrite ..)) (sideEq_of_ctrl h1)))
  · intro m net1 hg hpop hP
    obtain ⟨-, -, hctrl⟩ := get_next_none hpop
    exact sideEq_trans
      (sideEq_trans (sideEq_of_ctrl (ctrlEq_scan net1)) (sideEq_of_ctrl hctrl)) hP

theorem nodes_check_factors (net : Net) : (ic_net_check_factors net).nodes = net.nodes := by
  unfold ic_net_check_factors
  split
  · split
    · dsimp only
      split
      · rfl
      · split <;> rfl
    · rfl
  · rfl

theorem check_factors_gas (net : Net) :
    (ic_net_check_factors net).gasUsed = net.gasUsed ∧
      (ic_net_check_factors net).gasLimit = net.gasLimit ∧
      (ic_net_check_factors net).redexQueue = net.redexQueue ∧
      (ic_net_check_factors net).inputNumber = net.inputNumber := by
  unfold ic_net_check_factors
  split
  · split
    · dsimp only
      split
      · exact ⟨rfl, rfl, rfl, rfl⟩
      · split <;> exact ⟨rfl, rfl, rfl, rfl⟩
    · exact ⟨rfl, rfl, rfl, rfl⟩
  · exact ⟨rfl, rfl, rfl, rfl⟩

theorem check_factors_spec (net : Net) (h : net.factorFound = false) :
    ((ic_net_check_factors net).factorFound = true ↔
      (0 < net.inputNumber ∧ countActive net NType.delta = 1 ∧
        countActive net NType.gamma = 1 ∧
        ((net.inputNumber = 6 ∧ activeFactor net NType.delta = 1 ∧
            activeFactor net NType.gamma = 3) ∨
          activeFactor net NType.delta * activeFactor net NType.gamma = net.inputNumber))) ∧
    ((ic_net_check_factors net).factorFound = true →
      (ic_net_check_factors net).factorA = activeFactor net NType.delta ∧
      (ic_net_check_factors net).factorB = activeFactor net NType.gamma) := by
  unfold ic_net_check_factors
  by_cases hin : 0 < net.inputNumber
  · rw [if_pos hin]
    by_cases hcnt : countActive net NType.delta = 1 ∧ countActive net NType.gamma = 1
    · rw [if_pos hcnt]
      dsimp only
      by_cases hsp : net.inputNumber = 6 ∧ activeFactor net NType.delta = 1 ∧
          activeFactor net NType.gamma = 3
      · rw [if_pos hsp]
        exact ⟨by simp [hin, hcnt.1, hcnt.2, hsp], fun _ => ⟨rfl, rfl⟩⟩
      · rw [if_neg hsp]
        by_cases hpr : activeFactor net NType.delta * activeFactor net NType.gamma =
            net.inputNumber
        · rw [if_pos hpr]
          exact ⟨by simp [hin, hcnt.1, hcnt.2, hpr], fun _ => ⟨rfl, rfl⟩⟩
        · rw [if_neg hpr]
          refine ⟨?_, fun hf => absurd (h ▸ hf) (by simp)⟩
          rw [h]
          simp only [Bool.false_eq_true, false_iff]
          rintro ⟨-, -, -, hd⟩
          rcases hd with hd | hd
          · exact hsp hd
          · exact hpr hd
    · rw [if_neg hcnt]
      refine ⟨?_, fun hf => absurd (h ▸ hf) (by simp)⟩
      rw [h]
      simp only [Bool.false_eq_true, false_iff]
      rintro ⟨-, hc1, hc2, -⟩
      exact hcnt ⟨hc1, hc2⟩
  · rw [if_neg hin]
    refine ⟨?_, fun hf => absurd (h ▸ hf) (by simp)⟩
    rw [h]
    simp only [Bool.false_eq_true, false_iff]
    rintro ⟨hc0, -⟩
    exact hin hc0

theorem Node.port_ge (nd : Node) {q : Nat} (h : 3 ≤ q) : nd.port q = Port.nil := by
  rcases q with _ | _ | _ | q
  · omega
  · omega
  · omega
  · rfl

theorem portN_out {net : Net} {x q : Nat} (h : net.usedNodes ≤ x ∨ 3 ≤ q) :
    net.portN x q = Port.nil := by
  rcases h with h | h
  · unfold Net.portN
    rw [nodeAt_out h]
    exact Node.port_default q
  · exact Node.port_ge _ h

theorem portN_ne_nil_range {net : Net} {x q : Nat} (h : net.portN x q ≠ Port.nil) :
    x < net.usedNodes ∧ q < 3 := by
  by_contra hc
  push_neg at hc
  rcases Nat.lt_or_ge x net.usedNodes with h1 | h1
  · exact h (portN_out (Or.inr (hc h1)))
  · exact h (portN_out (Or.inl h1))

theorem Net.portI_eq_portN (net : Net) {i : Int} (p : Int) (hi : 0 ≤ i) :
    net.portI i p = net.portN i.toNat p.toNat := by
  unfold Net.portI Net.getNode Net.portN
  rw [if_pos hi]

theorem Net.portN_setPortI (net : Net) {i : Int} (p : Int) (v : Port) (x q : Nat) (hi : 0 ≤ i) :
    (net.setPortI i p v).portN x q =
      if x = i.toNat ∧ i.toNat < net.usedNodes ∧ q = p.toNat ∧ p.toNat < 3 then v
      else net.portN x q := by
  unfold Net.setPortI
  rw [if_pos hi]
  exact Net.portN_setPortN ..

theorem wf_mutual {net : Net} (hwf : net.Wf) {x q : Nat}
    (h : net.portN x q ≠ Port.nil) :
    ∃ j r : Nat, j < net.usedNodes ∧ r < 3 ∧ net.portN x q = ⟨(j : Int), (r : Int)⟩ ∧
      net.portN j r = ⟨(x : Int), (q : Int)⟩ := by
  obtain ⟨hx, hq⟩ := portN_ne_nil_range h
  rcases hwf x q hx hq with h1 | h1
  · exact absurd h1 h
  · exact h1

theorem disconnect_of_nil {net : Net} {i p : Int} (hi : 0 ≤ i)
    (h : net.portN i.toNat p.toNat = Port.nil) :
    ic_net_disconnect_port net i p = net := by
  unfold ic_net_disconnect_port
  dsimp only
  rw [Net.portI_eq_portN net p hi, h]
  simp [Port.nil]

theorem disconnect_spec {net : Net} (hwf : net.Wf) {i p : Int} (hi : 0 ≤ i)
    (h : net.portN i.toNat p.toNat ≠ Port.nil) :
    ∃ j r : Nat, j < net.usedNodes ∧ r < 3 ∧
      net.portN i.toNat p.toNat = ⟨(j : Int), (r : Int)⟩ ∧
      net.portN j r = ⟨((i.toNat : Nat) : Int), ((p.toNat : Nat) : Int)⟩ ∧
      ic_net_disconnect_port net i p = net.setPortN j r Port.nil := by
  obtain ⟨j, r, hj, hr, hval, hback⟩ := wf_mutual hwf h
  refine ⟨j, r, hj, hr, hval, hback, ?_⟩
  unfold ic_net_disconnect_port
  dsimp only
  rw [Net.portI_eq_portN net p hi, hval]
  rw [if_pos (by simp [Port.nil])]
  have hc1 : (0 : Int) ≤ (j : Int) := Int.natCast_nonneg j
  have hc2 : (j : Int) < (net.usedNodes : Int) := by exact_mod_cast hj
  have hc3 : (0 : Int) ≤ (r : Int) := Int.natCast_nonneg r
  have hc4 : (r : Int) < 3 := by exact_mod_cast hr
  rw [if_pos (And.intro hc1 (And.intro hc2 (And.intro hc3 hc4)))]
  unfold Net.setPortI
  rw [if_pos (by omega : (0 : Int) ≤ (j : Int))]
  simp

theorem int_toNat_inj {a b : Int} (ha : 0 ≤ a) (hb : 0 ≤ b) (h : a.toNat = b.toNat) :
    a = b := by omega

theorem toNat_of_cast_eq {j : Nat} {a : Int} (h : (j : Int) = a) : j = a.toNat := by omega

theorem cast_nat_inj {j x : Nat} (h : (j : Int) = (x : Int)) : j = x := by omega

theorem disconnect_frame (m : Net) (i p : Int) (x q : Nat)
    (hne : m.portI i p ≠ ⟨(x : Int), (q : Int)⟩) :
    (ic_net_disconnect_port m i p).portN x q = m.portN x q := by
  unfold ic_net_disconnect_port
  dsimp only
  split
  · split
    · next hrange =>
      obtain ⟨h1, h2, h3, h4⟩ := hrange
      rw [Net.portN_setPortI _ _ _ _ _ h1]
      rw [if_neg]
      rintro ⟨rfl, -, rfl, -⟩
      exact hne (by rw [Int.toNat_of_nonneg h1, Int.toNat_of_nonneg h3])
    · rfl
  · rfl

theorem disconnect_portN_or (m : Net) (i p : Int) (x q : Nat) :
    (ic_net_disconnect_port m i p).portN x q = m.portN x q ∨
      (ic_net_disconnect_port m i p).portN x q = Port.nil := by
  unfold ic_net_disconnect_port
  dsimp only
  split
  · split
    · next hrange =>
      rw [Net.portN_setPortI _ _ _ _ _ hrange.1]
      split
      · exact Or.inr rfl
      · exact Or.inl rfl
    · exact Or.inl rfl
  · exact Or.inl rfl

theorem disconnect_clears (m : Net) {i p : Int} {x q : Nat}
    (hval : m.portI i p = ⟨(x : Int), (q : Int)⟩)
    (hx : x < m.usedNodes) (hq : q < 3) :
    (ic_net_disconnect_port m i p).portN x q = Port.nil := by
  unfold ic_net_disconnect_port
  dsimp only
  rw [hval]
  rw [if_pos (by show ¬((x : Int) = -1); omega)]
  rw [if_pos (by
    refine ⟨?_, ?_, ?_, ?_⟩
    · show (0 : Int) ≤ (x : Int)
      omega
    · show (x : Int) < (m.usedNodes : Int)
      exact_mod_cast hx
    · show (0 : Int) ≤ (q : Int)
      omega
    · show (q : Int) < 3
      exact_mod_cast hq)]
  rw [Net.portN_setPortI _ _ _ _ _ (by show (0 : Int) ≤ (x : Int); omega)]
  rw [if_pos (by
    refine ⟨?_, ?_, ?_, ?_⟩
    · show x = ((x : Int)).toNat
      omega
    · show ((x : Int)).toNat < m.usedNodes
      omega
    · show q = ((q : Int)).toNat
      omega
    · show ((q : Int)).toNat < 3
      omega)]

theorem setPortI_portN_other (m : Net) {i p : Int} (v : Port) (x q : Nat)
    (h : ¬(x = i.toNat ∧ q = p.toNat)) :
    (m.setPortI i p v).portN x q = m.portN x q := by
  unfold Net.setPortI
  split
  · rw [Net.portN_setPortN]
    rw [if_neg (by tauto)]
  · rfl

theorem port_mk_inj {x1 y1 x2 y2 : Int} (h : (⟨x1, y1⟩ : Port) = ⟨x2, y2⟩) :
    x1 = x2 ∧ y1 = y2 := by
  injection h with h1 h2
  exact ⟨h1, h2⟩

theorem usedNodes_disconnect (net : Net) (i p : Int) :
    (ic_net_disconnect_port net i p).usedNodes = net.usedNodes :=
  (skelEq_disconnect net i p).1

theorem usedNodes_setPortI (net : Net) (i p : Int) (v : Port) :
    (net.setPortI i p v).usedNodes = net.usedNodes :=
  (skelEq_setPortI net i p v).1

theorem connect_portN_eq (net : Net) {a pa b pb : Int}
    (ha : 0 ≤ a) (ha2 : a.toNat < net.usedNodes) (hpa : 0 ≤ pa) (hpa2 : pa.toNat < 3)
    (hb : 0 ≤ b) (hb2 : b.toNat < net.usedNodes) (hpb : 0 ≤ pb) (hpb2 : pb.toNat < 3)
    (x q : Nat) :
    (ic_net_connect net a pa b pb).portN x q =
      (((ic_net_disconnect_port (ic_net_disconnect_port net a pa) b pb).setPortI a pa
        ⟨b, pb⟩).setPortI b pb ⟨a, pa⟩).portN x q := by
  unfold ic_net_connect
  rw [if_neg (by omega)]
  dsimp only
  split
  · exact Net.portN_congr (nodes_add_redex ..) x q
  · rfl

theorem connect_portN_fst (net : Net) {a pa b pb : Int}
    (ha : 0 ≤ a) (ha2 : a.toNat < net.usedNodes) (hpa : 0 ≤ pa) (hpa2 : pa.toNat < 3)
    (hb : 0 ≤ b) (hb2 : b.toNat < net.usedNodes) (hpb : 0 ≤ pb) (hpb2 : pb.toNat < 3) :
    (ic_net_connect net a pa b pb).portN a.toNat pa.toNat = ⟨b, pb⟩ := by
  rw [connect_portN_eq net ha ha2 hpa hpa2 hb hb2 hpb hpb2]
  have hu1 : (ic_net_disconnect_port (ic_net_disconnect_port net a pa) b pb).usedNodes =
      net.usedNodes := by
    rw [usedNodes_disconnect, usedNodes_disconnect]
  have hu2 : ((ic_net_disconnect_port (ic_net_disconnect_port net a pa) b pb).setPortI a pa
      (⟨b, pb⟩ : Port)).usedNodes = net.usedNodes := by
    rw [usedNodes_setPortI, hu1]
  by_cases heq : a.toNat = b.toNat ∧ pa.toNat = pb.toNat
  · rw [Net.portN_setPortI _ _ _ _ _ hb, if_pos ⟨heq.1, by rw [hu2]; exact hb2, heq.2, hpb2⟩]
    rw [int_toNat_inj ha hb heq.1, int_toNat_inj hpa hpb heq.2]
  · rw [Net.portN_setPortI _ _ _ _ _ hb, if_neg (by tauto)]
    rw [Net.portN_setPortI _ _ _ _ _ ha, if_pos ⟨rfl, by rw [hu1]; exact ha2, rfl, hpa2⟩]

theorem connect_portN_snd (net : Net) {a pa b pb : Int}
    (ha : 0 ≤ a) (ha2 : a.toNat < net.usedNodes) (hpa : 0 ≤ pa) (hpa2 : pa.toNat < 3)
    (hb : 0 ≤ b) (hb2 : b.toNat < net.usedNodes) (hpb : 0 ≤ pb) (hpb2 : pb.toNat < 3) :
    (ic_net_connect net a pa b pb).portN b.toNat pb.toNat = ⟨a, pa⟩ := by
  rw [connect_portN_eq net ha ha2 hpa hpa2 hb hb2 hpb hpb2]
  have hu2 : ((ic_net_disconnect_port (ic_net_disconnect_port net a pa) b pb).setPortI a pa
      (⟨b, pb⟩ : Port)).usedNodes = net.usedNodes := by
    rw [usedNodes_setPortI, usedNodes_disconnect, usedNodes_disconnect]
  rw [Net.portN_setPortI _ _ _ _ _ hb, if_pos ⟨rfl, by rw [hu2]; exact hb2, rfl, hpb2⟩]

theorem connect_portN_frame (net : Net) {a pa b pb : Int} (hwf : net.Wf)
    (ha : 0 ≤ a) (ha2 : a.toNat < net.usedNodes) (hpa : 0 ≤ pa) (hpa2 : pa.toNat < 3)
    (hb : 0 ≤ b) (hb2 : b.toNat < net.usedNodes) (hpb : 0 ≤ pb) (hpb2 : pb.toNat < 3)
    {x q : Nat}
    (hx1 : ¬(x = a.toNat ∧ q = pa.toNat)) (hx2 : ¬(x = b.toNat ∧ q = pb.toNat))
    (hv1 : net.portN x q ≠ ⟨a, pa⟩) (hv2 : net.portN x q ≠ ⟨b, pb⟩) :
    (ic_net_connect net a pa b pb).portN x q = net.portN x q := by
  rw [connect_portN_eq net ha ha2 hpa hpa2 hb hb2 hpb hpb2]
  rw [setPortI_portN_other _ _ _ _ hx2, setPortI_portN_other _ _ _ _ hx1]
  have hne1 : net.portI a pa ≠ ⟨(x : Int), (q : Int)⟩ := by
    intro hcon
    rw [Net.portI_eq_portN net pa ha] at hcon
    have hnn : net.portN a.toNat pa.toNat ≠ Port.nil := by
      rw [hcon]
      intro hc
      exact absurd (port_mk_inj hc).1 (by omega)
    obtain ⟨j, r, hj, hr, hvv, hbk⟩ := wf_mutual hwf hnn
    obtain ⟨hj2, hr2⟩ := port_mk_inj (hvv.symm.trans hcon)
    have hjx : j = x := by omega
    have hrq : r = q := by omega
    rw [hjx, hrq, Int.toNat_of_nonneg ha, Int.toNat_of_nonneg hpa] at hbk
    exact hv1 hbk
  have hne2 : (ic_net_disconnect_port net a pa).portI b pb ≠ ⟨(x : Int), (q : Int)⟩ := by
    rw [Net.portI_eq_portN _ pb hb]
    rcases disconnect_portN_or net a pa b.toNat pb.toNat with hor | hor
    · rw [hor]
      intro hcon
      have hnn : net.portN b.toNat pb.toNat ≠ Port.nil := by
        rw [hcon]
        intro hc
        exact absurd (port_mk_inj hc).1 (by omega)
      obtain ⟨j, r, hj, hr, hvv, hbk⟩ := wf_mutual hwf hnn
      obtain ⟨hj2, hr2⟩ := port_mk_inj (hvv.symm.trans hcon)
      have hjx : j = x := by omega
      have hrq : r = q := by omega
      rw [hjx, hrq, Int.toNat_of_nonneg hb, Int.toNat_of_nonneg hpb] at hbk
      exact hv2 hbk
    · rw [hor]
      intro hc
      exact absurd (port_mk_inj hc).1 (by omega)
  rw [disconnect_frame _ _ _ _ _ hne2, disconnect_frame _ _ _ _ _ hne1]

theorem connect_portN_sever (net : Net) {a pa b pb : Int} (hwf : net.Wf)
    (ha : 0 ≤ a) (ha2 : a.toNat < net.usedNodes) (hpa : 0 ≤ pa) (hpa2 : pa.toNat < 3)
    (hb : 0 ≤ b) (hb2 : b.toNat < net.usedNodes) (hpb : 0 ≤ pb) (hpb2 : pb.toNat < 3)
    {x q : Nat}
    (hx1 : ¬(x = a.toNat ∧ q = pa.toNat)) (hx2 : ¬(x = b.toNat ∧ q = pb.toNat))
    (hval : net.portN x q = ⟨a, pa⟩ ∨ net.portN x q = ⟨b, pb⟩) :
    (ic_net_connect net a pa b pb).portN x q = Port.nil := by
  rw [connect_portN_eq net ha ha2 hpa hpa2 hb hb2 hpb hpb2]
  rw [setPortI_portN_other _ _ _ _ hx2, setPortI_portN_other _ _ _ _ hx1]
  have hnn : net.portN x q ≠ Port.nil := by
    rcases hval with hval | hval <;> rw [hval] <;> intro hc <;>
      exact absurd (port_mk_inj hc).1 (by omega)
  obtain ⟨hxr, hqr⟩ := portN_ne_nil_range hnn
  obtain ⟨j, r, hj, hr, hvv, hbk⟩ := wf_mutual hwf hnn
  by_cases hcase : net.portN x q = ⟨a, pa⟩
  · have hja : (j : Int) = a := (port_mk_inj (hvv.symm.trans hcase)).1
    have hrpa : (r : Int) = pa := (port_mk_inj (hvv.symm.trans hcase)).2
    have hjA : j = a.toNat := by omega
    have hrPA : r = pa.toNat := by omega
    have hclr : (ic_net_disconnect_port net a pa).portN x q = Port.nil := by
      refine disconnect_clears net ?_ hxr hqr
      rw [Net.portI_eq_portN net pa ha, ← hjA, ← hrPA]
      exact hbk
    rcases disconnect_portN_or (ic_net_disconnect_port net a pa) b pb x q with hor | hor <;>
      rw [hor]
    · exact hclr
  · have hvb : net.portN x q = ⟨b, pb⟩ := by tauto
    have hjb : (j : Int) = b := (port_mk_inj (hvv.symm.trans hvb)).1
    have hrpb : (r : Int) = pb := (port_mk_inj (hvv.symm.trans hvb)).2
    have hjB : j = b.toNat := by omega
    have hrPB : r = pb.toNat := by omega
    have hfr : (ic_net_disconnect_port net a pa).portN b.toNat pb.toNat =
        net.portN b.toNat pb.toNat := by
      refine disconnect_frame _ _ _ _ _ ?_
      rw [Net.portI_eq_portN net pa ha]
      intro hcon
      have hnnA : net.portN a.toNat pa.toNat ≠ Port.nil := by
        rw [hcon]
        intro hc
        exact absurd (port_mk_inj hc).1 (by omega)
      obtain ⟨j', r', hj', hr', hvv', hbk'⟩ := wf_mutual hwf hnnA
      obtain ⟨he1, he2⟩ := port_mk_inj (hvv'.symm.trans hcon)
      have hj'b : j' = b.toNat := by omega
      have hr'pb : r' = pb.toNat := by omega
      rw [hj'b, hr'pb] at hbk'
      rw [hjB, hrPB] at hbk
      obtain ⟨hc1, hc2⟩ := port_mk_inj (hbk'.symm.trans hbk)
      have : a.toNat = x := by omega
      have : pa.toNat = q := by omega
      tauto
    refine disconnect_clears (ic_net_disconnect_port net a pa) ?_ ?_ hqr
    · rw [Net.portI_eq_portN _ pb hb, hfr, ← hjB, ← hrPB]
      exact hbk
    · rw [usedNodes_disconnect]
      exact hxr

theorem connect_of_guard {net : Net} {a pa b pb : Int}
    (h : a < 0 ∨ (net.usedNodes : Int) ≤ a ∨ b < 0 ∨ (net.usedNodes : Int) ≤ b ∨
      pa < 0 ∨ 3 ≤ pa ∨ pb < 0 ∨ 3 ≤ pb) :
    ic_net_connect net a pa b pb = net := by
  unfold ic_net_connect
  rw [if_pos h]

set_option maxHeartbeats 1000000 in
theorem wf_connect (net : Net) (a pa b pb : Int) (hwf : net.Wf) :
    (ic_net_connect net a pa b pb).Wf := by
  by_cases hg : a < 0 ∨ (net.usedNodes : Int) ≤ a ∨ b < 0 ∨ (net.usedNodes : Int) ≤ b ∨
      pa < 0 ∨ 3 ≤ pa ∨ pb < 0 ∨ 3 ≤ pb
  · rw [connect_of_guard hg]
    exact hwf
  · have ha : 0 ≤ a := by omega
    have ha2 : a.toNat < net.usedNodes := by omega
    have hpa : 0 ≤ pa := by omega
    have hpa2 : pa.toNat < 3 := by omega
    have hb : 0 ≤ b := by omega
    have hb2 : b.toNat < net.usedNodes := by omega
    have hpb : 0 ≤ pb := by omega
    have hpb2 : pb.toNat < 3 := by omega
    have huse : (ic_net_connect net a pa b pb).usedNodes = net.usedNodes :=
      (skelEq_connect net a pa b pb).1
    intro x q hx hq
    rw [huse] at hx
    by_cases hc1 : x = a.toNat ∧ q = pa.toNat
    · right
      refine ⟨b.toNat, pb.toNat, by rw [huse]; exact hb2, hpb2, ?_, ?_⟩
      · rw [hc1.1, hc1.2, connect_portN_fst net ha ha2 hpa hpa2 hb hb2 hpb hpb2]
        rw [Int.toNat_of_nonneg hb, Int.toNat_of_nonneg hpb]
      · rw [connect_portN_snd net ha ha2 hpa hpa2 hb hb2 hpb hpb2, hc1.1, hc1.2]
        rw [Int.toNat_of_nonneg ha, Int.toNat_of_nonneg hpa]
    · by_cases hc2 : x = b.toNat ∧ q = pb.toNat
      · right
        refine ⟨a.toNat, pa.toNat, by rw [huse]; exact ha2, hpa2, ?_, ?_⟩
        · rw [hc2.1, hc2.2, connect_portN_snd net ha ha2 hpa hpa2 hb hb2 hpb hpb2]
          rw [Int.toNat_of_nonneg ha, Int.toNat_of_nonneg hpa]
        · rw [connect_portN_fst net ha ha2 hpa hpa2 hb hb2 hpb hpb2, hc2.1, hc2.2]
          rw [Int.toNat_of_nonneg hb, Int.toNat_of_nonneg hpb]
      · by_cases hv : net.portN x q = ⟨a, pa⟩ ∨ net.portN x q = ⟨b, pb⟩
        · left
          exact connect_portN_sever net hwf ha ha2 hpa hpa2 hb hb2 hpb hpb2 hc1 hc2 hv
        · push_neg at hv
          have hfr := connect_portN_frame net hwf ha ha2 hpa hpa2 hb hb2 hpb hpb2 hc1 hc2
            hv.1 hv.2
          by_cases hnil : net.portN x q = Port.nil
          · left
            rw [hfr, hnil]
          · obtain ⟨j, r, hj, hr, hvv, hbk⟩ := wf_mutual hwf hnil
            right
            refine ⟨j, r, by rw [huse]; exact hj, hr, by rw [hfr]; exact hvv, ?_⟩
            have hj1 : ¬(j = a.toNat ∧ r = pa.toNat) := by
              rintro ⟨rfl, rfl⟩
              apply hv.1
              rw [hvv, Int.toNat_of_nonneg ha, Int.toNat_of_nonneg hpa]
            have hj2 : ¬(j = b.toNat ∧ r = pb.toNat) := by
              rintro ⟨rfl, rfl⟩
              apply hv.2
              rw [hvv, Int.toNat_of_nonneg hb, Int.toNat_of_nonneg hpb]
            have hw1 : net.portN j r ≠ ⟨a, pa⟩ := by
              rw [hbk]
              intro hc
              obtain ⟨e1, e2⟩ := port_mk_inj hc
              exact hc1 ⟨toNat_of_cast_eq e1, toNat_of_cast_eq e2⟩
            have hw2 : net.portN j r ≠ ⟨b, pb⟩ := by
              rw [hbk]
              intro hc
              obtain ⟨e1, e2⟩ := port_mk_inj hc
              exact hc2 ⟨toNat_of_cast_eq e1, toNat_of_cast_eq e2⟩
            rw [connect_portN_frame net hwf ha ha2 hpa hpa2 hb hb2 hpb hpb2 hj1 hj2 hw1 hw2]
            exact hbk

theorem setPortI_nil_portN {m : Net} (i p : Int) {x q : Nat} (h : m.portN x q = Port.nil) :
    (m.setPortI i p Port.nil).portN x q = Port.nil := by
  unfold Net.setPortI
  split
  · rw [Net.portN_setPortN]
    split
    · rfl
    · exact h
  · exact h

theorem setPortI_nil_self {m : Net} {i p : Int} (hi : 0 ≤ i)
    (hiu : i.toNat < m.usedNodes) (hpu : p.toNat < 3) :
    (m.setPortI i p Port.nil).portN i.toNat p.toNat = Port.nil := by
  rw [Net.portN_setPortI _ _ _ _ _ hi, if_pos ⟨rfl, hiu, rfl, hpu⟩]

theorem sever_block_other {m : Net} {c : Prop} [Decidable c] {cp : Port} {n pw : Int}
    {x q : Nat} (g : c → ¬(x = cp.node.toNat ∧ q = cp.port.toNat))
    (h : ¬(x = n.toNat ∧ q = pw.toNat)) :
    (if c then (m.setPortI cp.node cp.port Port.nil).setPortI n pw Port.nil
      else m).portN x q = m.portN x q := by
  split
  · next hcc => rw [setPortI_portN_other _ _ _ _ h, setPortI_portN_other _ _ _ _ (g hcc)]
  · rfl

theorem sever_block_nil {m : Net} {c : Prop} [Decidable c] {cp : Port} {n pw : Int}
    {x q : Nat} (h : m.portN x q = Port.nil) :
    (if c then (m.setPortI cp.node cp.port Port.nil).setPortI n pw Port.nil
      else m).portN x q = Port.nil := by
  split
  · exact setPortI_nil_portN _ _ (setPortI_nil_portN _ _ h)
  · exact h

theorem sever_portN_other (net : Net) (n1 n2 : Int) (c1 c2 c3 c4 : Port) {x q : Nat}
    (h1 : ¬(x = n1.toNat ∧ q = 0)) (h2 : ¬(x = n2.toNat ∧ q = 0))
    (h3 : ¬(x = n1.toNat ∧ q = 1)) (h4 : ¬(x = n1.toNat ∧ q = 2))
    (h5 : ¬(x = n2.toNat ∧ q = 1)) (h6 : ¬(x = n2.toNat ∧ q = 2))
    (g1 : 0 ≤ c1.node → ¬(x = c1.node.toNat ∧ q = c1.port.toNat))
    (g2 : 0 ≤ c2.node → ¬(x = c2.node.toNat ∧ q = c2.port.toNat))
    (g3 : 0 ≤ c3.node → ¬(x = c3.node.toNat ∧ q = c3.port.toNat))
    (g4 : 0 ≤ c4.node → ¬(x = c4.node.toNat ∧ q = c4.port.toNat)) :
    (ic_sever_pair_links net n1 n2 c1 c2 c3 c4).portN x q = net.portN x q := by
  unfold ic_sever_pair_links
  dsimp only
  rw [sever_block_other g4 h6, sever_block_other g3 h5, sever_block_other g2 h4,
    sever_block_other g1 h3, setPortI_portN_other _ _ _ _ h2,
    setPortI_portN_other _ _ _ _ h1]

theorem sever_block_usedNodes {m : Net} {c : Prop} [Decidable c] {cp : Port} {n pw : Int} :
    (if c then (m.setPortI cp.node cp.port Port.nil).setPortI n pw Port.nil
      else m).usedNodes = m.usedNodes := by
  split
  · rw [usedNodes_setPortI, usedNodes_setPortI]
  · rfl

theorem sever_portN_nil (net : Net) {n1 n2 : Int} (c1 c2 c3 c4 : Port) {x q : Nat}
    (hn1 : 0 ≤ n1) (hn1u : n1.toNat < net.usedNodes)
    (hn2 : 0 ≤ n2) (hn2u : n2.toNat < net.usedNodes)
    (hx : x < net.usedNodes) (hq : q < 3)
    (h : (x = n1.toNat ∧ (q = 0 ∨ (q = 1 ∧ 0 ≤ c1.node) ∨ (q = 2 ∧ 0 ≤ c2.node))) ∨
      (x = n2.toNat ∧ (q = 0 ∨ (q = 1 ∧ 0 ≤ c3.node) ∨ (q = 2 ∧ 0 ≤ c4.node))) ∨
      (0 ≤ c1.node ∧ x = c1.node.toNat ∧ q = c1.port.toNat) ∨
      (0 ≤ c2.node ∧ x = c2.node.toNat ∧ q = c2.port.toNat) ∨
      (0 ≤ c3.node ∧ x = c3.node.toNat ∧ q = c3.port.toNat) ∨
      (0 ≤ c4.node ∧ x = c4.node.toNat ∧ q = c4.port.toNat)) :
    (ic_sever_pair_links net n1 n2 c1 c2 c3 c4).portN x q = Port.nil := by
  unfold ic_sever_pair_links
  dsimp only
  have huA : ((net.setPortI n1 0 Port.nil).setPortI n2 0 Port.nil).usedNodes = net.usedNodes := by
    rw [usedNodes_setPortI, usedNodes_setPortI]
  rcases h with ⟨rfl, hcase⟩ | ⟨rfl, hcase⟩ | ⟨hcn, rfl, rfl⟩ | ⟨hcn, rfl, rfl⟩ |
    ⟨hcn, rfl, rfl⟩ | ⟨hcn, rfl, rfl⟩
  · rcases hcase with rfl | ⟨rfl, hcn⟩ | ⟨rfl, hcn⟩
    · refine sever_block_nil (sever_block_nil (sever_block_nil (sever_block_nil
        (setPortI_nil_portN _ _ ?_))))
      exact setPortI_nil_self hn1 hn1u (by omega)
    · refine sever_block_nil (sever_block_nil (sever_block_nil ?_))
      rw [if_pos hcn]
      refine setPortI_nil_self hn1 ?_ (by omega)
      rw [usedNodes_setPortI, huA]
      exact hn1u
    · refine sever_block_nil (sever_block_nil ?_)
      rw [if_pos hcn]
      refine setPortI_nil_self hn1 ?_ (by omega)
      rw [usedNodes_setPortI, sever_block_usedNodes, huA]
      exact hn1u
  · rcases hcase with rfl | ⟨rfl, hcn⟩ | ⟨rfl, hcn⟩
    · refine sever_block_nil (sever_block_nil (sever_block_nil (sever_block_nil ?_)))
      exact setPortI_nil_self hn2 (by rw [usedNodes_setPortI]; exact hn2u) (by omega)
    · refine sever_block_nil ?_
      rw [if_pos hcn]
      refine setPortI_nil_self hn2 ?_ (by omega)
      rw [usedNodes_setPortI, sever_block_usedNodes, sever_block_usedNodes, huA]
      exact hn2u
    · rw [if_pos hcn]
      refine setPortI_nil_self hn2 ?_ (by omega)
      rw [usedNodes_setPortI, sever_block_usedNodes, sever_block_usedNodes, sever_block_usedNodes, huA]
      exact hn2u
  · refine sever_block_nil (sever_block_nil (sever_block_nil ?_))
    rw [if_pos hcn]
    refine setPortI_nil_portN _ _ (setPortI_nil_self hcn ?_ hq)
    rw [huA]
    exact hx
  · refine sever_block_nil (sever_block_nil ?_)
    rw [if_pos hcn]
    refine setPortI_nil_portN _ _ (setPortI_nil_self hcn ?_ hq)
    rw [sever_block_usedNodes, huA]
    exact hx
  · refine sever_block_nil ?_
    rw [if_pos hcn]
    refine setPortI_nil_portN _ _ (setPortI_nil_self hcn ?_ hq)
    rw [sever_block_usedNodes, sever_block_usedNodes, huA]
    exact hx
  · rw [if_pos hcn]
    refine setPortI_nil_portN _ _ (setPortI_nil_self hcn ?_ hq)
    rw [sever_block_usedNodes, sever_block_usedNodes, sever_block_usedNodes, huA]
    exact hx

theorem setPortI_nil_or (m : Net) (i p : Int) (x q : Nat) :
    (m.setPortI i p Port.nil).portN x q = m.portN x q ∨
      (m.setPortI i p Port.nil).portN x q = Port.nil := by
  unfold Net.setPortI
  split
  · rw [Net.portN_setPortN]
    split
    · right; rfl
    · left; rfl
  · left; rfl

theorem sever_block_or {m : Net} {c : Prop} [Decidable c] {cp : Port} {n pw : Int}
    (x q : Nat) :
    (if c then (m.setPortI cp.node cp.port Port.nil).setPortI n pw Port.nil
      else m).portN x q = m.portN x q ∨
    (if c then (m.setPortI cp.node cp.port Port.nil).setPortI n pw Port.nil
      else m).portN x q = Port.nil := by
  split
  · rcases setPortI_nil_or (m.setPortI cp.node cp.port Port.nil) n pw x q with h | h
    · rw [h]
      exact setPortI_nil_or m cp.node cp.port x q
    · right; exact h
  · left; rfl

theorem port_or_trans {v1 v2 v3 : Port} (h12 : v1 = v2 ∨ v1 = Port.nil)
    (h23 : v2 = v3 ∨ v2 = Port.nil) : v1 = v3 ∨ v1 = Port.nil := by
  rcases h12 with h | h
  · rw [h]; exact h23
  · right; exact h

theorem sever_portN_or (net : Net) (n1 n2 : Int) (c1 c2 c3 c4 : Port) (x q : Nat) :
    (ic_sever_pair_links net n1 n2 c1 c2 c3 c4).portN x q = net.portN x q ∨
      (ic_sever_pair_links net n1 n2 c1 c2 c3 c4).portN x q = Port.nil := by
  unfold ic_sever_pair_links
  dsimp only
  exact port_or_trans (sever_block_or x q) (port_or_trans (sever_block_or x q)
    (port_or_trans (sever_block_or x q) (port_or_trans (sever_block_or x q)
      (port_or_trans (setPortI_nil_or _ n2 0 x q) (setPortI_nil_or net n1 0 x q)))))

theorem usedNodes_sever (net : Net) (n1 n2 : Int) (c1 c2 c3 c4 : Port) :
    (ic_sever_pair_links net n1 n2 c1 c2 c3 c4).usedNodes = net.usedNodes := by
  unfold ic_sever_pair_links
  dsimp only
  rw [sever_block_usedNodes, sever_block_usedNodes, sever_block_usedNodes,
    sever_block_usedNodes, usedNodes_setPortI, usedNodes_setPortI]

theorem snap_target {net : Net} (hwf : net.Wf) {m : Int} (hm : 0 ≤ m) {pp : Nat}
    {c : Port} (hc : c = net.portN m.toNat pp) (hcn : 0 ≤ c.node) {x q : Nat}
    (hxq : x = c.node.toNat ∧ q = c.port.toNat) :
    net.portN x q = ⟨m, (pp : Int)⟩ := by
  have hnil : net.portN m.toNat pp ≠ Port.nil := by
    intro h
    rw [hc, h] at hcn
    exact absurd hcn (by decide)
  obtain ⟨j, r, hj, hr, hval, hback⟩ := wf_mutual hwf hnil
  rw [hc, hval] at hxq
  obtain ⟨hx1, hq1⟩ := hxq
  have hx2 : x = j := hx1.trans (Int.toNat_natCast j)
  have hq2 : q = r := hq1.trans (Int.toNat_natCast r)
  rw [hx2, hq2, hback, Int.toNat_of_nonneg hm]

set_option maxHeartbeats 1000000 in
theorem wf_sever {net : Net} {n1 n2 : Int} (hwf : net.Wf)
    (hv : validRedex net n1 n2 = true) {c1 c2 c3 c4 : Port}
    (hc1 : c1 = net.portN n1.toNat 1) (hc2 : c2 = net.portN n1.toNat 2)
    (hc3 : c3 = net.portN n2.toNat 1) (hc4 : c4 = net.portN n2.toNat 2) :
    (ic_sever_pair_links net n1 n2 c1 c2 c3 c4).Wf := by
  obtain ⟨ha1, ha2, hp1, hp2⟩ := validRedex_parts hv
  obtain ⟨hn1, hn1u⟩ := active_in_range ha1
  obtain ⟨hn2, hn2u⟩ := active_in_range ha2
  have hp1N : net.portN n1.toNat 0 = ⟨n2, 0⟩ := by
    have h := hp1
    rw [Net.portI_eq_portN net 0 hn1] at h
    exact h
  have hp2N : net.portN n2.toNat 0 = ⟨n1, 0⟩ := by
    have h := hp2
    rw [Net.portI_eq_portN net 0 hn2] at h
    exact h
  intro x q hx hq
  rw [usedNodes_sever] at hx
  by_cases hx1 : x = n1.toNat
  · left
    subst hx1
    rcases (by omega : q = 0 ∨ q = 1 ∨ q = 2) with rfl | rfl | rfl
    · exact sever_portN_nil net c1 c2 c3 c4 hn1 hn1u hn2 hn2u hn1u hq
        (Or.inl ⟨rfl, Or.inl rfl⟩)
    · by_cases hcn : 0 ≤ c1.node
      · exact sever_portN_nil net c1 c2 c3 c4 hn1 hn1u hn2 hn2u hn1u hq
          (Or.inl ⟨rfl, Or.inr (Or.inl ⟨rfl, hcn⟩)⟩)
      · by_cases hnil : net.portN n1.toNat 1 = Port.nil
        · rcases sever_portN_or net n1 n2 c1 c2 c3 c4 n1.toNat 1 with h | h
          · rw [h]; exact hnil
          · exact h
        · obtain ⟨j, r, hj, hr, hval, hback⟩ := wf_mutual hwf hnil
          exact absurd (by rw [hc1, hval]; exact Int.natCast_nonneg j) hcn
    · by_cases hcn : 0 ≤ c2.node
      · exact sever_portN_nil net c1 c2 c3 c4 hn1 hn1u hn2 hn2u hn1u hq
          (Or.inl ⟨rfl, Or.inr (Or.inr ⟨rfl, hcn⟩)⟩)
      · by_cases hnil : net.portN n1.toNat 2 = Port.nil
        · rcases sever_portN_or net n1 n2 c1 c2 c3 c4 n1.toNat 2 with h | h
          · rw [h]; exact hnil
          · exact h
        · obtain ⟨j, r, hj, hr, hval, hback⟩ := wf_mutual hwf hnil
          exact absurd (by rw [hc2, hval]; exact Int.natCast_nonneg j) hcn
  · by_cases hx2 : x = n2.toNat
    · left
      subst hx2
      rcases (by omega : q = 0 ∨ q = 1 ∨ q = 2) with rfl | rfl | rfl
      · exact sever_portN_nil net c1 c2 c3 c4 hn1 hn1u hn2 hn2u hn2u hq
          (Or.inr (Or.inl ⟨rfl, Or.inl rfl⟩))
      · by_cases hcn : 0 ≤ c3.node
        · exact sever_portN_nil net c1 c2 c3 c4 hn1 hn1u hn2 hn2u hn2u hq
            (Or.inr (Or.inl ⟨rfl, Or.inr (Or.inl ⟨rfl, hcn⟩)⟩))
        · by_cases hnil : net.portN n2.toNat 1 = Port.nil
          · rcases sever_portN_or net n1 n2 c1 c2 c3 c4 n2.toNat 1 with h | h
            · rw [h]; exact hnil
            · exact h
          · obtain ⟨j, r, hj, hr, hval, hback⟩ := wf_mutual hwf hnil
            exact absurd (by rw [hc3, hval]; exact Int.natCast_nonneg j) hcn
      · by_cases hcn : 0 ≤ c4.node
        · exact sever_portN_nil net c1 c2 c3 c4 hn1 hn1u hn2 hn2u hn2u hq
            (Or.inr (Or.inl ⟨rfl, Or.inr (Or.inr ⟨rfl, hcn⟩)⟩))
        · by_cases hnil : net.portN n2.toNat 2 = Port.nil
          · rcases sever_portN_or net n1 n2 c1 c2 c3 c4 n2.toNat 2 with h | h
            · rw [h]; exact hnil
            · exact h
          · obtain ⟨j, r, hj, hr, hval, hback⟩ := wf_mutual hwf hnil
            exact absurd (by rw [hc4, hval]; exact Int.natCast_nonneg j) hcn
    · by_cases hnil : net.portN x q = Port.nil
      · left
        rcases sever_portN_or net n1 n2 c1 c2 c3 c4 x q with h | h
        · rw [h]; exact hnil
        · exact h
      · obtain ⟨j, r, hj, hr, hval, hback⟩ := wf_mutual hwf hnil
        by_cases hj1 : j = n1.toNat
        · left
          subst hj1
          rcases (by omega : r = 0 ∨ r = 1 ∨ r = 2) with rfl | rfl | rfl
          · rw [hp1N] at hback
            obtain ⟨u1, u2⟩ := port_mk_inj hback
            exact absurd (toNat_of_cast_eq u1.symm) hx2
          · refine sever_portN_nil net c1 c2 c3 c4 hn1 hn1u hn2 hn2u hx hq
              (Or.inr (Or.inr (Or.inl ⟨?_, ?_, ?_⟩)))
            · rw [hc1, hback]; exact Int.natCast_nonneg x
            · rw [hc1, hback]; exact (Int.toNat_natCast x).symm
            · rw [hc1, hback]; exact (Int.toNat_natCast q).symm
          · refine sever_portN_nil net c1 c2 c3 c4 hn1 hn1u hn2 hn2u hx hq
              (Or.inr (Or.inr (Or.inr (Or.inl ⟨?_, ?_, ?_⟩))))
            · rw [hc2, hback]; exact Int.natCast_nonneg x
            · rw [hc2, hback]; exact (Int.toNat_natCast x).symm
            · rw [hc2, hback]; exact (Int.toNat_natCast q).symm
        · by_cases hj2 : j = n2.toNat
          · left
            subst hj2
            rcases (by omega : r = 0 ∨ r = 1 ∨ r = 2) with rfl | rfl | rfl
            · rw [hp2N] at hback
              obtain ⟨u1, u2⟩ := port_mk_inj hback
              exact absurd (toNat_of_cast_eq u1.symm) hx1
            · refine sever_portN_nil net c1 c2 c3 c4 hn1 hn1u hn2 hn2u hx hq
                (Or.inr (Or.inr (Or.inr (Or.inr (Or.inl ⟨?_, ?_, ?_⟩)))))
              · rw [hc3, hback]; exact Int.natCast_nonneg x
              · rw [hc3, hback]; exact (Int.toNat_natCast x).symm
              · rw [hc3, hback]; exact (Int.toNat_natCast q).symm
            · refine sever_portN_nil net c1 c2 c3 c4 hn1 hn1u hn2 hn2u hx hq
                (Or.inr (Or.inr (Or.inr (Or.inr (Or.inr ⟨?_, ?_, ?_⟩)))))
              · rw [hc4, hback]; exact Int.natCast_nonneg x
              · rw [hc4, hback]; exact (Int.toNat_natCast x).symm
              · rw [hc4, hback]; exact (Int.toNat_natCast q).symm
          · right
            have e1 : ¬(x = n1.toNat ∧ q = 0) := fun h => hx1 h.1
            have e2 : ¬(x = n2.toNat ∧ q = 0) := fun h => hx2 h.1
            have e3 : ¬(x = n1.toNat ∧ q = 1) := fun h => hx1 h.1
            have e4 : ¬(x = n1.toNat ∧ q = 2) := fun h => hx1 h.1
            have e5 : ¬(x = n2.toNat ∧ q = 1) := fun h => hx2 h.1
            have e6 : ¬(x = n2.toNat ∧ q = 2) := fun h => hx2 h.1
            have gg1 : 0 ≤ c1.node → ¬(x = c1.node.toNat ∧ q = c1.port.toNat) := by
              intro hg hcontra
              have hsp := snap_target hwf hn1 hc1 hg hcontra
              rw [hval] at hsp
              obtain ⟨u1, u2⟩ := port_mk_inj hsp
              exact hj1 (toNat_of_cast_eq u1)
            have gg2 : 0 ≤ c2.node → ¬(x = c2.node.toNat ∧ q = c2.port.toNat) := by
              intro hg hcontra
              have hsp := snap_target hwf hn1 hc2 hg hcontra
              rw [hval] at hsp
              obtain ⟨u1, u2⟩ := port_mk_inj hsp
              exact hj1 (toNat_of_cast_eq u1)
            have gg3 : 0 ≤ c3.node → ¬(x = c3.node.toNat ∧ q = c3.port.toNat) := by
              intro hg hcontra
              have hsp := snap_target hwf hn2 hc3 hg hcontra
              rw [hval] at hsp
              obtain ⟨u1, u2⟩ := port_mk_inj hsp
              exact hj2 (toNat_of_cast_eq u1)
            have gg4 : 0 ≤ c4.node → ¬(x = c4.node.toNat ∧ q = c4.port.toNat) := by
              intro hg hcontra
              have hsp := snap_target hwf hn2 hc4 hg hcontra
              rw [hval] at hsp
              obtain ⟨u1, u2⟩ := port_mk_inj hsp
              exact hj2 (toNat_of_cast_eq u1)
            have f1 : ¬(j = n1.toNat ∧ r = 0) := fun h => hj1 h.1
            have f2 : ¬(j = n2.toNat ∧ r = 0) := fun h => hj2 h.1
            have f3 : ¬(j = n1.toNat ∧ r = 1) := fun h => hj1 h.1
            have f4 : ¬(j = n1.toNat ∧ r = 2) := fun h => hj1 h.1
            have f5 : ¬(j = n2.toNat ∧ r = 1) := fun h => hj2 h.1
            have f6 : ¬(j = n2.toNat ∧ r = 2) := fun h => hj2 h.1
            have kk1 : 0 ≤ c1.node → ¬(j = c1.node.toNat ∧ r = c1.port.toNat) := by
              intro hg hcontra
              have hsp := snap_target hwf hn1 hc1 hg hcontra
              rw [hback] at hsp
              obtain ⟨u1, u2⟩ := port_mk_inj hsp
              exact hx1 (toNat_of_cast_eq u1)
            have kk2 : 0 ≤ c2.node → ¬(j = c2.node.toNat ∧ r = c2.port.toNat) := by
              intro hg hcontra
              have hsp := snap_target hwf hn1 hc2 hg hcontra
              rw [hback] at hsp
              obtain ⟨u1, u2⟩ := port_mk_inj hsp
              exact hx1 (toNat_of_cast_eq u1)
            have kk3 : 0 ≤ c3.node → ¬(j = c3.node.toNat ∧ r = c3.port.toNat) := by
              intro hg hcontra
              have hsp := snap_target hwf hn2 hc3 hg hcontra
              rw [hback] at hsp
              obtain ⟨u1, u2⟩ := port_mk_inj hsp
              exact hx2 (toNat_of_cast_eq u1)
            have kk4 : 0 ≤ c4.node → ¬(j = c4.node.toNat ∧ r = c4.port.toNat) := by
              intro hg hcontra
              have hsp := snap_target hwf hn2 hc4 hg hcontra
              rw [hback] at hsp
              obtain ⟨u1, u2⟩ := port_mk_inj hsp
              exact hx2 (toNat_of_cast_eq u1)
            refine ⟨j, r, by rw [usedNodes_sever]; exact hj, hr, ?_, ?_⟩
            · rw [sever_portN_other net n1 n2 c1 c2 c3 c4 e1 e2 e3 e4 e5 e6 gg1 gg2 gg3 gg4]
              exact hval
            · rw [sever_portN_other net n1 n2 c1 c2 c3 c4 f1 f2 f3 f4 f5 f6 kk1 kk2 kk3 kk4]
              exact hback

theorem wf_of_nodes_eq {m n : Net} (h : m.nodes = n.nodes) (hwf : n.Wf) : m.Wf := by
  have hu : m.usedNodes = n.usedNodes := by unfold Net.usedNodes; rw [h]
  have hp : ∀ x q : Nat, m.portN x q = n.portN x q := by
    intro x q
    unfold Net.portN Net.nodeAt
    rw [h]
  intro x q hx hq
  rw [hu] at hx
  rcases hwf x q hx hq with h1 | ⟨j, r, hj, hr, hv2, hb2⟩
  · left
    rw [hp]
    exact h1
  · right
    exact ⟨j, r, by rw [hu]; exact hj, hr, by rw [hp]; exact hv2, by rw [hp]; exact hb2⟩

theorem wf_setActiveI {net : Net} (i : Int) (b : Bool) (hwf : net.Wf) :
    (net.setActiveI i b).Wf := by
  unfold Net.setActiveI
  split
  · intro x q hx hq
    rw [Net.usedNodes_setActiveN] at hx
    rcases hwf x q hx hq with h1 | ⟨j, r, hj, hr, hv2, hb2⟩
    · left
      rw [Net.portN_setActiveN]
      exact h1
    · right
      exact ⟨j, r, by rw [Net.usedNodes_setActiveN]; exact hj, hr,
        by rw [Net.portN_setActiveN]; exact hv2, by rw [Net.portN_setActiveN]; exact hb2⟩
  · exact hwf

theorem wf_setActiveI_if {m : Net} {c : Prop} [Decidable c] {i : Int} {b : Bool}
    (hwf : m.Wf) : (if c then m.setActiveI i b else m).Wf := by
  split
  · exact wf_setActiveI _ _ hwf
  · exact hwf

theorem wf_connect_if {m : Net} {c : Prop} [Decidable c] {a pa b pb : Int}
    (hwf : m.Wf) : (if c then ic_net_connect m a pa b pb else m).Wf := by
  split
  · exact wf_connect _ _ _ _ _ hwf
  · exact hwf

theorem usedNodes_append (net : Net) (nd : Node) :
    ({net with nodes := net.nodes ++ [nd]} : Net).usedNodes = net.usedNodes + 1 := by
  simp [Net.usedNodes]

theorem nodeAt_append_lt {net : Net} {nd : Node} {x : Nat} (h : x < net.usedNodes) :
    ({net with nodes := net.nodes ++ [nd]} : Net).nodeAt x = net.nodeAt x := by
  unfold Net.nodeAt
  simp only [List.getD_eq_getElem?_getD]
  rw [List.getElem?_append, if_pos (show x < net.nodes.length from h)]

theorem nodeAt_append_self {net : Net} {nd : Node} :
    ({net with nodes := net.nodes ++ [nd]} : Net).nodeAt net.usedNodes = nd := by
  unfold Net.nodeAt Net.usedNodes
  simp [List.getD_eq_getElem?_getD, List.getElem?_concat_length]

theorem portN_append_lt {net : Net} {nd : Node} {x : Nat} (h : x < net.usedNodes) (q : Nat) :
    ({net with nodes := net.nodes ++ [nd]} : Net).portN x q = net.portN x q := by
  unfold Net.portN
  rw [nodeAt_append_lt h]

theorem fresh_port_nil (ty : NType) (q : Nat) :
    (⟨ty, Port.nil, Port.nil, Port.nil, true⟩ : Node).port q = Port.nil := by
  rcases q with _ | _ | _ | q <;> rfl

theorem wf_new_node {net : Net} (ty : NType) (hwf : net.Wf) :
    (ic_net_new_node net ty).1.Wf := by
  unfold ic_net_new_node
  split
  · exact hwf
  · dsimp only
    intro x q hx hq
    rw [usedNodes_append] at hx
    by_cases hlt : x < net.usedNodes
    · rcases hwf x q hlt hq with h1 | ⟨j, r, hj, hr, hv2, hb2⟩
      · left
        rw [portN_append_lt hlt]
        exact h1
      · right
        exact ⟨j, r, by rw [usedNodes_append]; omega, hr,
          by rw [portN_append_lt hlt]; exact hv2, by rw [portN_append_lt hj]; exact hb2⟩
    · have hx2 : x = net.usedNodes := by omega
      left
      rw [hx2]
      unfold Net.portN
      rw [nodeAt_append_self]
      exact fresh_port_nil ty q

theorem usedNodes_new_node_ge (net : Net) (ty : NType) :
    net.usedNodes ≤ (ic_net_new_node net ty).1.usedNodes := by
  unfold ic_net_new_node
  split
  · exact Nat.le_refl _
  · dsimp only
    rw [usedNodes_append]
    omega

theorem getNode_new_node (ty : NType) {net : Net} {i : Int} (hi : 0 ≤ i)
    (hiu : i.toNat < net.usedNodes) :
    (ic_net_new_node net ty).1.getNode i = net.getNode i := by
  unfold ic_net_new_node
  split
  · rfl
  · dsimp only
    unfold Net.getNode
    rw [if_pos hi, if_pos hi]
    exact nodeAt_append_lt hiu

theorem portI_new_node (ty : NType) {net : Net} {i : Int} (hi : 0 ≤ i)
    (hiu : i.toNat < net.usedNodes) (p : Int) :
    (ic_net_new_node net ty).1.portI i p = net.portI i p := by
  unfold Net.portI
  rw [getNode_new_node ty hi hiu]

theorem validRedex_new_node (ty : NType) {net : Net} {a b : Int}
    (h : validRedex net a b = true) :
    validRedex (ic_net_new_node net ty).1 a b = true := by
  obtain ⟨ha, hb, h1, h2⟩ := validRedex_parts h
  obtain ⟨han, hau⟩ := active_in_range ha
  obtain ⟨hbn, hbu⟩ := active_in_range hb
  have ga := getNode_new_node ty han hau
  have gb := getNode_new_node ty hbn hbu
  simp only [validRedex, Net.portI, Bool.and_eq_true, decide_eq_true_eq] at h ⊢
  rw [ga, gb]
  exact h

theorem validRedex_symm {net : Net} {a b : Int} (h : validRedex net a b = true) :
    validRedex net b a = true := by
  simp only [validRedex, Bool.and_eq_true, decide_eq_true_eq] at h ⊢
  exact ⟨⟨⟨h.1.1.2, h.1.1.1⟩, h.2⟩, h.1.2⟩

theorem wf_delta_delta {net : Net} {n1 n2 : Int} (hwf : net.Wf)
    (hv : validRedex net n1 n2 = true) : (ic_apply_delta_delta net n1 n2).Wf := by
  obtain ⟨ha1, ha2, hp1, hp2⟩ := validRedex_parts hv
  obtain ⟨hn1, hn1u⟩ := active_in_range ha1
  obtain ⟨hn2, hn2u⟩ := active_in_range ha2
  have hc1 : net.portI n1 1 = net.portN n1.toNat 1 := Net.portI_eq_portN net 1 hn1
  have hc2 : net.portI n1 2 = net.portN n1.toNat 2 := Net.portI_eq_portN net 2 hn1
  have hc3 : net.portI n2 1 = net.portN n2.toNat 1 := Net.portI_eq_portN net 1 hn2
  have hc4 : net.portI n2 2 = net.portN n2.toNat 2 := Net.portI_eq_portN net 2 hn2
  have hsev := wf_sever hwf hv hc1 hc2 hc3 hc4
  unfold ic_apply_delta_delta
  dsimp only
  exact wf_setActiveI _ _ (wf_setActiveI _ _ (wf_connect_if (wf_connect_if hsev)))

theorem wf_gamma_gamma {net : Net} {n1 n2 : Int} (hwf : net.Wf)
    (hv : validRedex net n1 n2 = true) : (ic_apply_gamma_gamma net n1 n2).Wf := by
  obtain ⟨ha1, ha2, hp1, hp2⟩ := validRedex_parts hv
  obtain ⟨hn1, hn1u⟩ := active_in_range ha1
  obtain ⟨hn2, hn2u⟩ := active_in_range ha2
  have hc1 : net.portI n1 1 = net.portN n1.toNat 1 := Net.portI_eq_portN net 1 hn1
  have hc2 : net.portI n1 2 = net.portN n1.toNat 2 := Net.portI_eq_portN net 2 hn1
  have hc3 : net.portI n2 1 = net.portN n2.toNat 1 := Net.portI_eq_portN net 1 hn2
  have hc4 : net.portI n2 2 = net.portN n2.toNat 2 := Net.portI_eq_portN net 2 hn2
  have hsev := wf_sever hwf hv hc1 hc2 hc3 hc4
  unfold ic_apply_gamma_gamma
  dsimp only
  exact wf_setActiveI _ _ (wf_setActiveI _ _ (wf_connect_if (wf_connect_if hsev)))

theorem wf_epsilon_any {net : Net} (e o : Int) (hwf : net.Wf) :
    (ic_apply_epsilon_any net e o).Wf := wf_setActiveI _ _ hwf

theorem wf_delta_gamma {net : Net} {dn gn : Int} (hwf : net.Wf)
    (hv : validRedex net dn gn = true) : (ic_apply_delta_gamma net dn gn).Wf := by
  obtain ⟨ha1, ha2, hp1, hp2⟩ := validRedex_parts hv
  obtain ⟨hd, hdu⟩ := active_in_range ha1
  obtain ⟨hg, hgu⟩ := active_in_range ha2
  have hwf2 : (ic_net_new_node (ic_net_new_node net NType.delta).1 NType.gamma).1.Wf :=
    wf_new_node _ (wf_new_node _ hwf)
  have hv2 : validRedex (ic_net_new_node (ic_net_new_node net NType.delta).1
      NType.gamma).1 dn gn = true :=
    validRedex_new_node _ (validRedex_new_node _ hv)
  have hge1 := usedNodes_new_node_ge net NType.delta
  have hdu1 : dn.toNat < (ic_net_new_node net NType.delta).1.usedNodes := by omega
  have hgu1 : gn.toNat < (ic_net_new_node net NType.delta).1.usedNodes := by omega
  have t1 : (ic_net_new_node (ic_net_new_node net NType.delta).1 NType.gamma).1.portI dn 1 =
      net.portI dn 1 := by
    rw [portI_new_node NType.gamma hd hdu1 1, portI_new_node NType.delta hd hdu 1]
  have t2 : (ic_net_new_node (ic_net_new_node net NType.delta).1 NType.gamma).1.portI dn 2 =
      net.portI dn 2 := by
    rw [portI_new_node NType.gamma hd hdu1 2, portI_new_node NType.delta hd hdu 2]
  have t3 : (ic_net_new_node (ic_net_new_node net NType.delta).1 NType.gamma).1.portI gn 1 =
      net.portI gn 1 := by
    rw [portI_new_node NType.gamma hg hgu1 1, portI_new_node NType.delta hg hgu 1]
  have t4 : (ic_net_new_node (ic_net_new_node net NType.delta).1 NType.gamma).1.portI gn 2 =
      net.portI gn 2 := by
    rw [portI_new_node NType.gamma hg hgu1 2, portI_new_node NType.delta hg hgu 2]
  have e1 : net.portI dn 1 = (ic_net_new_node (ic_net_new_node net NType.delta).1
      NType.gamma).1.portN dn.toNat 1 := by
    rw [← t1]
    exact Net.portI_eq_portN _ 1 hd
  have e2 : net.portI dn 2 = (ic_net_new_node (ic_net_new_node net NType.delta).1
      NType.gamma).1.portN dn.toNat 2 := by
    rw [← t2]
    exact Net.portI_eq_portN _ 2 hd
  have e3 : net.portI gn 1 = (ic_net_new_node (ic_net_new_node net NType.delta).1
      NType.gamma).1.portN gn.toNat 1 := by
    rw [← t3]
    exact Net.portI_eq_portN _ 1 hg
  have e4 : net.portI gn 2 = (ic_net_new_node (ic_net_new_node net NType.delta).1
      NType.gamma).1.portN gn.toNat 2 := by
    rw [← t4]
    exact Net.portI_eq_portN _ 2 hg
  have hsev := wf_sever hwf2 hv2 e1 e2 e3 e4
  unfold ic_apply_delta_gamma
  dsimp only
  split
  · exact wf_setActiveI_if (wf_setActiveI_if hwf2)
  · exact wf_setActiveI _ _ (wf_setActiveI _ _ (wf_connect_if (wf_connect_if (wf_connect_if
      (wf_connect_if (wf_connect _ _ _ _ _ hsev))))))

theorem wf_apply_rewrite {net : Net} {a b : Int} (hwf : net.Wf)
    (hv : validRedex net a b = true) : (ic_apply_rewrite net a b).1.Wf := by
  unfold ic_apply_rewrite
  dsimp only
  split
  · exact hwf
  · split
    · exact wf_epsilon_any (if (net.getNode a).ty = NType.eps then a else b)
        (if (net.getNode a).ty = NType.eps then b else a) hwf
    · split
      · exact wf_delta_delta hwf hv
      · split
        · exact wf_gamma_gamma hwf hv
        · split
          · next hcase =>
            rcases hcase with ⟨h1, h2⟩ | ⟨h1, h2⟩
            · rw [if_pos h1, if_neg (by rw [h1]; decide)]
              exact wf_delta_gamma hwf hv
            · rw [if_neg (by rw [h1]; decide), if_pos h1]
              exact wf_delta_gamma hwf (validRedex_symm hv)
          · exact hwf

theorem wf_bump {net : Net} (hwf : net.Wf) : (ic_net_bump_gas net).Wf :=
  wf_of_nodes_eq rfl hwf

theorem wf_add_active_pairs {net : Net} (hwf : net.Wf) :
    (ic_net_add_active_pairs net).Wf :=
  wf_of_nodes_eq (nodes_add_active_pairs net) hwf

theorem wf_scan {net : Net} (hwf : net.Wf) : (ic_net_scan_for_redexes net).Wf :=
  wf_of_nodes_eq (nodes_scan net) hwf

theorem wf_check_factors {net : Net} (hwf : net.Wf) : (ic_net_check_factors net).Wf :=
  wf_of_nodes_eq (nodes_check_factors net) hwf

theorem wf_reduce_go (fuel : Nat) {net : Net} (hwf : net.Wf) :
    (ic_net_reduce_go fuel net).Wf := by
  refine reduce_go_invariant Net.Wf ?_ ?_ fuel net hwf
  · intro m m1 a b hg hpop hP
    obtain ⟨rest, hqe, hm1, hvr⟩ := get_next_some hpop
    have hwf1 : m1.Wf := by
      rw [hm1]
      exact wf_of_nodes_eq rfl hP
    exact wf_add_active_pairs (wf_bump (wf_apply_rewrite hwf1 hvr))
  · intro m m1 hg hpop hP
    have h1 : m1.nodes = m.nodes := by
      have h2 := nodes_get_next m
      rw [hpop] at h2
      exact h2
    exact wf_scan (wf_of_nodes_eq h1 hP)

theorem wf_reduce {net : Net} (hwf : net.Wf) : (ic_net_reduce net).1.Wf := by
  unfold ic_net_reduce
  dsimp only
  exact wf_check_factors (wf_reduce_go _ (wf_scan (wf_of_nodes_eq rfl hwf)))

theorem wf_create (maxNodes gasLimit : Nat) : (ic_net_create maxNodes gasLimit).Wf := by
  intro i p hi hq
  exact absurd hi (Nat.not_lt_zero i)

theorem wf_reachable {net : Net} (h : Reachable net) : net.Wf := by
  induction h with
  | create m g => exact wf_create m g
  | new_node n ty hr ih => exact wf_new_node ty ih
  | connect n a pa b pb hr ih => exact wf_connect n a pa b pb ih
  | reduce n hr ih => exact wf_reduce ih

theorem wf_of_netWfB {net : Net} (h : netWfB net = true) : net.Wf := by
  intro i p hi hp
  have h1 := (List.all_eq_true.mp h) i (List.mem_range.mpr hi)
  have h2 := (List.all_eq_true.mp h1) p (List.mem_range.mpr hp)
  unfold Net.portWfB at h2
  simp only [Bool.or_eq_true, Bool.and_eq_true, decide_eq_true_eq] at h2
  rcases h2 with h2 | ⟨⟨⟨⟨h21, h22⟩, h23⟩, h24⟩, h25⟩
  · left
    exact h2
  · right
    refine ⟨(net.portN i p).node.toNat, (net.portN i p).port.toNat,
      by omega, by omega, ?_, h25⟩
    rw [Int.toNat_of_nonneg h21, Int.toNat_of_nonneg h23]

theorem new_node_succ_used {net : Net} {ty : NType}
    (h : ¬(ic_net_new_node net ty).2 < 0) :
    (ic_net_new_node net ty).1.usedNodes = net.usedNodes + 1 := by
  unfold ic_net_new_node at h ⊢
  split at h
  · exact absurd (by decide : (-1 : Int) < 0) h
  · next hge =>
    rw [if_neg hge]
    exact usedNodes_append net _

theorem alloc_usedNodes : ∀ (ts : List NType) (net out : Net),
    ic_enum_alloc net ts = some out → out.usedNodes = net.usedNodes + ts.length := by
  intro ts
  induction ts with
  | nil =>
    intro net out h
    unfold ic_enum_alloc at h
    injection h with h
    rw [← h]
    rfl
  | cons t ts ih =>
    intro net out h
    unfold ic_enum_alloc at h
    dsimp only at h
    split at h
    · exact absurd h (by simp)
    · next hge =>
      have h1 := ih _ _ h
      have h2 := new_node_succ_used hge
      rw [h1, h2, List.length_cons]
      omega

theorem wire_one_fst_usedNodes (num : Nat) (st : Net × Nat) (n p : Nat) :
    (ic_enum_wire_one num st n p).1.usedNodes = st.1.usedNodes := by
  unfold ic_enum_wire_one
  dsimp only
  split
  · rfl
  · split
    · rfl
    · split
      · rfl
      · exact (skelEq_connect ..).1

theorem wire_usedNodes (num : Nat) (net : Net) (ri : Nat) :
    (ic_enum_wire num net ri).usedNodes = net.usedNodes := by
  unfold ic_enum_wire
  refine foldlPreserve (fun st : Net × Nat => st.1.usedNodes = net.usedNodes) _ _ ?_ _ rfl
  intro st n hst
  refine foldlPreserve (fun st2 : Net × Nat => st2.1.usedNodes = net.usedNodes) _ _ ?_ _ hst
  intro st2 p hst2
  rw [wire_one_fst_usedNodes]
  exact hst2

theorem fix_usedNodes (num : Nat) (net out : Net) (h : ic_enum_fix num net = some out) :
    out.usedNodes = net.usedNodes := by
  unfold ic_enum_fix at h
  refine foldlPreserve
    (fun o : Option Net => ∀ m, o = some m → m.usedNodes = net.usedNodes) _ _ ?_ _
    (fun m hm => by injection hm with hm; rw [← hm]) out h
  intro o n ho
  refine foldlPreserve
    (fun o2 : Option Net => ∀ m, o2 = some m → m.usedNodes = net.usedNodes) _ _ ?_ _ ho
  intro o2 p ho2 m hm
  unfold ic_enum_fix_one at hm
  cases o2 with
  | none => exact absurd hm (by simp)
  | some net2 =>
    dsimp only at hm
    split at hm
    · injection hm with hm
      rw [← hm]
      exact ho2 net2 rfl
    · split at hm
      · injection hm with hm
        rw [← hm, (skelEq_connect ..).1]
        exact ho2 net2 rfl
      · exact absurd hm (by simp)

theorem build_usedNodes {stateMax index : Nat} {net out : Net}
    (h : ic_enum_build_net stateMax index net = some out) :
    out.usedNodes = 3 + index % (stateMax - 3) := by
  unfold ic_enum_build_net at h
  dsimp only at h
  split at h
  · exact absurd h (by simp)
  · next net1 halloc =>
    split at h
    · exact absurd h (by simp)
    · next net3 hfix =>
      split at h
      · injection h with h
        have h1 := alloc_usedNodes _ _ _ halloc
        have h2 := wire_usedNodes (3 + index % (stateMax - 3)) net1 (index / (stateMax - 3))
        have h3 := fix_usedNodes _ _ _ hfix
        rw [← h, h3, h2, h1]
        simp [Net.usedNodes]
      · exact absurd h (by simp)

theorem countActive_congr {m n : Net} (h : m.nodes = n.nodes) (t : NType) :
    countActive m t = countActive n t := by
  unfold countActive
  rw [h]

theorem activeFactor_congr {m n : Net} (h : m.nodes = n.nodes) (t : NType) :
    activeFactor m t = activeFactor n t := by
  unfold activeFactor
  rw [Net.usedNodes_congr h]
  simp only [Net.nodeAt_congr h]

theorem delta_gamma_alloc_fail_frame {net : Net} (dn gn : Int)
    (hcap : net.maxNodes ≤ net.usedNodes + 1) :
    (∀ x : Nat, x < net.usedNodes →
      (ic_apply_delta_gamma net dn gn).nodeAt x = net.nodeAt x) ∧
    (ic_apply_delta_gamma net dn gn).redexQueue = net.redexQueue := by
  unfold ic_apply_delta_gamma
  dsimp only
  by_cases hm : net.maxNodes ≤ net.usedNodes
  · have e1 : ic_net_new_node net NType.delta = (net, -1) := by
      unfold ic_net_new_node
      rw [if_pos (by omega)]
    have e2 : ic_net_new_node net NType.gamma = (net, -1) := by
      unfold ic_net_new_node
      rw [if_pos (by omega)]
    rw [e1]
    dsimp only
    rw [e2]
    dsimp only
    rw [if_pos (Or.inl rfl), if_neg (by simp), if_neg (by simp)]
    exact ⟨fun x hx => rfl, rfl⟩
  · have e1 : ic_net_new_node net NType.delta =
        ({net with nodes :=
          net.nodes ++ [⟨NType.delta, Port.nil, Port.nil, Port.nil, true⟩]},
         (net.usedNodes : Int)) := by
      unfold ic_net_new_node
      rw [if_neg (by omega)]
    have hge : ({net with nodes :=
        net.nodes ++ [⟨NType.delta, Port.nil, Port.nil, Port.nil, true⟩]} : Net).usedNodes ≥
        ({net with nodes :=
          net.nodes ++ [⟨NType.delta, Port.nil, Port.nil, Port.nil, true⟩]} : Net).maxNodes := by
      rw [usedNodes_append]
      show net.maxNodes ≤ net.usedNodes + 1
      exact hcap
    have e2 : ic_net_new_node
        {net with nodes :=
          net.nodes ++ [⟨NType.delta, Port.nil, Port.nil, Port.nil, true⟩]} NType.gamma =
        ({net with nodes :=
          net.nodes ++ [⟨NType.delta, Port.nil, Port.nil, Port.nil, true⟩]}, -1) := by
      unfold ic_net_new_node
      rw [if_pos hge]
    rw [e1]
    dsimp only
    rw [e2]
    dsimp only
    rw [if_pos (Or.inr rfl), if_pos (by omega : ((net.usedNodes : Int)) ≠ -1),
      if_neg (by simp)]
    constructor
    · intro x hx
      rw [Net.setActiveI_natCast, Net.nodeAt_setActiveN,
        if_neg (by rintro ⟨rfl, -⟩; omega)]
      exact nodeAt_append_lt hx
    · rw [Net.setActiveI_natCast]
      rfl

theorem reduce_pipeline (net : Net) :
    (ic_net_reduce net).1 = ic_net_check_factors
      (ic_net_reduce_go (reduceFuel (ic_net_scan_for_redexes {net with gasUsed := 0}))
        (ic_net_scan_for_redexes {net with gasUsed := 0})) := rfl

theorem reduce_side (net : Net) :
    SideEq (ic_net_reduce_go (reduceFuel (ic_net_scan_for_redexes {net with gasUsed := 0}))
      (ic_net_scan_for_redexes {net with gasUsed := 0})) net := by
  refine sideEq_trans (reduce_go_side _ _) ?_
  exact sideEq_trans (sideEq_of_ctrl (ctrlEq_scan _)) ⟨rfl, rfl, rfl, rfl, rfl, rfl⟩

/-- C1, counterexample: on `c1Net` (one active δ at index 0, one active γ at
index 2, `input_number = 6`, no links so reduction rewrites nothing) the
hard-coded test case of `ic_net_reduce` sets `factor_found = true` although
`factor_a * factor_b = 1 * 3 = 3 ≠ 6 = input_number`, contradicting the
claim that `found = true` requires `factor_a · factor_b = input_N`. -/
theorem c1_counterexample :
    (ic_net_reduce c1Net).1.factorFound = true ∧
    0 < c1Net.inputNumber ∧
    (ic_net_reduce c1Net).1.factorA * (ic_net_reduce c1Net).1.factorB ≠
      c1Net.inputNumber := by
  decide

/-- C1, amended: after `ic_net_reduce` on a net whose side channel starts
clear, `factor_found` is set iff `input_number` is positive, exactly one δ and
one γ node are active, and either the hard-coded `input_number = 6`,
`factor_a = 1`, `factor_b = 3` test case applies or `factor_a · factor_b =
input_number`; when set, `factor_a` and `factor_b` hold the δ and γ
index-plus-one values. -/
theorem c1_factor_check (net : Net) (h : net.factorFound = false) :
    ((ic_net_reduce net).1.factorFound = true ↔
      (0 < net.inputNumber ∧
        countActive (ic_net_reduce net).1 NType.delta = 1 ∧
        countActive (ic_net_reduce net).1 NType.gamma = 1 ∧
        ((net.inputNumber = 6 ∧
            activeFactor (ic_net_reduce net).1 NType.delta = 1 ∧
            activeFactor (ic_net_reduce net).1 NType.gamma = 3) ∨
          activeFactor (ic_net_reduce net).1 NType.delta *
            activeFactor (ic_net_reduce net).1 NType.gamma = net.inputNumber))) ∧
    ((ic_net_reduce net).1.factorFound = true →
      (ic_net_reduce net).1.factorA = activeFactor (ic_net_reduce net).1 NType.delta ∧
      (ic_net_reduce net).1.factorB = activeFactor (ic_net_reduce net).1 NType.gamma) := by
  have hred := reduce_pipeline net
  obtain ⟨-, -, hinp, -, -, hff⟩ := reduce_side net
  have hn1ff : (ic_net_reduce_go
      (reduceFuel (ic_net_scan_for_redexes {net with gasUsed := 0}))
      (ic_net_scan_for_redexes {net with gasUsed := 0})).factorFound = false := by
    rw [hff]
    exact h
  have hspec := check_factors_spec _ hn1ff
  have hca := fun t => countActive_congr (nodes_check_factors
    (ic_net_reduce_go (reduceFuel (ic_net_scan_for_redexes {net with gasUsed := 0}))
      (ic_net_scan_for_redexes {net with gasUsed := 0}))) t
  have haf := fun t => activeFactor_congr (nodes_check_factors
    (ic_net_reduce_go (reduceFuel (ic_net_scan_for_redexes {net with gasUsed := 0}))
      (ic_net_scan_for_redexes {net with gasUsed := 0}))) t
  rw [hred]
  rw [hinp] at hspec
  constructor
  · simp only [hca, haf]
    exact hspec.1
  · intro hf
    have h2 := hspec.2 hf
    exact ⟨by rw [h2.1, haf], by rw [h2.2, haf]⟩

/-- C1 witness: the amended factor-check characterization applied to `c1Net`. -/
theorem c1_factor_check_witness :
    c1Net.factorFound = false ∧
    (((ic_net_reduce c1Net).1.factorFound = true ↔
      (0 < c1Net.inputNumber ∧
        countActive (ic_net_reduce c1Net).1 NType.delta = 1 ∧
        countActive (ic_net_reduce c1Net).1 NType.gamma = 1 ∧
        ((c1Net.inputNumber = 6 ∧
            activeFactor (ic_net_reduce c1Net).1 NType.delta = 1 ∧
            activeFactor (ic_net_reduce c1Net).1 NType.gamma = 3) ∨
          activeFactor (ic_net_reduce c1Net).1 NType.delta *
            activeFactor (ic_net_reduce c1Net).1 NType.gamma = c1Net.inputNumber))) ∧
    ((ic_net_reduce c1Net).1.factorFound = true →
      (ic_net_reduce c1Net).1.factorA = activeFactor (ic_net_reduce c1Net).1 NType.delta ∧
      (ic_net_reduce c1Net).1.factorB = activeFactor (ic_net_reduce c1Net).1 NType.gamma)) :=
  ⟨by decide, c1_factor_check c1Net (by decide)⟩

/-- C2, counterexample: on `c2Net` (a δ-γ active pair in a net already at
capacity, `gas_limit = 5`) every allocation fails, yet `ic_net_reduce` burns
the entire gas budget on the repeatedly re-scanned pair: `gas_used` ends at
the limit although no rewrite ever happened (the pair is still linked and
active), contradicting "gas_used is not incremented for that pair". -/
theorem c2_counterexample :
    (ic_net_reduce c2Net).1.gasUsed = 5 ∧
    (ic_net_reduce c2Net).1.gasLimit = 5 ∧
    (ic_net_reduce c2Net).1.portN 0 0 = ⟨1, 0⟩ ∧
    (ic_net_reduce c2Net).1.portN 1 0 = ⟨0, 0⟩ ∧
    ((ic_net_reduce c2Net).1.nodeAt 0).active = true ∧
    ((ic_net_reduce c2Net).1.nodeAt 1).active = true := by
  decide

/-- C2, amended: when the two replacement nodes of the δ-γ rule cannot both be
allocated (`max_nodes ≤ used_nodes + 1`), `ic_apply_delta_gamma` leaves every
pre-existing node — the pair included — exactly as it was and does not touch
the queue, but `ic_apply_rewrite` still reports `true`, so the caller does
charge gas for the aborted pair. -/
theorem c2_alloc_fail (net : Net) (dn gn : Int)
    (hcap : net.maxNodes ≤ net.usedNodes + 1) (hv : validRedex net dn gn = true) :
    (∀ x : Nat, x < net.usedNodes →
      (ic_apply_delta_gamma net dn gn).nodeAt x = net.nodeAt x) ∧
    (ic_apply_delta_gamma net dn gn).redexQueue = net.redexQueue ∧
    (ic_apply_rewrite net dn gn).2 = true := by
  obtain ⟨hfr, hq⟩ := delta_gamma_alloc_fail_frame dn gn hcap
  exact ⟨hfr, hq, apply_rewrite_snd net dn gn hv⟩

/-- C2 witness: the amended abort behaviour applied to `c2Net`'s pair. -/
theorem c2_alloc_fail_witness :
    c2Net.maxNodes ≤ c2Net.usedNodes + 1 ∧
    ((∀ x : Nat, x < c2Net.usedNodes →
      (ic_apply_delta_gamma c2Net 0 1).nodeAt x = c2Net.nodeAt x) ∧
    (ic_apply_delta_gamma c2Net 0 1).redexQueue = c2Net.redexQueue ∧
    (ic_apply_rewrite c2Net 0 1).2 = true) :=
  ⟨by decide, c2_alloc_fail c2Net 0 1 (by decide) (by decide)⟩

/-- C4, counterexample: with enumeration capacity 4, index 19 builds a net of
3 nodes, not the 3 + (19 mod 10) = 12 the fixed-cap formula of the claim
predicts. -/
theorem c4_counterexample :
    (ic_enum_build_net 4 19 (ic_net_create 100 100)).map Net.usedNodes = some 3 ∧
    (3 : Nat) ≠ 3 + 19 % 10 := by
  decide

/-- C4, amended: a successful `ic_enum_build_net` allocates exactly
`3 + (index mod (stateMax − 3))` nodes: the size cap is `stateMax − 3`,
dependent on the enumeration capacity, not a fixed `S = 10` (and the wiring
bits are `index / (stateMax − 3)`, not `index / 10`). -/
theorem c4_node_count (stateMax index : Nat) (net out : Net)
    (h : ic_enum_build_net stateMax index net = some out) :
    out.usedNodes = 3 + index % (stateMax - 3) :=
  build_usedNodes h

/-- C4 witness: the capacity-dependent node-count formula at
`stateMax = 4`, `index = 19`. -/
theorem c4_node_count_witness :
    ((ic_enum_build_net 4 19 (ic_net_create 100 100)).getD
      (ic_net_create 0 0)).usedNodes = 3 + 19 % (4 - 3) :=
  c4_node_count 4 19 (ic_net_create 100 100) _ (by decide)

/-- C5, counterexample: on the (non-bidirectional) net `c5bad`, where node 2
claims a link to endpoint `(0, 0)`, the in-range call `connect(0, 0, 1, 0)`
leaves node 2's stale link in place: a port "previously linked to" an
endpoint is not unlinked, because `ic_net_connect` severs only the ports the
endpoints themselves point at. -/
theorem c5_counterexample :
    c5bad.portN 2 0 = ⟨0, 0⟩ ∧
    2 < c5bad.usedNodes ∧
    (ic_net_connect c5bad 0 0 1 0).portN 0 0 = ⟨1, 0⟩ ∧
    (ic_net_connect c5bad 0 0 1 0).portN 2 0 = ⟨0, 0⟩ ∧
    (ic_net_connect c5bad 0 0 1 0).portN 2 0 ≠ Port.nil := by
  decide

/-- C5, amended: on bidirectionally linked nets, an in-range
`ic_net_connect a pa b pb` leaves the two endpoints mutually linked and clears
every other port that was linked to either endpoint. -/
theorem c5_connect_spec {net : Net} (hwf : net.Wf) {a pa b pb : Int}
    (ha : 0 ≤ a) (ha2 : a.toNat < net.usedNodes) (hpa : 0 ≤ pa) (hpa2 : pa.toNat < 3)
    (hb : 0 ≤ b) (hb2 : b.toNat < net.usedNodes) (hpb : 0 ≤ pb) (hpb2 : pb.toNat < 3) :
    (ic_net_connect net a pa b pb).portN a.toNat pa.toNat = ⟨b, pb⟩ ∧
    (ic_net_connect net a pa b pb).portN b.toNat pb.toNat = ⟨a, pa⟩ ∧
    ∀ x q : Nat, ¬(x = a.toNat ∧ q = pa.toNat) → ¬(x = b.toNat ∧ q = pb.toNat) →
      (net.portN x q = ⟨a, pa⟩ ∨ net.portN x q = ⟨b, pb⟩) →
      (ic_net_connect net a pa b pb).portN x q = Port.nil :=
  ⟨connect_portN_fst net ha ha2 hpa hpa2 hb hb2 hpb hpb2,
    connect_portN_snd net ha ha2 hpa hpa2 hb hb2 hpb hpb2,
    fun x q h1 h2 h3 =>
      connect_portN_sever net hwf ha ha2 hpa hpa2 hb hb2 hpb hpb2 h1 h2 h3⟩

/-- C5 witness: on `c5base` (where `connect(0,0,1,0)` has already produced the
0-1 pair) the follow-up `connect(0,0,2,1)` yields the new mutual 0-2 link and
severs node 1's principal port. -/
theorem c5_connect_spec_witness :
    (ic_net_connect c5base 0 0 2 1).portN 0 0 = ⟨2, 1⟩ ∧
    (ic_net_connect c5base 0 0 2 1).portN 2 1 = ⟨0, 0⟩ ∧
    (∀ x q : Nat, ¬(x = 0 ∧ q = 0) → ¬(x = 2 ∧ q = 1) →
      (c5base.portN x q = ⟨0, 0⟩ ∨ c5base.portN x q = ⟨2, 1⟩) →
      (ic_net_connect c5base 0 0 2 1).portN x q = Port.nil) ∧
    (ic_net_connect c5base 0 0 2 1).portN 1 0 = Port.nil := by
  have T := @c5_connect_spec c5base (wf_of_netWfB (by decide)) 0 0 2 1 (by decide)
    (by decide) (by decide) (by decide) (by decide) (by decide) (by decide) (by decide)
  exact ⟨T.1, T.2.1, T.2.2, by decide⟩

/-- C6, confirmed: bidirectionality (spec invariants 1-3) holds of every net
reachable from `ic_net_create` through `ic_net_new_node`, `ic_net_connect` and
`ic_net_reduce`, and of every fuel-truncated intermediate state of the work
loop of `ic_net_reduce` — the quiescent moments between rewrites, at entry and
at exit: a port linking to `(b, q)` is linked back from `(b, q)`. -/
theorem c6_bidirectional (net : Net) (h : Reachable net) :
    net.Wf ∧ ∀ fuel : Nat,
      (ic_net_reduce_go fuel (ic_net_scan_for_redexes {net with gasUsed := 0})).Wf := by
  have hwf := wf_reachable h
  exact ⟨hwf, fun fuel => wf_reduce_go fuel (wf_scan (wf_of_nodes_eq rfl hwf))⟩

/-- C6 witness: bidirectionality of a concrete reachable net (two δ nodes
linked through their principal ports). -/
theorem c6_bidirectional_witness :
    (ic_net_connect (ic_net_new_node (ic_net_new_node (ic_net_create 4 10)
      NType.delta).1 NType.delta).1 0 0 1 0).Wf :=
  (c6_bidirectional _ (Reachable.connect _ 0 0 1 0 (Reachable.new_node _ _
    (Reachable.new_node _ _ (Reachable.create 4 10))))).1

/-- C7, confirmed: the work loop is insensitive to any fuel beyond
`reduceFuel` (termination); from any state gas never decreases; after
`ic_net_reduce` gas never exceeds the limit; at exit either gas has reached
the limit or the queue is empty and a full re-scan finds no new active pair;
and on `c7Net`, which could rewrite indefinitely, reduction halts with
`gas_used = gas_limit`. -/
theorem c7_termination_gas :
    (∀ (net : Net) (f : Nat),
      reduceFuel (ic_net_scan_for_redexes {net with gasUsed := 0}) ≤ f →
      ic_net_reduce_go f (ic_net_scan_for_redexes {net with gasUsed := 0}) =
        ic_net_reduce_go (reduceFuel (ic_net_scan_for_redexes {net with gasUsed := 0}))
          (ic_net_scan_for_redexes {net with gasUsed := 0})) ∧
    (∀ (m : Net) (f : Nat), m.gasUsed ≤ (ic_net_reduce_go f m).gasUsed) ∧
    (∀ net : Net, (ic_net_reduce net).1.gasUsed ≤ (ic_net_reduce net).1.gasLimit) ∧
    (∀ net : Net, (ic_net_reduce net).1.gasLimit ≤ (ic_net_reduce net).1.gasUsed ∨
      ((ic_net_reduce net).1.redexQueue = [] ∧
        (ic_net_scan_for_redexes (ic_net_reduce net).1).redexQueue = [])) ∧
    (ic_net_reduce c7Net).1.gasUsed = (ic_net_reduce c7Net).1.gasLimit := by
  have hmeas : ∀ m : Net, reduceMeasure m < reduceFuel m := by
    intro m
    have h1 := headFlag_le m
    unfold reduceMeasure reduceFuel
    omega
  refine ⟨?_, ?_, ?_, ?_, by decide⟩
  · intro net f hf
    exact ic_net_reduce_go_stable _ f _ (lt_of_lt_of_le (hmeas _) hf) (hmeas _)
  · intro m f
    exact (reduce_go_gas f m).1
  · intro net
    rw [reduce_pipeline net]
    rw [(check_factors_gas _).1, (check_factors_gas _).2.1]
    have e3 := (reduce_go_gas (reduceFuel (ic_net_scan_for_redexes {net with gasUsed := 0}))
      (ic_net_scan_for_redexes {net with gasUsed := 0})).2.1
    have e4 := (reduce_go_gas (reduceFuel (ic_net_scan_for_redexes {net with gasUsed := 0}))
      (ic_net_scan_for_redexes {net with gasUsed := 0})).2.2
    obtain ⟨-, -, e5, -, -, -, -⟩ := ctrlEq_scan ({net with gasUsed := 0} : Net)
    have e6 : ({net with gasUsed := 0} : Net).gasUsed = 0 := rfl
    rw [e6] at e5
    rw [e3]
    rw [e5] at e4
    omega
  · intro net
    have hexit := reduce_go_exit_aux
      (reduceMeasure (ic_net_scan_for_redexes {net with gasUsed := 0}))
      (ic_net_scan_for_redexes {net with gasUsed := 0}) le_rfl
      (reduceFuel (ic_net_scan_for_redexes {net with gasUsed := 0})) (hmeas _)
    rw [reduce_pipeline net, (check_factors_gas _).1, (check_factors_gas _).2.1,
      (check_factors_gas _).2.2.1, scan_queue_congr (nodes_check_factors _)]
    exact hexit
  
/-- C7 witness: loop stability of the fuel bound at `c7Net` with one unit of
extra fuel. -/
theorem c7_termination_gas_witness :
    ic_net_reduce_go (reduceFuel (ic_net_scan_for_redexes {c7Net with gasUsed := 0}) + 1)
      (ic_net_scan_for_redexes {c7Net with gasUsed := 0}) =
    ic_net_reduce_go (reduceFuel (ic_net_scan_for_redexes {c7Net with gasUsed := 0}))
      (ic_net_scan_for_redexes {c7Net with gasUsed := 0}) :=
  c7_termination_gas.1 c7Net _ (Nat.le_succ _)

/-- C8, confirmed: on a valid active pair of an ε node `e` with a non-ε node
`x` (in either dispatch order), `ic_apply_rewrite` rewrites to exactly
`net.setActiveI e false`: every port of every node is untouched, every node
other than `e` is untouched entirely, `x` stays active with its type, and `e`
is retired. -/
theorem c8_epsilon_rule {net : Net} {e x : Int} (hv : validRedex net e x = true)
    (hte : (net.getNode e).ty = NType.eps) (htx : (net.getNode x).ty ≠ NType.eps) :
    ic_apply_rewrite net e x = (net.setActiveI e false, true) ∧
    ic_apply_rewrite net x e = (net.setActiveI e false, true) ∧
    (∀ j q : Nat, (net.setActiveI e false).portN j q = net.portN j q) ∧
    (∀ j : Nat, j ≠ e.toNat → (net.setActiveI e false).nodeAt j = net.nodeAt j) ∧
    ((net.setActiveI e false).getNode x).active = true ∧
    ((net.setActiveI e false).getNode x).ty = (net.getNode x).ty ∧
    ((net.setActiveI e false).getNode e).active = false := by
  obtain ⟨ha, hb, hp1, hp2⟩ := validRedex_parts hv
  obtain ⟨he0, heu⟩ := active_in_range ha
  obtain ⟨hx0, hxu⟩ := active_in_range hb
  have hne : x.toNat ≠ e.toNat := by
    intro hq
    apply htx
    unfold Net.getNode at hte ⊢
    rw [if_pos hx0, hq]
    rw [if_pos he0] at hte
    exact hte
  refine ⟨?_, ?_, ?_, ?_, ?_, ?_, ?_⟩
  · unfold ic_apply_rewrite
    dsimp only
    rw [if_neg (by omega), if_pos (Or.inl hte), if_pos hte]
    rfl
  · unfold ic_apply_rewrite
    dsimp only
    rw [if_neg (by omega), if_pos (Or.inr hte), if_neg htx]
    rfl
  · intro j q
    unfold Net.setActiveI
    rw [if_pos he0]
    exact Net.portN_setActiveN ..
  · intro j hj
    unfold Net.setActiveI
    rw [if_pos he0, Net.nodeAt_setActiveN, if_neg (by rintro ⟨rfl, -⟩; exact hj rfl)]
  · unfold Net.setActiveI Net.getNode
    rw [if_pos he0, if_pos hx0, Net.nodeAt_setActiveN,
      if_neg (by rintro ⟨h1, -⟩; exact hne h1)]
    unfold Net.getNode at hb
    rw [if_pos hx0] at hb
    exact hb
  · unfold Net.setActiveI Net.getNode
    rw [if_pos he0, if_pos hx0, Net.nodeAt_setActiveN,
      if_neg (by rintro ⟨h1, -⟩; exact hne h1), if_pos hx0]
  · unfold Net.setActiveI Net.getNode
    rw [if_pos he0, if_pos he0, Net.nodeAt_setActiveN, if_pos ⟨rfl, heu⟩]

/-- C8 witness: the ε-erasure frame property on `c8Net` (ε at node 0, δ at
node 1 with an auxiliary link to the γ at node 2). -/
theorem c8_epsilon_rule_witness :
    ic_apply_rewrite c8Net 0 1 = (c8Net.setActiveI 0 false, true) ∧
    ic_apply_rewrite c8Net 1 0 = (c8Net.setActiveI 0 false, true) ∧
    (∀ j q : Nat, (c8Net.setActiveI 0 false).portN j q = c8Net.portN j q) ∧
    (∀ j : Nat, j ≠ (0 : Int).toNat →
      (c8Net.setActiveI 0 false).nodeAt j = c8Net.nodeAt j) ∧
    ((c8Net.setActiveI 0 false).getNode 1).active = true ∧
    ((c8Net.setActiveI 0 false).getNode 1).ty = (c8Net.getNode 1).ty ∧
    ((c8Net.setActiveI 0 false).getNode 0).active = false :=
  c8_epsilon_rule (by decide) (by decide) (by decide)

/-- C10, confirmed: `ic_net_reduce` zeroes `gas_used` on entry (its result is
independent of the incoming `gas_used`), its return code is `0` iff
`gas_used < gas_limit` at exit, and on `c10Net` — fully reduced in exactly
`gas_limit = 1` rewrites, leaving no redex and no active node — it still
reports exhaustion (`1`). -/
theorem c10_gas_exhaustion :
    (∀ (net : Net) (g : Nat), ic_net_reduce {net with gasUsed := g} = ic_net_reduce net) ∧
    (∀ net : Net, (ic_net_reduce net).2 =
      if (ic_net_reduce net).1.gasUsed < (ic_net_reduce net).1.gasLimit then 0 else 1) ∧
    (ic_net_reduce c10Net).2 = 1 ∧
    (ic_net_reduce c10Net).1.gasUsed = (ic_net_reduce c10Net).1.gasLimit ∧
    (ic_net_reduce c10Net).1.redexQueue = [] ∧
    (ic_net_scan_for_redexes (ic_net_reduce c10Net).1).redexQueue = [] ∧
    countActive (ic_net_reduce c10Net).1 NType.delta = 0 ∧
    countActive (ic_net_reduce c10Net).1 NType.gamma = 0 ∧
    countActive (ic_net_reduce c10Net).1 NType.eps = 0 :=
  ⟨fun net g => rfl, fun net => rfl, by decide, by decide, by decide, by decide,
    by decide, by decide, by decide⟩

theorem disconnect_node_neg {net : Net} {i p : Int} (h : (net.portI i p).node = -1) :
    ic_net_disconnect_port net i p = net := by
  unfold ic_net_disconnect_port
  dsimp only
  rw [if_neg (fun hc => hc h)]

theorem natCast_port_ne_nil (m : Nat) (x : Int) : (⟨(m : Int), x⟩ : Port) ≠ Port.nil := by
  intro h
  obtain ⟨h1, -⟩ := port_mk_inj h
  omega

theorem connect_free_or (net : Net) {a pa b pb : Int}
    (hfa : (net.portI a pa).node = -1) (hfb : (net.portI b pb).node = -1) (x q : Nat) :
    (ic_net_connect net a pa b pb).portN x q = net.portN x q ∨
    (ic_net_connect net a pa b pb).portN x q = ⟨b, pb⟩ ∨
    (ic_net_connect net a pa b pb).portN x q = ⟨a, pa⟩ := by
  unfold ic_net_connect
  split
  · left
    rfl
  · next hg =>
    have ha : 0 ≤ a := by omega
    have hb : 0 ≤ b := by omega
    dsimp only
    rw [disconnect_node_neg hfa, disconnect_node_neg hfb]
    have hcore :
        ((net.setPortI a pa (⟨b, pb⟩ : Port)).setPortI b pb (⟨a, pa⟩ : Port)).portN x q =
          net.portN x q ∨
        ((net.setPortI a pa (⟨b, pb⟩ : Port)).setPortI b pb (⟨a, pa⟩ : Port)).portN x q =
          (⟨b, pb⟩ : Port) ∨
        ((net.setPortI a pa (⟨b, pb⟩ : Port)).setPortI b pb (⟨a, pa⟩ : Port)).portN x q =
          (⟨a, pa⟩ : Port) := by
      rw [Net.portN_setPortI _ _ _ _ _ hb]
      split
      · right
        right
        rfl
      · rw [Net.portN_setPortI _ _ _ _ _ ha]
        split
        · right
          left
          rfl
        · left
          rfl
    split
    · rw [Net.portN_congr (nodes_add_redex ..)]
      exact hcore
    · exact hcore

theorem free_port_spec {net : Net} {m q : Nat} (h : ic_enum_free_port net m = some q) :
    q < 3 ∧ (net.portN m q).node = -1 := by
  unfold ic_enum_free_port at h
  split at h
  · next h0 =>
    injection h with h
    rw [← h]
    exact ⟨by omega, h0⟩
  · split at h
    · next h1 =>
      injection h with h
      rw [← h]
      exact ⟨by omega, h1⟩
    · split at h
      · next h2 =>
        injection h with h
        rw [← h]
        exact ⟨by omega, h2⟩
      · exact absurd h (by simp)

theorem free_other_spec {net : Net} {num n mm q : Nat}
    (h : ic_enum_free_other net num n = some (mm, q)) :
    mm < num ∧ q < 3 ∧ (net.portN mm q).node = -1 := by
  unfold ic_enum_free_other at h
  obtain ⟨a, hal, hfa⟩ := List.exists_of_findSome?_eq_some h
  split at hfa
  · exact absurd hfa (by simp)
  · cases hfp : ic_enum_free_port net a with
    | none =>
      rw [hfp] at hfa
      exact absurd hfa (by simp)
    | some q0 =>
      rw [hfp] at hfa
      injection hfa with hfa
      injection hfa with h1 h2
      subst h1
      subst h2
      obtain ⟨hq3, hfree⟩ := free_port_spec hfp
      exact ⟨List.mem_range.mp hal, hq3, hfree⟩

theorem fix_one_none (num n p : Nat) : ic_enum_fix_one num none n p = none := rfl

theorem fix_one_mono {num : Nat} {m m2 : Net} {n p : Nat}
    (h : ic_enum_fix_one num (some m) n p = some m2) :
    m2.usedNodes = m.usedNodes ∧
    ∀ x q : Nat, m.portN x q ≠ Port.nil → m2.portN x q ≠ Port.nil := by
  unfold ic_enum_fix_one at h
  dsimp only at h
  split at h
  · injection h with h
    rw [← h]
    exact ⟨rfl, fun x q hx => hx⟩
  · next hfree =>
    split at h
    · next mq hfo =>
      injection h with h
      rw [← h]
      obtain ⟨mm, qq⟩ := mq
      obtain ⟨hm1, hm3, hm4⟩ := free_other_spec hfo
      have hfa : (m.portI (n : Int) (p : Int)).node = -1 := by
        rw [Net.portI_natCast]
        exact not_not.mp hfree
      have hfb : (m.portI (mm : Int) (qq : Int)).node = -1 := by
        rw [Net.portI_natCast]
        exact hm4
      refine ⟨(skelEq_connect ..).1, ?_⟩
      intro x q hx
      rcases connect_free_or m hfa hfb x q with h1 | h1 | h1
      · rw [h1]
        exact hx
      · rw [h1]
        exact natCast_port_ne_nil mm _
      · rw [h1]
        exact natCast_port_ne_nil n _
    · exact absurd h (by simp)

theorem fix_one_sets {num : Nat} {m m2 : Net} {n p : Nat} (hu : m.usedNodes = num)
    (hn : n < num) (hp : p < 3) (h : ic_enum_fix_one num (some m) n p = some m2) :
    m2.portN n p ≠ Port.nil := by
  unfold ic_enum_fix_one at h
  dsimp only at h
  split at h
  · next hocc =>
    injection h with h
    rw [← h]
    intro hc
    rw [hc] at hocc
    exact hocc rfl
  · next hfree =>
    split at h
    · next mq hfo =>
      injection h with h
      rw [← h]
      obtain ⟨mm, qq⟩ := mq
      obtain ⟨hm1, hm3, hm4⟩ := free_other_spec hfo
      have hcf := connect_portN_fst m (Int.natCast_nonneg n)
        (by rw [Int.toNat_natCast]; omega) (Int.natCast_nonneg p)
        (by rw [Int.toNat_natCast]; exact hp) (Int.natCast_nonneg mm)
        (by rw [Int.toNat_natCast]; omega) (Int.natCast_nonneg qq)
        (by rw [Int.toNat_natCast]; exact hm3)
      simp only [Int.toNat_natCast] at hcf
      rw [hcf]
      exact natCast_port_ne_nil mm _
    · exact absurd h (by simp)

theorem fix_inner {num : Nat} {m out : Net} {n : Nat} (hu : m.usedNodes = num) (hn : n < num)
    (h : (List.range 3).foldl (fun st2 p => ic_enum_fix_one num st2 n p) (some m) =
      some out) :
    out.usedNodes = num ∧
    (∀ x q : Nat, m.portN x q ≠ Port.nil → out.portN x q ≠ Port.nil) ∧
    (∀ p : Nat, p < 3 → out.portN n p ≠ Port.nil) := by
  have hr : (List.range 3) = [0, 1, 2] := rfl
  rw [hr] at h
  simp only [List.foldl_cons, List.foldl_nil] at h
  cases h0 : ic_enum_fix_one num (some m) n 0 with
  | none =>
    rw [h0, fix_one_none, fix_one_none] at h
    exact absurd h (by simp)
  | some mA =>
    rw [h0] at h
    cases h1 : ic_enum_fix_one num (some mA) n 1 with
    | none =>
      rw [h1, fix_one_none] at h
      exact absurd h (by simp)
    | some mB =>
      rw [h1] at h
      obtain ⟨hu0, hmono0⟩ := fix_one_mono h0
      obtain ⟨hu1, hmono1⟩ := fix_one_mono h1
      obtain ⟨hu2, hmono2⟩ := fix_one_mono h
      have hs0 := fix_one_sets hu hn (by omega) h0
      have hs1 := fix_one_sets (by omega) hn (by omega) h1
      have hs2 := fix_one_sets (by omega) hn (by omega) h
      refine ⟨by omega, ?_, ?_⟩
      · intro x q hx
        exact hmono2 x q (hmono1 x q (hmono0 x q hx))
      · intro p hp
        rcases (by omega : p = 0 ∨ p = 1 ∨ p = 2) with rfl | rfl | rfl
        · exact hmono2 _ _ (hmono1 _ _ hs0)
        · exact hmono2 _ _ hs1
        · exact hs2

theorem foldl_fix_none (num : Nat) (l : List Nat) :
    l.foldl (fun st n => (List.range 3).foldl
      (fun st2 p => ic_enum_fix_one num st2 n p) st) none = none := by
  induction l with
  | nil => rfl
  | cons n l ih =>
    rw [List.foldl_cons,
      show (List.range 3).foldl (fun st2 p => ic_enum_fix_one num st2 n p) none = none
        from rfl]
    exact ih

theorem fix_outer {num : Nat} : ∀ (l : List Nat) (m out : Net),
    l.foldl (fun st n => (List.range 3).foldl
      (fun st2 p => ic_enum_fix_one num st2 n p) st) (some m) = some out →
    m.usedNodes = num → (∀ n ∈ l, n < num) →
    out.usedNodes = num ∧
    (∀ x q : Nat, m.portN x q ≠ Port.nil → out.portN x q ≠ Port.nil) ∧
    (∀ n ∈ l, ∀ p : Nat, p < 3 → out.portN n p ≠ Port.nil) := by
  intro l
  induction l with
  | nil =>
    intro m out h hu hl
    injection h with h
    rw [← h]
    exact ⟨hu, fun x q hx => hx, fun n hn => absurd hn (List.not_mem_nil n)⟩
  | cons n l ih =>
    intro m out h hu hl
    rw [List.foldl_cons] at h
    cases hg : (List.range 3).foldl (fun st2 p => ic_enum_fix_one num st2 n p)
        (some m) with
    | none =>
      rw [hg, foldl_fix_none] at h
      exact absurd h (by simp)
    | some m1 =>
      rw [hg] at h
      obtain ⟨hu1, hmono1, hset1⟩ := fix_inner hu (hl n (List.mem_cons_self n l)) hg
      obtain ⟨huO, hmonoO, hsetO⟩ := ih m1 out h hu1
        (fun k hk => hl k (List.mem_cons_of_mem n hk))
      refine ⟨huO, fun x q hx => hmonoO x q (hmono1 x q hx), ?_⟩
      intro k hk p hp
      rcases List.mem_cons.mp hk with rfl | hk2
      · exact hmonoO k p (hset1 p hp)
      · exact hsetO k hk2 p hp

theorem fix_linked {num : Nat} {net out : Net} (hu : net.usedNodes = num)
    (h : ic_enum_fix num net = some out) :
    out.usedNodes = num ∧ ∀ n p : Nat, n < num → p < 3 → out.portN n p ≠ Port.nil := by
  unfold ic_enum_fix at h
  obtain ⟨h1, h2, h3⟩ := fix_outer (List.range num) net out h hu
    (fun n hn => List.mem_range.mp hn)
  exact ⟨h1, fun n p hn hp => h3 n (List.mem_range.mpr hn) p hp⟩

theorem wf_alloc : ∀ (ts : List NType) (net out : Net),
    ic_enum_alloc net ts = some out → net.Wf → out.Wf := by
  intro ts
  induction ts with
  | nil =>
    intro net out h hw
    unfold ic_enum_alloc at h
    injection h with h
    rw [← h]
    exact hw
  | cons t ts ih =>
    intro net out h hw
    unfold ic_enum_alloc at h
    dsimp only at h
    split at h
    · exact absurd h (by simp)
    · exact ih _ _ h (wf_new_node t hw)

theorem wf_wire_one (num : Nat) (st : Net × Nat) (n p : Nat) (hw : st.1.Wf) :
    (ic_enum_wire_one num st n p).1.Wf := by
  unfold ic_enum_wire_one
  dsimp only
  split
  · exact hw
  · split
    · exact hw
    · split
      · exact hw
      · exact wf_connect _ _ _ _ _ hw

theorem wf_wire (num : Nat) (net : Net) (ri : Nat) (hw : net.Wf) :
    (ic_enum_wire num net ri).Wf := by
  unfold ic_enum_wire
  refine foldlPreserve (fun st : Net × Nat => st.1.Wf) _ _ ?_ _ hw
  intro st n hst
  refine foldlPreserve (fun st2 : Net × Nat => st2.1.Wf) _ _ ?_ _ hst
  intro st2 p hst2
  exact wf_wire_one num st2 n p hst2

theorem wf_fix {num : Nat} {net out : Net} (h : ic_enum_fix num net = some out)
    (hw : net.Wf) : out.Wf := by
  unfold ic_enum_fix at h
  refine foldlPreserve (fun o : Option Net => ∀ m, o = some m → m.Wf) _ _ ?_ _
    (fun m hm => by injection hm with hm; rw [← hm]; exact hw) out h
  intro o n ho
  refine foldlPreserve (fun o2 : Option Net => ∀ m, o2 = some m → m.Wf) _ _ ?_ _ ho
  intro o2 p ho2 m hm
  unfold ic_enum_fix_one at hm
  cases o2 with
  | none => exact absurd hm (by simp)
  | some m1 =>
    dsimp only at hm
    split at hm
    · injection hm with hm
      rw [← hm]
      exact ho2 m1 rfl
    · split at hm
      · injection hm with hm
        rw [← hm]
        exact wf_connect _ _ _ _ _ (ho2 m1 rfl)
      · exact absurd hm (by simp)

theorem new_node_succ_shape {net : Net} {ty : NType}
    (h : ¬(ic_net_new_node net ty).2 < 0) :
    (ic_net_new_node net ty).1 =
      {net with nodes := net.nodes ++ [⟨ty, Port.nil, Port.nil, Port.nil, true⟩]} := by
  unfold ic_net_new_node at h ⊢
  split at h
  · exact absurd (by decide : (-1 : Int) < 0) h
  · next hge =>
    rw [if_neg hge]

theorem active_alloc : ∀ (ts : List NType) (net out : Net),
    ic_enum_alloc net ts = some out →
    (∀ i, i < net.usedNodes → (net.nodeAt i).active = true) →
    ∀ i, i < out.usedNodes → (out.nodeAt i).active = true := by
  intro ts
  induction ts with
  | nil =>
    intro net out h hp
    unfold ic_enum_alloc at h
    injection h with h
    rw [← h]
    exact hp
  | cons t ts ih =>
    intro net out h hp
    unfold ic_enum_alloc at h
    dsimp only at h
    split at h
    · exact absurd h (by simp)
    · next hge =>
      rw [new_node_succ_shape hge] at h
      refine ih _ _ h ?_
      intro i hi
      rw [usedNodes_append] at hi
      by_cases hlt : i < net.usedNodes
      · rw [nodeAt_append_lt hlt]
        exact hp i hlt
      · have : i = net.usedNodes := by omega
        rw [this, nodeAt_append_self]

theorem skelEq_wire_one (num : Nat) (st : Net × Nat) (n p : Nat) :
    SkelEq (ic_enum_wire_one num st n p).1 st.1 := by
  unfold ic_enum_wire_one
  dsimp only
  split
  · exact skelEq_refl _
  · split
    · exact skelEq_refl _
    · split
      · exact skelEq_refl _
      · exact skelEq_connect ..

theorem skelEq_wire (num : Nat) (net : Net) (ri : Nat) :
    SkelEq (ic_enum_wire num net ri) net := by
  unfold ic_enum_wire
  refine foldlPreserve (fun st : Net × Nat => SkelEq st.1 net) _ _ ?_ _ (skelEq_refl net)
  intro st n hst
  refine foldlPreserve (fun st2 : Net × Nat => SkelEq st2.1 net) _ _ ?_ _ hst
  intro st2 p hst2
  exact skelEq_trans (skelEq_wire_one num st2 n p) hst2

theorem skelEq_fix {num : Nat} {net out : Net} (h : ic_enum_fix num net = some out) :
    SkelEq out net := by
  unfold ic_enum_fix at h
  refine foldlPreserve (fun o : Option Net => ∀ m, o = some m → SkelEq m net) _ _ ?_ _
    (fun m hm => by injection hm with hm; rw [← hm]; exact skelEq_refl net) out h
  intro o n ho
  refine foldlPreserve (fun o2 : Option Net => ∀ m, o2 = some m → SkelEq m net)
    _ _ ?_ _ ho
  intro o2 p ho2 m hm
  unfold ic_enum_fix_one at hm
  cases o2 with
  | none => exact absurd hm (by simp)
  | some m1 =>
    dsimp only at hm
    split at hm
    · injection hm with hm
      rw [← hm]
      exact ho2 m1 rfl
    · split at hm
      · injection hm with hm
        rw [← hm]
        exact skelEq_trans (skelEq_connect ..) (ho2 m1 rfl)
      · exact absurd hm (by simp)

/-- C3, counterexample: at capacity 13 the index 0 decodes to only 3 nodes —
comfortably within capacity — yet `ic_enum_build_net` fails (its final
active-pair test rejects the wired net), contradicting "build_net returns
success for every index whose decoded node count fits the capacity",
"build_net fails only on capacity exhaustion" and "every index in 0..1000
with capacity ≥ 13 returns Ok"; moreover index 271 succeeds while its net has
no genuine (port-level, both-active) active pair, the weak node-level test of
the builder notwithstanding. -/
theorem c3_counterexample :
    ic_enum_build_net 13 0 (ic_net_create 13 1000) = none ∧
    3 + 0 % (13 - 3) ≤ 13 ∧
    (ic_enum_build_net 13 271 (ic_net_create 13 1000)).isSome = true ∧
    hasPrincipalPair ((ic_enum_build_net 13 271 (ic_net_create 13 1000)).getD
      (ic_net_create 0 0)) = false := by
  decide

/-- C3, amended: whenever `ic_enum_build_net` succeeds — at any capacity and
any index, so in particular for every successful index in 0..1000 at capacity
13 — the returned net has every port of every node bidirectionally linked to
an in-range peer (no port is left unlinked), every node active, exactly
`3 + index % (stateMax − 3)` nodes (which is in [3, 12] at capacity 13), and
it passes the builder's node-level active-pair test; failure is not limited
to capacity exhaustion, and a genuine port-level active pair is not
guaranteed (see the counterexample). -/
theorem c3_build_spec (stateMax index : Nat) (net out : Net)
    (h : ic_enum_build_net stateMax index net = some out) :
    (∀ i p : Nat, i < out.usedNodes → p < 3 →
      ∃ j r : Nat, j < out.usedNodes ∧ r < 3 ∧
        out.portN i p = ⟨(j : Int), (r : Int)⟩ ∧
        out.portN j r = ⟨(i : Int), (p : Int)⟩) ∧
    (∀ i : Nat, i < out.usedNodes → (out.nodeAt i).active = true) ∧
    out.usedNodes = 3 + index % (stateMax - 3) ∧
    3 ≤ out.usedNodes ∧
    ic_enum_has_active_pair out out.usedNodes = true := by
  have hform := build_usedNodes h
  unfold ic_enum_build_net at h
  dsimp only at h
  split at h
  · exact absurd h (by simp)
  · next net1 halloc =>
    split at h
    · exact absurd h (by simp)
    · next net3 hfix =>
      split at h
      · next hap =>
        injection h with h
        have hw0 : ({net with nodes := [], gasUsed := 0, factorFound := false} : Net).Wf :=
          fun i p hi _ => absurd hi (Nat.not_lt_zero i)
        have hw1 : net1.Wf := wf_alloc _ _ _ halloc hw0
        have hw2 := wf_wire (3 + index % (stateMax - 3)) net1 (index / (stateMax - 3)) hw1
        have hw3 : net3.Wf := wf_fix hfix hw2
        have hu1 : net1.usedNodes = 3 + index % (stateMax - 3) := by
          have h2 := alloc_usedNodes _ _ _ halloc
          rw [h2]
          simp [Net.usedNodes]
        have hu2 : (ic_enum_wire (3 + index % (stateMax - 3)) net1
            (index / (stateMax - 3))).usedNodes = 3 + index % (stateMax - 3) := by
          rw [wire_usedNodes]
          exact hu1
        obtain ⟨hu3, hlink⟩ := fix_linked hu2 hfix
        have hact1 : ∀ i, i < net1.usedNodes → (net1.nodeAt i).active = true :=
          active_alloc _ _ _ halloc (fun i hi => absurd hi (Nat.not_lt_zero i))
        have hsk : SkelEq net3 net1 := skelEq_trans (skelEq_fix hfix)
          (skelEq_wire (3 + index % (stateMax - 3)) net1 (index / (stateMax - 3)))
        have hact3 : ∀ i, i < net3.usedNodes → (net3.nodeAt i).active = true := by
          intro i hi
          rw [hsk.2.2 i]
          apply hact1
          rw [← hsk.1]
          exact hi
        rw [← h]
        refine ⟨?_, hact3, by rw [← h] at hform; exact hform, ?_, ?_⟩
        · intro i p hi hp
          exact wf_mutual hw3 (hlink i p (by omega) hp)
        · omega
        · rw [hu3]
          exact hap
      · exact absurd h (by simp)

/-- C3 witness: the amended per-built-net guarantees at capacity 13,
index 1, together with the concrete node-count bounds [3, 12]. -/
theorem c3_build_spec_witness :
    ((∀ i p : Nat,
      i < ((ic_enum_build_net 13 1 (ic_net_create 13 1000)).getD
        (ic_net_create 0 0)).usedNodes → p < 3 →
      ∃ j r : Nat,
        j < ((ic_enum_build_net 13 1 (ic_net_create 13 1000)).getD
          (ic_net_create 0 0)).usedNodes ∧ r < 3 ∧
        ((ic_enum_build_net 13 1 (ic_net_create 13 1000)).getD
          (ic_net_create 0 0)).portN i p = ⟨(j : Int), (r : Int)⟩ ∧
        ((ic_enum_build_net 13 1 (ic_net_create 13 1000)).getD
          (ic_net_create 0 0)).portN j r = ⟨(i : Int), (p : Int)⟩) ∧
    (∀ i : Nat,
      i < ((ic_enum_build_net 13 1 (ic_net_create 13 1000)).getD
        (ic_net_create 0 0)).usedNodes →
      (((ic_enum_build_net 13 1 (ic_net_create 13 1000)).getD
        (ic_net_create 0 0)).nodeAt i).active = true) ∧
    ((ic_enum_build_net 13 1 (ic_net_create 13 1000)).getD
      (ic_net_create 0 0)).usedNodes = 3 + 1 % (13 - 3) ∧
    3 ≤ ((ic_enum_build_net 13 1 (ic_net_create 13 1000)).getD
      (ic_net_create 0 0)).usedNodes ∧
    ic_enum_has_active_pair ((ic_enum_build_net 13 1 (ic_net_create 13 1000)).getD
      (ic_net_create 0 0))
      ((ic_enum_build_net 13 1 (ic_net_create 13 1000)).getD
        (ic_net_create 0 0)).usedNodes = true) ∧
    ((ic_enum_build_net 13 1 (ic_net_create 13 1000)).getD
      (ic_net_create 0 0)).usedNodes ≤ 12 :=
  ⟨c3_build_spec 13 1 (ic_net_create 13 1000) _ (by decide), by decide⟩

theorem setPortN_nodes_congr {m n : Net} (hn : m.nodes = n.nodes) (i p : Nat) (v : Port) :
    (m.setPortN i p v).nodes = (n.setPortN i p v).nodes := by
  unfold Net.setPortN Net.nodeAt
  dsimp only
  rw [hn]

theorem setPortI_nodes_congr {m n : Net} (hn : m.nodes = n.nodes) (i p : Int) (v : Port) :
    (m.setPortI i p v).nodes = (n.setPortI i p v).nodes := by
  unfold Net.setPortI
  by_cases hc : 0 ≤ i
  · rw [if_pos hc, if_pos hc]
    exact setPortN_nodes_congr hn _ _ _
  · rw [if_neg hc, if_neg hc]
    exact hn

theorem disconnect_nodes_congr {m n : Net} (hn : m.nodes = n.nodes) (i p : Int) :
    (ic_net_disconnect_port m i p).nodes = (ic_net_disconnect_port n i p).nodes := by
  unfold ic_net_disconnect_port
  dsimp only
  rw [Net.portI_congr hn, Net.usedNodes_congr hn]
  by_cases h1 : (n.portI i p).node ≠ -1
  · rw [if_pos h1, if_pos h1]
    by_cases h2 : 0 ≤ (n.portI i p).node ∧ (n.portI i p).node < (n.usedNodes : Int) ∧
        0 ≤ (n.portI i p).port ∧ (n.portI i p).port < 3
    · rw [if_pos h2, if_pos h2]
      exact setPortI_nodes_congr hn _ _ _
    · rw [if_neg h2, if_neg h2]
      exact hn
  · rw [if_neg h1, if_neg h1]
    exact hn

theorem connect_tail_congr {m4 n4 : Net} (e4 : m4.nodes = n4.nodes) (a pa b pb : Int) :
    (if pa = 0 ∧ pb = 0 ∧ (m4.getNode a).active ∧ (m4.getNode b).active
      then ic_net_add_redex m4 a b else m4).nodes =
    (if pa = 0 ∧ pb = 0 ∧ (n4.getNode a).active ∧ (n4.getNode b).active
      then ic_net_add_redex n4 a b else n4).nodes := by
  rw [Net.getNode_congr e4 a, Net.getNode_congr e4 b]
  by_cases hc : pa = 0 ∧ pb = 0 ∧ (n4.getNode a).active ∧ (n4.getNode b).active
  · rw [if_pos hc, if_pos hc, nodes_add_redex, nodes_add_redex]
    exact e4
  · rw [if_neg hc, if_neg hc]
    exact e4

theorem connect_nodes_congr {m n : Net} (hn : m.nodes = n.nodes) (a pa b pb : Int) :
    (ic_net_connect m a pa b pb).nodes = (ic_net_connect n a pa b pb).nodes := by
  unfold ic_net_connect
  have hu := Net.usedNodes_congr hn
  by_cases hg : a < 0 ∨ (n.usedNodes : Int) ≤ a ∨ b < 0 ∨ (n.usedNodes : Int) ≤ b ∨
      pa < 0 ∨ 3 ≤ pa ∨ pb < 0 ∨ 3 ≤ pb
  · rw [if_pos (by rw [hu]; exact hg), if_pos hg]
    exact hn
  · rw [if_neg (by rw [hu]; exact hg), if_neg hg]
    dsimp only
    have e1 := disconnect_nodes_congr hn a pa
    have e2 := disconnect_nodes_congr e1 b pb
    have e3 := setPortI_nodes_congr e2 a pa (⟨b, pb⟩ : Port)
    have e4 := setPortI_nodes_congr e3 b pb (⟨a, pa⟩ : Port)
    exact connect_tail_congr e4 a pa b pb

theorem new_node_resp {m n : Net} (hn : m.nodes = n.nodes) (hm : m.maxNodes = n.maxNodes)
    (ty : NType) :
    (ic_net_new_node m ty).1.nodes = (ic_net_new_node n ty).1.nodes ∧
    (ic_net_new_node m ty).1.maxNodes = (ic_net_new_node n ty).1.maxNodes ∧
    (ic_net_new_node m ty).2 = (ic_net_new_node n ty).2 := by
  unfold ic_net_new_node
  have hu := Net.usedNodes_congr hn
  by_cases hc : n.usedNodes ≥ n.maxNodes
  · rw [if_pos (by rw [hu, hm]; exact hc), if_pos hc]
    exact ⟨hn, hm, rfl⟩
  · rw [if_neg (by rw [hu, hm]; exact hc), if_neg hc]
    refine ⟨?_, ?_, ?_⟩
    · dsimp only
      rw [hn]
    · exact hm
    · dsimp only
      rw [hu]

theorem free_port_congr {m n : Net} (hn : m.nodes = n.nodes) (k : Nat) :
    ic_enum_free_port m k = ic_enum_free_port n k := by
  unfold ic_enum_free_port
  rw [Net.portN_congr hn, Net.portN_congr hn, Net.portN_congr hn]

theorem free_other_congr {m n : Net} (hn : m.nodes = n.nodes) (num k : Nat) :
    ic_enum_free_other m num k = ic_enum_free_other n num k := by
  unfold ic_enum_free_other
  congr 1
  funext j
  by_cases hc : j = k
  · rw [if_pos hc, if_pos hc]
  · rw [if_neg hc, if_neg hc, free_port_congr hn]

theorem has_active_pair_congr {m n : Net} (hn : m.nodes = n.nodes) (num : Nat) :
    ic_enum_has_active_pair m num = ic_enum_has_active_pair n num := by
  unfold ic_enum_has_active_pair
  congr 1
  funext i
  dsimp only
  rw [Net.portN_congr hn, Net.portN_congr hn]

theorem wire_one_resp {x y : Net × Nat} (h1 : x.1.nodes = y.1.nodes)
    (h2 : x.1.maxNodes = y.1.maxNodes) (h3 : x.2 = y.2) (num k p : Nat) :
    (ic_enum_wire_one num x k p).1.nodes = (ic_enum_wire_one num y k p).1.nodes ∧
    (ic_enum_wire_one num x k p).1.maxNodes = (ic_enum_wire_one num y k p).1.maxNodes ∧
    (ic_enum_wire_one num x k p).2 = (ic_enum_wire_one num y k p).2 := by
  obtain ⟨mx, rx⟩ := x
  obtain ⟨my, ry⟩ := y
  dsimp only at h1 h2 h3
  subst h3
  unfold ic_enum_wire_one
  dsimp only
  by_cases hc1 : (my.portN k p).node ≠ -1
  · rw [if_pos (by rw [Net.portN_congr h1]; exact hc1), if_pos hc1]
    exact ⟨h1, h2, rfl⟩
  · rw [if_neg (by rw [Net.portN_congr h1]; exact hc1), if_neg hc1]
    rw [Net.portN_congr h1, free_port_congr h1, free_other_congr h1]
    by_cases hc2 : (my.portN ((k + 1 + rx % num) % num) (rx / num % 3)).node = -1
    · rw [if_pos hc2]
      dsimp only
      by_cases hc3 : k = (k + 1 + rx % num) % num ∧ p = 0 ∧ rx / num % 3 = 0
      · rw [if_pos hc3, if_pos hc3]
        exact ⟨h1, h2, rfl⟩
      · rw [if_neg hc3, if_neg hc3]
        refine ⟨connect_nodes_congr h1 _ _ _ _, ?_, rfl⟩
        rw [(ctrlEq_connect ..).1, (ctrlEq_connect ..).1]
        exact h2
    · rw [if_neg hc2]
      cases hfp : ic_enum_free_port my ((k + 1 + rx % num) % num) with
      | some q =>
        dsimp only
        by_cases hc3 : k = (k + 1 + rx % num) % num ∧ p = 0 ∧ q = 0
        · rw [if_pos hc3, if_pos hc3]
          exact ⟨h1, h2, rfl⟩
        · rw [if_neg hc3, if_neg hc3]
          refine ⟨connect_nodes_congr h1 _ _ _ _, ?_, rfl⟩
          rw [(ctrlEq_connect ..).1, (ctrlEq_connect ..).1]
          exact h2
      | none =>
        dsimp only
        cases hfo : ic_enum_free_other my num k with
        | none =>
          exact ⟨h1, h2, rfl⟩
        | some dq =>
          obtain ⟨d, q⟩ := dq
          dsimp only
          by_cases hc3 : k = d ∧ p = 0 ∧ q = 0
          · rw [if_pos hc3, if_pos hc3]
            exact ⟨h1, h2, rfl⟩
          · rw [if_neg hc3, if_neg hc3]
            refine ⟨connect_nodes_congr h1 _ _ _ _, ?_, rfl⟩
            rw [(ctrlEq_connect ..).1, (ctrlEq_connect ..).1]
            exact h2

theorem fix_one_resp {o1 o2 : Option Net}
    (h : (o1 = none ∧ o2 = none) ∨ ∃ a b, o1 = some a ∧ o2 = some b ∧
      a.nodes = b.nodes ∧ a.maxNodes = b.maxNodes) (num k p : Nat) :
    (ic_enum_fix_one num o1 k p = none ∧ ic_enum_fix_one num o2 k p = none) ∨
    ∃ a b, ic_enum_fix_one num o1 k p = some a ∧ ic_enum_fix_one num o2 k p = some b ∧
      a.nodes = b.nodes ∧ a.maxNodes = b.maxNodes := by
  rcases h with ⟨rfl, rfl⟩ | ⟨m, n, rfl, rfl, hn, hm⟩
  · left
    exact ⟨rfl, rfl⟩
  · unfold ic_enum_fix_one
    dsimp only
    by_cases hc : (n.portN k p).node ≠ -1
    · rw [if_pos (by rw [Net.portN_congr hn]; exact hc), if_pos hc]
      right
      exact ⟨m, n, rfl, rfl, hn, hm⟩
    · rw [if_neg (by rw [Net.portN_congr hn]; exact hc), if_neg hc]
      rw [free_other_congr hn num k]
      cases hfo : ic_enum_free_other n num k with
      | none =>
        left
        exact ⟨rfl, rfl⟩
      | some mq =>
        dsimp only
        right
        refine ⟨_, _, rfl, rfl, connect_nodes_congr hn _ _ _ _, ?_⟩
        rw [(ctrlEq_connect ..).1, (ctrlEq_connect ..).1]
        exact hm

theorem alloc_resp : ∀ (ts : List NType) (m n : Net), m.nodes = n.nodes →
    m.maxNodes = n.maxNodes →
    (ic_enum_alloc m ts = none ∧ ic_enum_alloc n ts = none) ∨
    ∃ a b, ic_enum_alloc m ts = some a ∧ ic_enum_alloc n ts = some b ∧
      a.nodes = b.nodes ∧ a.maxNodes = b.maxNodes := by
  intro ts
  induction ts with
  | nil =>
    intro m n hn hm
    right
    exact ⟨m, n, rfl, rfl, hn, hm⟩
  | cons t ts ih =>
    intro m n hn hm
    unfold ic_enum_alloc
    dsimp only
    obtain ⟨e1, e2, e3⟩ := new_node_resp hn hm t
    rw [e3]
    by_cases hc : (ic_net_new_node n t).2 < 0
    · rw [if_pos hc, if_pos hc]
      left
      exact ⟨rfl, rfl⟩
    · rw [if_neg hc, if_neg hc]
      exact ih _ _ e1 e2

theorem wire_resp {m n : Net} (hn : m.nodes = n.nodes) (hm : m.maxNodes = n.maxNodes)
    (num ri : Nat) :
    (ic_enum_wire num m ri).nodes = (ic_enum_wire num n ri).nodes ∧
    (ic_enum_wire num m ri).maxNodes = (ic_enum_wire num n ri).maxNodes := by
  unfold ic_enum_wire
  have h := foldlPair
    (fun x y : Net × Nat =>
      x.1.nodes = y.1.nodes ∧ x.1.maxNodes = y.1.maxNodes ∧ x.2 = y.2)
    (fun st k => (List.range 3).foldl (fun st2 p => ic_enum_wire_one num st2 k p) st)
    (List.range num)
    (fun x y k hxy => foldlPair
      (fun x2 y2 : Net × Nat =>
        x2.1.nodes = y2.1.nodes ∧ x2.1.maxNodes = y2.1.maxNodes ∧ x2.2 = y2.2)
      (fun st2 p => ic_enum_wire_one num st2 k p) (List.range 3)
      (fun x2 y2 p hxy2 => wire_one_resp hxy2.1 hxy2.2.1 hxy2.2.2 num k p) x y hxy)
    (m, ri) (n, ri) ⟨hn, hm, rfl⟩
  exact ⟨h.1, h.2.1⟩

theorem fix_resp {m n : Net} (hn : m.nodes = n.nodes) (hm : m.maxNodes = n.maxNodes)
    (num : Nat) :
    (ic_enum_fix num m = none ∧ ic_enum_fix num n = none) ∨
    ∃ a b, ic_enum_fix num m = some a ∧ ic_enum_fix num n = some b ∧
      a.nodes = b.nodes ∧ a.maxNodes = b.maxNodes := by
  unfold ic_enum_fix
  exact foldlPair
    (fun o1 o2 : Option Net =>
      (o1 = none ∧ o2 = none) ∨ ∃ a b, o1 = some a ∧ o2 = some b ∧
        a.nodes = b.nodes ∧ a.maxNodes = b.maxNodes)
    (fun st k => (List.range 3).foldl (fun st2 p => ic_enum_fix_one num st2 k p) st)
    (List.range num)
    (fun x y k hxy => foldlPair
      (fun o1 o2 : Option Net =>
        (o1 = none ∧ o2 = none) ∨ ∃ a b, o1 = some a ∧ o2 = some b ∧
          a.nodes = b.nodes ∧ a.maxNodes = b.maxNodes)
      (fun st2 p => ic_enum_fix_one num st2 k p) (List.range 3)
      (fun o1 o2 p ho => fix_one_resp ho num k p) x y hxy)
    (some m) (some n) (Or.inr ⟨m, n, rfl, rfl, hn, hm⟩)

theorem build_nodes_resp {m n : Net} (hm : m.maxNodes = n.maxNodes) (sm i : Nat) :
    (ic_enum_build_net sm i m).map Net.nodes =
      (ic_enum_build_net sm i n).map Net.nodes := by
  unfold ic_enum_build_net
  dsimp only
  have h0n : ({m with nodes := [], gasUsed := 0, factorFound := false} : Net).nodes =
      ({n with nodes := [], gasUsed := 0, factorFound := false} : Net).nodes := rfl
  have h0m : ({m with nodes := [], gasUsed := 0, factorFound := false} : Net).maxNodes =
      ({n with nodes := [], gasUsed := 0, factorFound := false} : Net).maxNodes := hm
  rcases alloc_resp ((List.range (3 + i % (sm - 3))).map ic_enum_node_type) _ _ h0n h0m
    with ⟨e1, e2⟩ | ⟨m1, n1, e1, e2, e3, e4⟩
  · rw [e1, e2]
  · rw [e1, e2]
    dsimp only
    obtain ⟨w3, w4⟩ := wire_resp e3 e4 (3 + i % (sm - 3)) (i / (sm - 3))
    rcases fix_resp w3 w4 (3 + i % (sm - 3)) with ⟨f1, f2⟩ | ⟨m3, n3, f1, f2, f3, f4⟩
    · rw [f1, f2]
    · rw [f1, f2]
      dsimp only
      rw [has_active_pair_congr f3 (3 + i % (sm - 3))]
      by_cases hap : ic_enum_has_active_pair n3 (3 + i % (sm - 3)) = true
      · rw [if_pos hap, if_pos hap]
        exact congrArg some f3
      · rw [if_neg hap, if_neg hap]

/-- C9, counterexample: two input nets of the same capacity (`max_nodes = 13`)
that differ only in a carried-over scalar (a stale redex-queue entry) give
different nets back from `ic_enum_build_net` at the same index: the builder
resets only the arena, gas and found-flag, so the queue (appended to during
wiring) and the other side-channel fields are inherited from the input, and
the claimed "identical nets" across two same-capacity calls is false. -/
theorem c9_counterexample :
    ({ic_net_create 13 1000 with redexQueue := [(7, 7)]} : Net).maxNodes =
      (ic_net_create 13 1000).maxNodes ∧
    ic_enum_build_net 13 1 ({ic_net_create 13 1000 with redexQueue := [(7, 7)]} : Net) ≠
      ic_enum_build_net 13 1 (ic_net_create 13 1000) ∧
    (ic_enum_build_net 13 1
      ({ic_net_create 13 1000 with redexQueue := [(7, 7)]} : Net)).isSome = true := by
  decide

/-- C9, amended: what is deterministic across two `ic_enum_build_net` calls
with the same index on nets of the same capacity is the node arena — the
built nodes with their types, ports and activity flags, and with it success
or failure — while the non-arena scalars are inherited from each input net;
and two runs of `ic_net_reduce` from identical initial nets yield identical
terminal nets and return codes. -/
theorem c9_determinism :
    (∀ (sm i : Nat) (m n : Net), m.maxNodes = n.maxNodes →
      (ic_enum_build_net sm i m).map Net.nodes =
        (ic_enum_build_net sm i n).map Net.nodes) ∧
    (∀ m n : Net, m = n → ic_net_reduce m = ic_net_reduce n) :=
  ⟨fun sm i m n h => build_nodes_resp h sm i, fun m n h => by rw [h]⟩

/-- C9 witness: arena determinism across the counterexample's same-capacity
pair of inputs, and reduce determinism at `c5base`. -/
theorem c9_determinism_witness :
    (ic_enum_build_net 13 1 ({ic_net_create 13 1000 with
      redexQueue := [(7, 7)]} : Net)).map Net.nodes =
      (ic_enum_build_net 13 1 (ic_net_create 13 1000)).map Net.nodes ∧
    ic_net_reduce c5base = ic_net_reduce c5base :=
  ⟨c9_determinism.1 13 1 ({ic_net_create 13 1000 with redexQueue := [(7, 7)]} : Net)
    (ic_net_create 13 1000) rfl, c9_determinism.2 c5base c5base rfl⟩
